import Mathlib

set_option maxRecDepth 4096

namespace Erago

/-- Wrap an unbounded integer into Go int64 two's-complement range,
mirroring Go's int64 overflow behaviour. -/
def wrap64 (x : Int) : Int := (x + 2 ^ 63) % 2 ^ 64 - 2 ^ 63

/-- Go strconv.ParseInt(s, 10, 64): optional sign, one or more ASCII digits,
error on anything else or on 64-bit range overflow. Returns none on error. -/
def parseInt64 (s : String) : Option Int :=
  let cs := s.toList
  let signed : Bool × List Char :=
    match cs with
    | '-' :: rest => (true, rest)
    | '+' :: rest => (false, rest)
    | _ => (false, cs)
  let ds := signed.2
  if ds.isEmpty then none
  else if ds.all (fun d => d.isDigit) then
    let n : Nat := ds.foldl (fun a d => a * 10 + (d.toNat - 48)) 0
    let v : Int := if signed.1 then -(n : Int) else (n : Int)
    if -(2 ^ 63) ≤ v ∧ v ≤ 2 ^ 63 - 1 then some v else none
  else none

instance exceptDecEq {α β : Type} [DecidableEq α] [DecidableEq β] :
    DecidableEq (Except α β) := fun x y =>
  match x, y with
  | .ok a, .ok b =>
    if h : a = b then .isTrue (by rw [h])
    else .isFalse (by intro hc; cases hc; exact h rfl)
  | .error a, .error b =>
    if h : a = b then .isTrue (by rw [h])
    else .isFalse (by intro hc; cases hc; exact h rfl)
  | .ok _, .error _ => .isFalse (by intro hc; cases hc)
  | .error _, .ok _ => .isFalse (by intro hc; cases hc)

inductive ValueKind where
  | int
  | string
  deriving DecidableEq, Repr

/-- runtime Value: tagged int64/string pair, as the Go struct
(kind, i, s) with zero values for the unused field. -/
structure Value where
  kind : ValueKind
  i : Int
  s : String
  deriving DecidableEq, Repr

/-- Go constructor Int(v). -/
def VInt (v : Int) : Value := ⟨.int, v, ""⟩

/-- Go constructor Str(s). -/
def VStr (s : String) : Value := ⟨.string, 0, s⟩

/-- Value.Int64: the stored integer, or the string parsed as base-10
int64 (0 on parse error). -/
def Value.int64 (v : Value) : Int :=
  if v.kind = .int then v.i else (parseInt64 v.s).getD 0

/-- Value.String: the stored string, or the integer formatted base-10. -/
def Value.str (v : Value) : String :=
  if v.kind = .string then v.s else toString v.i

/-- Value.Truthy. -/
def Value.truthy (v : Value) : Bool :=
  if v.kind = .string then v.s ≠ "" else v.i ≠ 0

/-- int64 two's-complement bit pattern of an integer. -/
def toTwos (x : Int) : Nat := ((x % 2 ^ 64 + 2 ^ 64) % 2 ^ 64).toNat

/-- Inverse of toTwos. -/
def ofTwos (n : Nat) : Int := if n < 2 ^ 63 then (n : Int) else (n : Int) - 2 ^ 64

/-- Go int64 bitwise and. -/
def land64 (a b : Int) : Int := ofTwos (Nat.land (toTwos a) (toTwos b))

/-- Go int64 bitwise or. -/
def lor64 (a b : Int) : Int := ofTwos (Nat.lor (toTwos a) (toTwos b))

/-- Go int64 bitwise xor. -/
def xor64 (a b : Int) : Int := ofTwos (Nat.xor (toTwos a) (toTwos b))

/-- Go int64 left shift (wraps); shifting by a negative count panics in Go,
which the callers below surface as an error value. -/
def shl64 (a : Int) (b : Nat) : Int := wrap64 (a * 2 ^ b)

/-- Go int64 arithmetic right shift: floor division by a power of two. -/
def shr64 (a : Int) (b : Nat) : Int := Int.fdiv a (2 ^ b)

/-- strings.Repeat. -/
def goRepeat (s : String) (n : Nat) : String :=
  (List.replicate n s).foldl (fun a b => a ++ b) ""

/-- evalBinary from runtime/vm_expr.go: the non-short-circuit binary
operator evaluation on two Values. Go panics (negative shift count)
are surfaced as errors. -/
def evalBinary (op : String) (left right : Value) : Except String Value :=
  match op with
  | "+" =>
    if left.kind = .string ∨ right.kind = .string then
      .ok (VStr (left.str ++ right.str))
    else
      .ok (VInt (wrap64 (left.int64 + right.int64)))
  | "-" => .ok (VInt (wrap64 (left.int64 - right.int64)))
  | "*" =>
    if left.kind = .string ∧ right.kind ≠ .string then
      let n := right.int64
      if n ≤ 0 then .ok (VStr "") else .ok (VStr (goRepeat left.str n.toNat))
    else if right.kind = .string ∧ left.kind ≠ .string then
      let n := left.int64
      if n ≤ 0 then .ok (VStr "") else .ok (VStr (goRepeat right.str n.toNat))
    else
      .ok (VInt (wrap64 (left.int64 * right.int64)))
  | "/" =>
    if right.int64 = 0 then
      -- permissive gameplay behaviour: x/0 is treated as x/1
      .ok (VInt left.int64)
    else
      .ok (VInt (Int.tdiv left.int64 right.int64))
  | "%" =>
    if right.int64 = 0 then
      .ok (VInt 0)
    else
      .ok (VInt (Int.tmod left.int64 right.int64))
  | "<<" =>
    if right.int64 < 0 then .error "runtime panic: negative shift amount"
    else .ok (VInt (shl64 left.int64 right.int64.toNat))
  | ">>" =>
    if right.int64 < 0 then .error "runtime panic: negative shift amount"
    else .ok (VInt (shr64 left.int64 right.int64.toNat))
  | "&" => .ok (VInt (land64 left.int64 right.int64))
  | "|" => .ok (VInt (lor64 left.int64 right.int64))
  | "^" => .ok (VInt (xor64 left.int64 right.int64))
  | "^^" =>
    if left.truthy ≠ right.truthy then .ok (VInt 1) else .ok (VInt 0)
  | "==" =>
    if left.kind = .string ∨ right.kind = .string then
      if left.str = right.str then .ok (VInt 1) else .ok (VInt 0)
    else
      if left.int64 = right.int64 then .ok (VInt 1) else .ok (VInt 0)
  | "!=" =>
    if left.kind = .string ∨ right.kind = .string then
      if left.str ≠ right.str then .ok (VInt 1) else .ok (VInt 0)
    else
      if left.int64 ≠ right.int64 then .ok (VInt 1) else .ok (VInt 0)
  | "<" =>
    if left.int64 < right.int64 then .ok (VInt 1) else .ok (VInt 0)
  | "<=" =>
    if left.int64 ≤ right.int64 then .ok (VInt 1) else .ok (VInt 0)
  | ">" =>
    if left.int64 > right.int64 then .ok (VInt 1) else .ok (VInt 0)
  | ">=" =>
    if left.int64 ≥ right.int64 then .ok (VInt 1) else .ok (VInt 0)
  | "&&" =>
    if left.truthy ∧ right.truthy then .ok (VInt 1) else .ok (VInt 0)
  | "!&" =>
    if ¬(left.truthy ∧ right.truthy) then .ok (VInt 1) else .ok (VInt 0)
  | "||" =>
    if left.truthy ∨ right.truthy then .ok (VInt 1) else .ok (VInt 0)
  | "!|" =>
    if ¬(left.truthy ∨ right.truthy) then .ok (VInt 1) else .ok (VInt 0)
  | _ => .error "unsupported binary operator"

/-- Lexicographic order on character lists by code point; the spec-side
meaning of comparing two strings lexicographically. -/
def lexLt : List Char → List Char → Bool
  | [], [] => false
  | [], _ :: _ => true
  | _ :: _, [] => false
  | a :: as, b :: bs =>
    if a.toNat < b.toNat then true
    else if b.toNat < a.toNat then false
    else lexLt as bs

/-- Spec-side lexicographic string comparison. -/
def strLexLt (a b : String) : Bool := lexLt a.toList b.toList

/-! Interactive input mediation, from runtime/input.go. -/

/-- InputRequest from runtime/input.go. -/
structure InputRequest where
  command : String
  numeric : Bool
  oneInput : Bool
  timed : Bool
  timeoutMs : Int
  countdown : Bool
  nullable : Bool
  hasDefault : Bool
  defaultValue : Value
  timeoutMessage : String
  deriving DecidableEq, Repr

inductive InputPhase where
  | idle
  | wait
  | prompt
  deriving DecidableEq, Repr

/-- The parts of InputState that resolveInput touches (phase, current
request, queued pre-supplied values, the last value/timeout seen), plus
the VM execSteps watchdog counter it resets. -/
structure InputState where
  phase : InputPhase
  current : Option InputRequest
  queue : List String
  lastValue : String
  lastTimeout : Bool
  execSteps : Nat
  deriving DecidableEq, Repr

/-- Output record emitted to the host. -/
structure Output where
  text : String
  newLine : Bool
  deriving DecidableEq, Repr

/-- beginInputRequest: enter prompt phase (or wait phase for a plain WAIT). -/
def beginInputRequest (st : InputState) (req : InputRequest) : InputState :=
  let ph :=
    if ¬req.numeric ∧ ¬req.timed ∧ ¬req.nullable ∧ ¬req.oneInput ∧ req.command = "WAIT" then
      InputPhase.wait
    else InputPhase.prompt
  { st with phase := ph, current := some req }

/-- finishInputRequest: record the resolved value and return to idle. -/
def finishInputRequest (st : InputState) (value : String) (timeout : Bool) : InputState :=
  { st with lastValue := value, lastTimeout := timeout, current := none,
            phase := InputPhase.idle }

/-- consumeQueuedInput: pop the head of the pre-supplied input queue. -/
def consumeQueuedInput (st : InputState) : Option String × InputState :=
  match st.queue with
  | [] => (none, st)
  | v :: rest => (some v, { st with queue := rest })

/-- maybeEchoInput: emit a line unless SkipDisp is set. -/
def maybeEchoInput (skipDisp : Bool) (text : String) : List Output :=
  if skipDisp then [] else [⟨text, true⟩]

/-- An input provider: the host callback. It returns (value, timeout) or
an error, as the Go func type (string, bool, error). -/
def InputProvider : Type := InputRequest → Except String (String × Bool)

/-- resolveInput from runtime/input.go: resolve an input request against
the queue, the provider, the timed default or the plain default, in that
order. Returns the (value, timeout) result or a provider error, the final
input state and the emitted outputs. -/
def resolveInput (st0 : InputState) (provider : Option InputProvider)
    (skipDisp : Bool) (req : InputRequest) :
    Except String (String × Bool) × InputState × List Output :=
  let st1 := beginInputRequest { st0 with execSteps := 0 } req
  match consumeQueuedInput st1 with
  | (some raw, st2) => (.ok (raw, false), finishInputRequest st2 raw false, [])
  | (none, st2) =>
    match provider with
    | some p =>
      match p req with
      | .error e => (.error e, finishInputRequest st2 "" false, [])
      | .ok (value, timeout) =>
        let outs :=
          if timeout ∧ req.timeoutMessage ≠ "" then
            maybeEchoInput skipDisp req.timeoutMessage
          else []
        (.ok (value, timeout), finishInputRequest st2 value timeout, outs)
    | none =>
      if req.timed then
        let outs :=
          if req.timeoutMessage ≠ "" then maybeEchoInput skipDisp req.timeoutMessage
          else []
        if req.hasDefault then
          (.ok (req.defaultValue.str, true),
            finishInputRequest st2 req.defaultValue.str true, outs)
        else
          (.ok ("", true), finishInputRequest st2 "" true, outs)
      else if req.hasDefault then
        (.ok (req.defaultValue.str, false),
          finishInputRequest st2 req.defaultValue.str false, [])
      else
        (.ok ("", false), finishInputRequest st2 "" false, [])

/-! Indexed arrays (ArrayVar) and the array access paths of
getVarRef/setVarRef. -/

/-- Go map read (map[string]Value): lookup by key. The map is modelled as
an association list with insert-overwrite updates. -/
def mapGet (m : List (String × Value)) (k : String) : Option Value :=
  (m.find? (fun p => p.1 = k)).map (fun p => p.2)

/-- Go map write: replace the binding if the key is present, else add it. -/
def mapSet (m : List (String × Value)) (k : String) (v : Value) :
    List (String × Value) :=
  if m.any (fun p => p.1 = k) then
    m.map (fun p => if p.1 = k then (k, v) else p)
  else m ++ [(k, v)]

/-- ArrayVar: flag pair, declared dimension sizes and the sparse backing
store keyed by colon-joined index strings. -/
structure ArrayVar where
  isString : Bool
  isDynamic : Bool
  dims : List Int
  data : List (String × Value)
  deriving DecidableEq, Repr

/-- newArrayVar: empty dims become the single dimension [1]. -/
def newArrayVar (isString isDynamic : Bool) (dims : List Int) : ArrayVar :=
  { isString := isString, isDynamic := isDynamic,
    dims := if dims.isEmpty then [1] else dims, data := [] }

/-- ArrayVar.defaultValue. -/
def ArrayVar.defaultValue (a : ArrayVar) : Value :=
  if a.isString then VStr "" else VInt 0

/-- The per-index loop of ArrayVar.key: checks each index against the
dims (growing them on a dynamic array), accumulating the decimal index
parts. Returns the joined key or an error, together with the array (whose
dims a dynamic access may have grown, also before a later error). -/
def ArrayVar.keyLoop (a : ArrayVar) (index : List Int) (i : Nat)
    (parts : List String) : Except String String × ArrayVar :=
  match index with
  | [] => (.ok (String.intercalate ":" parts.reverse), a)
  | v :: rest =>
    if v < 0 then (.error "index out of range", a)
    else if a.isDynamic then
      let a2 :=
        if i ≥ a.dims.length then { a with dims := a.dims ++ [v + 1] }
        else if v ≥ a.dims.getD i 0 then { a with dims := a.dims.set i (v + 1) }
        else a
      ArrayVar.keyLoop a2 rest (i + 1) (toString v :: parts)
    else if i < a.dims.length ∧ v ≥ a.dims.getD i 0 then
      (.error "index out of range", a)
    else ArrayVar.keyLoop a rest (i + 1) (toString v :: parts)

/-- ArrayVar.key: an empty index reads slot "0"; a non-dynamic array
rejects more indices than dims; a dynamic array first grows its dims to
the index count, then each index is checked/grown by the loop. -/
def ArrayVar.key (a : ArrayVar) (index : List Int) :
    Except String String × ArrayVar :=
  if index.isEmpty then (.ok "0", a)
  else if ¬a.isDynamic ∧ index.length > a.dims.length then
    (.error "too many indices", a)
  else
    let a1 :=
      if a.isDynamic ∧ index.length > a.dims.length then
        { a with dims := a.dims ++ ((index.drop a.dims.length).map (fun v => v + 1)) }
      else a
    ArrayVar.keyLoop a1 index 0 []

/-- ArrayVar.Get: default value when the slot has no explicit entry. -/
def ArrayVar.get (a : ArrayVar) (index : List Int) :
    Except String Value × ArrayVar :=
  match a.key index with
  | (.error e, a2) => (.error e, a2)
  | (.ok k, a2) =>
    match mapGet a2.data k with
    | some v => (.ok v, a2)
    | none => (.ok a2.defaultValue, a2)

/-- ArrayVar.Set: stores the value coerced to the array's element type. -/
def ArrayVar.set (a : ArrayVar) (index : List Int) (v : Value) :
    Except String Unit × ArrayVar :=
  match a.key index with
  | (.error e, a2) => (.error e, a2)
  | (.ok k, a2) =>
    (.ok (),
      { a2 with data := mapSet a2.data k (if a2.isString then VStr v.str else VInt v.int64) })

/-- hasNegativeIndex. -/
def hasNegativeIndex (index : List Int) : Bool := index.any (fun v => v < 0)

/-- arrayHasExplicitValue: whether the slot for this index holds an
explicit entry (the key mutation is discarded, as the Go helper is only
reached after Get has normalised the dims). -/
def arrayHasExplicitValue (a : ArrayVar) (index : List Int) : Bool :=
  match a.key index with
  | (.ok k, a2) => (mapGet a2.data k).isSome
  | (.error _, _) => false

/-- The array read path of getVarRef: a Get error is converted to the
empty string when the array is string-typed and some index is negative;
when the slot has no explicit entry, a character-sheet CSV text fallback
(modelled as an optional value, none for ordinary arrays) may replace the
default. -/
def getVarRefArray (arr : ArrayVar) (index : List Int)
    (charFallback : Option Value) : Except String Value × ArrayVar :=
  match arr.get index with
  | (.error e, a2) =>
    if arr.isString ∧ hasNegativeIndex index then (.ok (VStr ""), a2)
    else (.error e, a2)
  | (.ok v, a2) =>
    if ¬arrayHasExplicitValue a2 index then
      match charFallback with
      | some fb => (.ok fb, a2)
      | none => (.ok v, a2)
    else (.ok v, a2)

/-- The array write path of setVarRef: a Set error propagates as-is; there
is no negative-index exception on writes. -/
def setVarRefArray (arr : ArrayVar) (index : List Int) (v : Value) :
    Except String Unit × ArrayVar :=
  arr.set index v

/-! Expression grammar, from the exprParser in the parser package. The
embedding works at the token level (the output of tokenizeExpr); the depth
counter of the Go parser appears as fuel, which also bounds loop progress
(ample for the concrete inputs of the claims). -/

/-- Expression tokens (tokenKind plus literal). The end of input is the
empty remaining list. -/
inductive Tok where
  | int (lit : String)
  | str (lit : String)
  | ident (lit : String)
  | lparen
  | rparen
  | comma
  | colon
  | question
  | hash
  | op (lit : String)
  deriving DecidableEq, Repr

/-- ast.Expr. -/
inductive Expr where
  | intLit (v : Int)
  | strLit (s : String)
  | varRef (name : String) (index : List Expr)
  | unary (op : String) (e : Expr)
  | binary (op : String) (left right : Expr)
  | ternary (cond onTrue onFalse : Expr)
  | call (name : String) (args : List Expr)
  | emptyLit
  | incDec (name : String) (index : List Expr) (op : String) (post : Bool)

/-- strings.ToUpper restricted to ASCII (the inputs of interest). -/
def asciiUpper (s : String) : String :=
  String.mk (s.toList.map (fun c =>
    if 'a' ≤ c ∧ c ≤ 'z' then Char.ofNat (c.toNat - 32) else c))

/-- strings.TrimSpace: drop leading and trailing whitespace. -/
def trimSpace (s : String) : String :=
  String.mk (((s.toList.dropWhile Char.isWhitespace).reverse.dropWhile
    Char.isWhitespace).reverse)

/-- opPrecedence. -/
def opPrecedence (op : String) : Nat :=
  match op with
  | "!|" => 1
  | "||" => 1
  | "!&" => 2
  | "&&" => 2
  | "|" => 3
  | "^" => 4
  | "^^" => 4
  | "&" => 5
  | "==" => 6
  | "!=" => 6
  | "<" => 7
  | "<=" => 7
  | ">" => 7
  | ">=" => 7
  | "<<" => 8
  | ">>" => 8
  | "+" => 9
  | "-" => 9
  | "*" => 10
  | "/" => 10
  | "%" => 10
  | _ => 0

mutual

/-- exprParser.parse(minPrec): a leading operand, then the binary-operator
loop, then the ternary tail at the lowest level. -/
def parseP : Nat → Nat → List Tok → Except String (Expr × List Tok)
  | 0, _, _ => .error "expression nesting too deep"
  | fuel + 1, minPrec, toks => do
    let (left, rest) ← parseLeading fuel toks
    let (left2, rest2) ← parseBinOps fuel minPrec left rest
    if minPrec ≤ 1 then
      match rest2 with
      | .question :: rest3 => do
        let (onTrue, rest4) ← parseP fuel 1 rest3
        match rest4 with
        | .hash :: rest5 => do
          let (onFalse, rest6) ← parseP fuel 1 rest5
          pure (Expr.ternary left2 onTrue onFalse, rest6)
        | _ => .error "missing # in ternary expression"
      | _ => pure (left2, rest2)
    else
      pure (left2, rest2)

/-- The binary-operator loop inside exprParser.parse: consume operators of
precedence at least minPrec, parsing each right operand at prec + 1. -/
def parseBinOps : Nat → Nat → Expr → List Tok → Except String (Expr × List Tok)
  | 0, _, _, _ => .error "expression nesting too deep"
  | fuel + 1, minPrec, left, toks =>
    match toks with
    | .op lit :: rest =>
      let prec := opPrecedence lit
      if prec < minPrec then pure (left, toks)
      else do
        let (right, rest2) ← parseP fuel (prec + 1) rest
        parseBinOps fuel minPrec (Expr.binary lit left right) rest2
    | _ => pure (left, toks)

/-- The index chain loop of a VarRef: while the next token is a colon,
parse one index expression at unary precedence (11). -/
def parseIdxLoop : Nat → List Tok → List Expr → Except String (List Expr × List Tok)
  | 0, _, _ => .error "expression nesting too deep"
  | fuel + 1, toks, acc =>
    match toks with
    | .colon :: rest => do
      let (idx, rest2) ← parseP fuel 11 rest
      parseIdxLoop fuel rest2 (acc ++ [idx])
    | _ => pure (acc, toks)

/-- The call-argument loop: commas produce empty-literal placeholders. -/
def parseArgsLoop : Nat → List Tok → List Expr → Except String (List Expr × List Tok)
  | 0, _, _ => .error "expression nesting too deep"
  | fuel + 1, toks, acc =>
    match toks with
    | .comma :: rest => parseArgsLoop fuel rest (acc ++ [Expr.emptyLit])
    | .rparen :: _ => pure (acc, toks)
    | _ => do
      let (e, rest2) ← parseP fuel 1 toks
      match rest2 with
      | .comma :: rest3 => parseArgsLoop fuel rest3 (acc ++ [e])
      | _ => pure (acc ++ [e], rest2)

/-- The leading-operand parser (parsePrefix in the Go source): literals,
identifiers (call form, or a VarRef chain with colon indices and postfix
increment or decrement), parenthesised expressions, and unary operators
whose operand is parsed at precedence 11. -/
def parseLeading : Nat → List Tok → Except String (Expr × List Tok)
  | 0, _ => .error "expression nesting too deep"
  | fuel + 1, toks =>
    match toks with
    | .int lit :: rest =>
      match parseInt64 lit with
      | some v => pure (Expr.intLit v, rest)
      | none => .error "invalid integer"
    | .str lit :: rest => pure (Expr.strLit lit, rest)
    | .ident lit :: .lparen :: rest => do
      match rest with
      | .rparen :: rest2 => pure (Expr.call (asciiUpper lit) [], rest2)
      | _ => do
        let (args, rest2) ← parseArgsLoop fuel rest []
        match rest2 with
        | .rparen :: rest3 => pure (Expr.call (asciiUpper lit) args, rest3)
        | _ => .error "missing rparen in call expression"
    | .ident lit :: rest => do
      let (index, rest2) ← parseIdxLoop fuel rest []
      match rest2 with
      | .op "++" :: rest3 =>
        pure (Expr.incDec (asciiUpper lit) index "++" true, rest3)
      | .op "--" :: rest3 =>
        pure (Expr.incDec (asciiUpper lit) index "--" true, rest3)
      | _ => pure (Expr.varRef (asciiUpper lit) index, rest2)
    | .lparen :: rest => do
      let (e, rest2) ← parseP fuel 1 rest
      match rest2 with
      | .rparen :: rest3 => pure (e, rest3)
      | _ => .error "missing rparen"
    | .op lit :: rest =>
      if lit = "+" ∨ lit = "-" ∨ lit = "!" ∨ lit = "~" then do
        let (right, rest2) ← parseP fuel 11 rest
        pure (Expr.unary lit right, rest2)
      else if lit = "++" ∨ lit = "--" then do
        let (right, rest2) ← parseP fuel 11 rest
        match right with
        | .varRef name index => pure (Expr.incDec name index lit false, rest2)
        | _ => .error "requires variable reference"
      else .error "unexpected token"
    | _ => .error "unexpected token"

end

/-- ParseExpr at token level: parse at the lowest precedence and require
the tokens to be exhausted, with the Go parser depth bound as fuel. -/
def parseExprToks (toks : List Tok) : Except String Expr :=
  match parseP 256 1 toks with
  | .ok (e, []) => .ok e
  | .ok (_, _ :: _) => .error "unexpected trailing token"
  | .error e => .error e

/-! Event-function collection (ParseERB) and BEGIN dispatch
(Run/resolveBeginTarget). Function bodies are abstracted to ids: the claim
is about which functions are dispatched and in which order. -/

/-- A parsed function as far as event dispatch is concerned: a source
order id, its (uppercase) name, and the #PRI priority flag (1 when the
property block contains #PRI, else 0). -/
structure EFunc where
  id : Nat
  name : String
  pri : Int
  deriving DecidableEq, Repr

instance : Inhabited EFunc := ⟨⟨0, "", 0⟩⟩

/-- isEventFunction. -/
def isEventFunction (name : String) : Bool :=
  match name with
  | "EVENTSHOP" | "EVENTFIRST" | "EVENTTRAIN" | "EVENTEND" | "EVENTTURNEND"
  | "EVENTCOM" | "EVENTLOAD" | "SYSTEM_TITLE" => true
  | _ => false

/-- Assoc-list lookup for the Functions and EventFunctions maps. -/
def alistGet {α : Type} (m : List (String × α)) (k : String) : Option α :=
  (m.find? (fun p => p.1 = k)).map (fun p => p.2)

/-- ParseERB collection over the declared functions in source order:
an event-named function is appended to its per-event list and only the
FIRST one is kept in the Functions map; a duplicate non-event function is
merged into the existing entry (bodies are out of scope here, so the
existing entry stays). -/
def parseERBCollect (decls : List EFunc) :
    List (String × EFunc) × List (String × List EFunc) :=
  decls.foldl
    (fun acc fn =>
      let (functions, events) := acc
      if isEventFunction fn.name then
        let events2 :=
          match alistGet events fn.name with
          | some lst =>
            events.map (fun p => if p.1 = fn.name then (fn.name, lst ++ [fn]) else p)
          | none => events ++ [(fn.name, [fn])]
        let functions2 :=
          match alistGet functions fn.name with
          | some _ => functions
          | none => functions ++ [(fn.name, fn)]
        (functions2, events2)
      else
        match alistGet functions fn.name with
        | some _ => (functions, events)
        | none => (functions ++ [(fn.name, fn)], events))
    ([], [])

/-- The inner loop of sortEventFunctions: swap when a later entry has a
strictly higher priority. -/
def sortEventInner : Nat → Array EFunc → Nat → Nat → Array EFunc
  | 0, a, _, _ => a
  | fuel + 1, a, i, j =>
    if j < a.size then
      let fi := a[i]?.getD default
      let fj := a[j]?.getD default
      let a2 := if fj.pri > fi.pri then (a.setD i fj).setD j fi else a
      sortEventInner fuel a2 i (j + 1)
    else a

/-- The outer loop of sortEventFunctions. -/
def sortEventOuter : Nat → Array EFunc → Nat → Array EFunc
  | 0, a, _ => a
  | fuel + 1, a, i =>
    if i + 1 < a.size then
      sortEventOuter fuel (sortEventInner a.size a i (i + 1)) (i + 1)
    else a

/-- sortEventFunctions: the exchange sort from ParseERB (higher priority
first, order of declaration preserved among equal priorities). -/
def sortEventFunctions (fns : List EFunc) : List EFunc :=
  (sortEventOuter fns.length fns.toArray 0).toList

/-- ParseERB: the Functions map keeps the first function per event name,
and every per-event list is sorted by priority. -/
def parseERBEventResult (decls : List EFunc) :
    List (String × EFunc) × List (String × List EFunc) :=
  let (functions, events) := parseERBCollect decls
  (functions, events.map (fun p => (p.1, sortEventFunctions p.2)))

/-- resolveBeginTarget: try the keyword itself and then its event-name
synonym, returning the first name bound in Functions. -/
def resolveBeginTarget (functions : List (String × EFunc)) (keyword : String) :
    String :=
  let kw := asciiUpper (trimSpace keyword)
  let candidates :=
    kw :: (match kw with
      | "TITLE" => ["SYSTEM_TITLE"]
      | "FIRST" => ["EVENTFIRST"]
      | "SHOP" => ["EVENTSHOP"]
      | "TRAIN" => ["EVENTTRAIN"]
      | "AFTERTRAIN" | "AFTERTRA" | "END" => ["EVENTEND"]
      | "TURNEND" => ["EVENTTURNEND"]
      | "COM" => ["EVENTCOM"]
      | "LOAD" => ["EVENTLOAD"]
      | _ => [])
  match candidates.find? (fun c => (alistGet functions c).isSome) with
  | some c => c
  | none => kw

/-- The list of functions the Run loop dispatches for one Begin(keyword):
Run calls callFunction on the single resolved name, so exactly the one
function bound to that name in the Functions map (none errors). -/
def runBeginDispatchList (functions : List (String × EFunc)) (keyword : String) :
    List EFunc :=
  match alistGet functions (resolveBeginTarget functions keyword) with
  | some f => [f]
  | none => []

/-! RAND evaluation, from the getVarRef RAND branch and the execMethodLike
RAND case. -/

/-- Modelled from the Go standard library math/rand contract: Int63n(n)
returns a value in [0, n) for n > 0 and panics for n <= 0 (the panic is
modelled as none). The generator state is a seed; the draw is modelled as
seed mod n, which satisfies the range contract. -/
def int63n (n : Int) (g : Nat) : Option (Int × Nat) :=
  if n ≤ 0 then none
  else some ((g : Int) % n, g + 1)

/-- RAND via the indexed form RAND:n in getVarRef: a bound n <= 0 yields
Int 0 without consulting the PRNG, otherwise Int63n. -/
def getVarRefRand (g : Nat) (n : Int) : Option (Value × Nat) :=
  if n ≤ 0 then some (VInt 0, g)
  else (int63n n g).map (fun p => (VInt p.1, p.2))

/-- RAND via the call form RAND(n) in execMethodLike: a missing argument
or a bound n <= 0 yields Int 0 without consulting the PRNG. -/
def execMethodLikeRand (g : Nat) (args : List Value) : Option (Value × Nat) :=
  match args with
  | [] => some (VInt 0, g)
  | a :: _ =>
    let n := a.int64
    if n ≤ 0 then some (VInt 0, g)
    else (int63n n g).map (fun p => (VInt p.1, p.2))

/-! FOR statement loop arithmetic, from the ast.ForStmt case of
runStatement. -/

/-- Outcome of one execution of a FOR body: fall through (resultNone),
CONTINUE, or BREAK. Other control results exit the loop and are out of
scope of the loop-arithmetic model. -/
inductive BodyOutcome where
  | fall
  | cont
  | brk
  deriving DecidableEq, Repr

/-- Effective FOR step: a zero step expression is replaced by 1, mirroring
`if step == 0 then step = 1` in runStatement. -/
def forStep (stepVal : Int) : Int := if stepVal = 0 then 1 else stepVal

/-- The FOR iteration loop with the body abstracted as a function of the
loop variable (the model assumes the body does not itself assign the loop
variable); none means the fuel ran out before the loop terminated, so the
loop terminates if and only if some fuel suffices. -/
def forLoopFuel : Nat → Int → Int → Int → (Int → BodyOutcome) → Option Int
  | 0, _, _, _, _ => none
  | fuel + 1, cur, limit, step, body =>
    if (step > 0 ∧ cur ≥ limit) ∨ (step < 0 ∧ cur ≤ limit) then some cur
    else
      match body cur with
      | .brk => some cur
      | _ => forLoopFuel fuel (cur + step) limit step body

/-- The FOR statement scaffold: evaluate init, limit and raw step, replace
a zero step by 1, then iterate. -/
def execFor (fuel : Nat) (init limit stepVal : Int) (body : Int → BodyOutcome) :
    Option Int :=
  forLoopFuel fuel init limit (forStep stepVal) body

/-! Binary save codec (eraBinaryWriter/eraBinaryReader). Bytes are Nats
below 256; the writers only produce such values and the readers treat a
byte list as the file content. -/

/-- Little-endian bytes of the low 16 bits of an integer (binary.Write of
an int16). -/
def le16 (v : Int) : List Nat :=
  let n := (v % 2 ^ 16).toNat
  [n % 256, n / 256 % 256]

/-- Little-endian bytes of the low 32 bits of an integer. -/
def le32 (v : Int) : List Nat :=
  let n := (v % 2 ^ 32).toNat
  [n % 256, n / 256 % 256, n / 2 ^ 16 % 256, n / 2 ^ 24 % 256]

/-- Little-endian bytes of the low 64 bits of an integer. -/
def le64 (v : Int) : List Nat :=
  let n := (v % 2 ^ 64).toNat
  [n % 256, n / 256 % 256, n / 2 ^ 16 % 256, n / 2 ^ 24 % 256,
    n / 2 ^ 32 % 256, n / 2 ^ 40 % 256, n / 2 ^ 48 % 256, n / 2 ^ 56 % 256]

/-- Read one byte. -/
def rByte (bytes : List Nat) : Except String (Nat × List Nat) :=
  match bytes with
  | [] => .error "EOF"
  | b :: rest => .ok (b, rest)

/-- Read n bytes. -/
def rBytes (n : Nat) (bytes : List Nat) : Except String (List Nat × List Nat) :=
  if bytes.length < n then .error "EOF"
  else .ok (bytes.take n, bytes.drop n)

/-- Recentre an unsigned w-bit value as a signed integer. -/
def recentre (w : Nat) (n : Nat) : Int :=
  if n < 2 ^ (w - 1) then (n : Int) else (n : Int) - 2 ^ w

/-- Little-endian unsigned value of a byte list. -/
def leVal : List Nat → Nat
  | [] => 0
  | b :: rest => b % 256 + 256 * leVal rest

/-- Read a little-endian signed 16-bit value. -/
def rLE16 (bytes : List Nat) : Except String (Int × List Nat) := do
  let (bs, rest) ← rBytes 2 bytes
  pure (recentre 16 (leVal bs), rest)

/-- Read a little-endian signed 32-bit value. -/
def rLE32 (bytes : List Nat) : Except String (Int × List Nat) := do
  let (bs, rest) ← rBytes 4 bytes
  pure (recentre 32 (leVal bs), rest)

/-- Read a little-endian signed 64-bit value. -/
def rLE64 (bytes : List Nat) : Except String (Int × List Nat) := do
  let (bs, rest) ← rBytes 8 bytes
  pure (recentre 64 (leVal bs), rest)

/-- Read a little-endian unsigned 32-bit value (the header words). -/
def rLE32u (bytes : List Nat) : Except String (Nat × List Nat) := do
  let (bs, rest) ← rBytes 4 bytes
  pure (leVal bs, rest)

/-- Read a little-endian unsigned 64-bit value (the magic header). -/
def rLE64u (bytes : List Nat) : Except String (Nat × List Nat) := do
  let (bs, rest) ← rBytes 8 bytes
  pure (leVal bs, rest)

/-- write7BitEncodedInt (on the non-negative lengths the writer emits),
with a structural fuel argument dominating the iteration count. -/
def w7F : Nat → Nat → List Nat
  | 0, v => [v]
  | fuel + 1, v =>
    if v < 0x80 then [v]
    else (v % 0x80 + 0x80) :: w7F fuel (v / 0x80)

/-- write7BitEncodedInt. -/
def w7 (v : Nat) : List Nat := w7F v v

/-- read7BitEncodedInt: up to five groups of seven bits (shift < 35). The
Go code ors each group into disjoint bit positions, which coincides with
addition. -/
def r7Aux : Nat → Nat → Nat → List Nat → Except String (Nat × List Nat)
  | 0, _, _, _ => .error "invalid 7-bit encoded int"
  | groups + 1, result, shift, bytes =>
    match bytes with
    | [] => .error "EOF"
    | b :: rest =>
      let result2 := result + b % 0x80 * 2 ^ shift
      if b % 256 < 0x80 then .ok (result2, rest)
      else r7Aux groups result2 (shift + 7) rest

/-- read7BitEncodedInt. -/
def r7 (bytes : List Nat) : Except String (Nat × List Nat) :=
  r7Aux 5 0 0 bytes

/-- utf16.Encode of one character. -/
def utf16Char (c : Char) : List Nat :=
  if c.toNat < 0x10000 then [c.toNat]
  else
    [0xD800 + (c.toNat - 0x10000) / 0x400, 0xDC00 + (c.toNat - 0x10000) % 0x400]

/-- utf16.Encode of a string. -/
def utf16Units (s : String) : List Nat :=
  s.toList.flatMap utf16Char

/-- utf16.Decode: pairs of surrogates recombine; unpaired surrogates
become U+FFFD. -/
def utf16Decode : List Nat → List Char
  | [] => []
  | [u] =>
    if (0xD800 ≤ u ∧ u < 0xDC00) ∨ (0xDC00 ≤ u ∧ u < 0xE000) then [Char.ofNat 0xFFFD]
    else [Char.ofNat u]
  | u :: v :: rest =>
    if 0xD800 ≤ u ∧ u < 0xDC00 then
      if 0xDC00 ≤ v ∧ v < 0xE000 then
        Char.ofNat (0x10000 + (u - 0xD800) * 0x400 + (v - 0xDC00)) :: utf16Decode rest
      else Char.ofNat 0xFFFD :: utf16Decode (v :: rest)
    else if 0xDC00 ≤ u ∧ u < 0xE000 then Char.ofNat 0xFFFD :: utf16Decode (v :: rest)
    else Char.ofNat u :: utf16Decode (v :: rest)

/-- writeDotNetString: a 7-bit-encoded UTF-16 byte length followed by the
little-endian UTF-16 code units; the empty string is length 0. -/
def wDotNetStr (s : String) : List Nat :=
  if s = "" then w7 0
  else
    let u16 := utf16Units s
    w7 (2 * u16.length) ++ u16.flatMap (fun u => [u % 256, u / 256 % 256])

/-- Regroup pairs of bytes into little-endian 16-bit units. -/
def bytesToUnits : List Nat → List Nat
  | b0 :: b1 :: rest => (b0 % 256 + 256 * (b1 % 256)) :: bytesToUnits rest
  | _ => []

/-- readDotNetString. -/
def rDotNetStr (bytes : List Nat) : Except String (String × List Nat) := do
  let (n, rest) ← r7 bytes
  if n = 0 then pure ("", rest)
  else if n % 2 ≠ 0 then .error "invalid utf16 byte length"
  else do
    let (bs, rest2) ← rBytes n rest
    pure (String.mk (utf16Decode (bytesToUnits bs)), rest2)

/-- Marker bytes of the compressed/array encodings. -/
def ebByte : Nat := 0xCF
def ebInt16 : Nat := 0xD0
def ebInt32 : Nat := 0xD1
def ebInt64 : Nat := 0xD2
def ebString : Nat := 0xD8
def ebEoA1 : Nat := 0xE0
def ebEoA2 : Nat := 0xE1
def ebZero : Nat := 0xF0
def ebZeroA1 : Nat := 0xF1
def ebZeroA2 : Nat := 0xF2
def ebEoD : Nat := 0xFF

/-- writeCompressedInt. -/
def cenc (v : Int) : List Nat :=
  if 0 ≤ v ∧ v ≤ (ebByte : Int) then [v.toNat]
  else if -(2 ^ 15) ≤ v ∧ v ≤ 2 ^ 15 - 1 then ebInt16 :: le16 v
  else if -(2 ^ 31) ≤ v ∧ v ≤ 2 ^ 31 - 1 then ebInt32 :: le32 v
  else ebInt64 :: le64 v

/-- readCompressedIntWithFirst. -/
def cdecFirst (b : Nat) (bytes : List Nat) : Except String (Int × List Nat) :=
  if b ≤ ebByte then .ok ((b : Int), bytes)
  else if b = ebInt16 then rLE16 bytes
  else if b = ebInt32 then rLE32 bytes
  else if b = ebInt64 then rLE64 bytes
  else .error "invalid compressed int marker"

/-- readCompressedInt. -/
def cdec (bytes : List Nat) : Except String (Int × List Nat) := do
  let (b, rest) ← rByte bytes
  cdecFirst b rest

/-! Run-length encoded dense arrays. The writers are the zero-run loops of
writeWithKeyInt1D/2D/3D and writeWithKeyStr1D/2D/3D, restructured into
row-at-a-time form (byte-for-byte identical output: a pending zero run is
flushed exactly when a later non-zero element appears, and the per-row
all-zero counters are flushed exactly when a later non-empty row appears);
the element encoding is a parameter (compressed ints, or 0xD8-marked
.NET strings). -/

/-- One row: zeros are counted and flushed as an ebZero run right before
the next non-zero element; trailing zeros are never written. -/
def rleRow {α : Type} [DecidableEq α] (zero : α) (enc : α → List Nat) :
    List α → Nat → List Nat
  | [], _ => []
  | v :: rest, countZero =>
    if v = zero then rleRow zero enc rest (countZero + 1)
    else
      (if countZero > 0 then ebZero :: cenc countZero else []) ++
        enc v ++ rleRow zero enc rest 0

/-- The 1D array body: the row runs followed by the end-of-data marker. -/
def rleBody1 {α : Type} [DecidableEq α] (zero : α) (enc : α → List Nat)
    (flat : List α) : List Nat :=
  rleRow zero enc flat 0 ++ [ebEoD]

/-- The 2D array body: all-zero rows are counted and flushed as an
ebZeroA1 run right before the next non-empty row; other rows are written
as a row run followed by ebEoA1; trailing all-zero rows are never
written. -/
def rleRows {α : Type} [DecidableEq α] (zero : α) (enc : α → List Nat) :
    List (List α) → Nat → List Nat
  | [], _ => []
  | r :: rs, countAllZero =>
    if r.all (fun v => v = zero) then rleRows zero enc rs (countAllZero + 1)
    else
      (if countAllZero > 0 then ebZeroA1 :: cenc countAllZero else []) ++
        rleRow zero enc r 0 ++ [ebEoA1] ++ rleRows zero enc rs 0

/-- The 2D array body. -/
def rleBody2 {α : Type} [DecidableEq α] (zero : α) (enc : α → List Nat)
    (rows : List (List α)) : List Nat :=
  rleRows zero enc rows 0 ++ [ebEoD]

/-- The 3D plane runs: all-zero planes are counted and flushed as an
ebZeroA2 run right before the next non-empty plane; other planes are
written as their row runs followed by ebEoA2. -/
def rlePlanes {α : Type} [DecidableEq α] (zero : α) (enc : α → List Nat) :
    List (List (List α)) → Nat → List Nat
  | [], _ => []
  | p :: ps, countAllZero2D =>
    if p.all (fun r => r.all (fun v => v = zero)) then
      rlePlanes zero enc ps (countAllZero2D + 1)
    else
      (if countAllZero2D > 0 then ebZeroA2 :: cenc countAllZero2D else []) ++
        rleRows zero enc p 0 ++ [ebEoA2] ++ rlePlanes zero enc ps 0

/-- The 3D array body. -/
def rleBody3 {α : Type} [DecidableEq α] (zero : α) (enc : α → List Nat)
    (planes : List (List (List α))) : List Nat :=
  rlePlanes zero enc planes 0 ++ [ebEoD]

/-- Split a flat dense list into rows of a given width (the row-major
layout arr[x*d1+y] of the writers); a zero width yields d0 empty rows. -/
def toRows {α : Type} (d0 d1 : Nat) (flat : List α) : List (List α) :=
  (List.range d0).map (fun x => (flat.drop (x * d1)).take d1)

/-- Split a flat dense list into d0 planes of d1 rows of width d2. -/
def toPlanes {α : Type} (d0 d1 d2 : Nat) (flat : List α) :
    List (List (List α)) :=
  (List.range d0).map (fun x => toRows d1 d2 (flat.drop (x * d1 * d2)))

/-- An element reader: consumes one already-read lead byte plus following
bytes. For int arrays this is readCompressedIntWithFirst; for string
arrays it requires the ebString marker and then reads a .NET string. -/
def decElemInt (b : Nat) (bytes : List Nat) : Except String (Int × List Nat) :=
  cdecFirst b bytes

/-- The string element reader of readStrArray1D/2D/3D. -/
def decElemStr (b : Nat) (bytes : List Nat) : Except String (String × List Nat) :=
  if b ≠ ebString then .error "invalid string array marker"
  else rDotNetStr bytes

/-- The string element writer of writeWithKeyStr1D/2D/3D. -/
def encElemStr (s : String) : List Nat := ebString :: wDotNetStr s

/-- The 1D array read loop: EoD ends, an ebZero run advances the cursor,
anything else is an element stored when the cursor is in range. -/
def rleRead1 {α : Type} (decElem : Nat → List Nat → Except String (α × List Nat)) :
    Nat → List α → Int → List Nat → Except String (List α × List Nat)
  | 0, _, _, _ => .error "out of fuel"
  | fuel + 1, arr, x, bytes => do
    let (b, rest) ← rByte bytes
    if b = ebEoD then pure (arr, rest)
    else if b = ebZero then do
      let (cnt, rest2) ← cdec rest
      rleRead1 decElem fuel arr (x + cnt) rest2
    else do
      let (v, rest2) ← decElem b rest
      let arr2 := if 0 ≤ x ∧ x < (arr.length : Int) then arr.set x.toNat v else arr
      rleRead1 decElem fuel arr2 (x + 1) rest2

/-- The 2D array read loop with cursors x (row) and y (column). -/
def rleRead2 {α : Type} (decElem : Nat → List Nat → Except String (α × List Nat))
    (d0 d1 : Nat) :
    Nat → List α → Int → Int → List Nat → Except String (List α × List Nat)
  | 0, _, _, _, _ => .error "out of fuel"
  | fuel + 1, arr, x, y, bytes => do
    let (b, rest) ← rByte bytes
    if b = ebEoD then pure (arr, rest)
    else if b = ebZeroA1 then do
      let (cnt, rest2) ← cdec rest
      rleRead2 decElem d0 d1 fuel arr (x + cnt) 0 rest2
    else if b = ebEoA1 then
      rleRead2 decElem d0 d1 fuel arr (x + 1) 0 rest
    else if b = ebZero then do
      let (cnt, rest2) ← cdec rest
      rleRead2 decElem d0 d1 fuel arr x (y + cnt) rest2
    else do
      let (v, rest2) ← decElem b rest
      let arr2 :=
        if 0 ≤ x ∧ x < (d0 : Int) ∧ 0 ≤ y ∧ y < (d1 : Int) then
          arr.set (x.toNat * d1 + y.toNat) v
        else arr
      rleRead2 decElem d0 d1 fuel arr2 x (y + 1) rest2

/-- The 3D array read loop with cursors x (plane), y (row), z (column). -/
def rleRead3 {α : Type} (decElem : Nat → List Nat → Except String (α × List Nat))
    (d0 d1 d2 : Nat) :
    Nat → List α → Int → Int → Int → List Nat → Except String (List α × List Nat)
  | 0, _, _, _, _, _ => .error "out of fuel"
  | fuel + 1, arr, x, y, z, bytes => do
    let (b, rest) ← rByte bytes
    if b = ebEoD then pure (arr, rest)
    else if b = ebZeroA2 then do
      let (cnt, rest2) ← cdec rest
      rleRead3 decElem d0 d1 d2 fuel arr (x + cnt) 0 0 rest2
    else if b = ebEoA2 then
      rleRead3 decElem d0 d1 d2 fuel arr (x + 1) 0 0 rest
    else if b = ebZeroA1 then do
      let (cnt, rest2) ← cdec rest
      rleRead3 decElem d0 d1 d2 fuel arr x (y + cnt) 0 rest2
    else if b = ebEoA1 then
      rleRead3 decElem d0 d1 d2 fuel arr x (y + 1) 0 rest
    else if b = ebZero then do
      let (cnt, rest2) ← cdec rest
      rleRead3 decElem d0 d1 d2 fuel arr x y (z + cnt) rest2
    else do
      let (v, rest2) ← decElem b rest
      let arr2 :=
        if 0 ≤ x ∧ x < (d0 : Int) ∧ 0 ≤ y ∧ y < (d1 : Int) ∧
            0 ≤ z ∧ z < (d2 : Int) then
          arr.set ((x.toNat * d1 + y.toNat) * d2 + z.toNat) v
        else arr
      rleRead3 decElem d0 d1 d2 fuel arr2 x y (z + 1) rest2

/-- Write the non-zero elements of a list into a flat array from a given
position (the effect of parsing one row run; zero elements are left
alone, which coincides with writing them into a zero-initialised array). -/
def updFrom {α : Type} [DecidableEq α] (zero : α) :
    List α → Nat → List α → List α
  | arr, _, [] => arr
  | arr, pos, v :: vs =>
    updFrom zero (if v = zero then arr else arr.set pos v) (pos + 1) vs

/-- Write rows of width d1 into a flat array from a given row index. -/
def updRows {α : Type} [DecidableEq α] (zero : α) (d1 : Nat) :
    List α → Nat → List (List α) → List α
  | arr, _, [] => arr
  | arr, x, r :: rs => updRows zero d1 (updFrom zero arr (x * d1) r) (x + 1) rs

/-- Write planes of d1 rows of width d2 into a flat array from a given
plane index. -/
def updPlanes {α : Type} [DecidableEq α] (zero : α) (d1 d2 : Nat) :
    List α → Nat → List (List (List α)) → List α
  | arr, _, [] => arr
  | arr, x, p :: ps => updPlanes zero d1 d2 (updRows zero d2 arr (x * d1) p) (x + 1) ps

/-- Number of reader iterations needed to consume one row run. -/
def rowIter {α : Type} [DecidableEq α] (zero : α) : List α → Nat → Nat
  | [], _ => 0
  | v :: vs, c =>
    if v = zero then rowIter zero vs (c + 1)
    else (if c > 0 then 1 else 0) + 1 + rowIter zero vs 0

/-- Number of reader iterations needed to consume a 2D row sequence. -/
def rowsIter {α : Type} [DecidableEq α] (zero : α) : List (List α) → Nat → Nat
  | [], _ => 0
  | r :: rs, a1 =>
    if r.all (fun v => v = zero) then rowsIter zero rs (a1 + 1)
    else (if a1 > 0 then 1 else 0) + rowIter zero r 0 + 1 + rowsIter zero rs 0

/-- Number of reader iterations needed to consume a 3D plane sequence. -/
def planesIter {α : Type} [DecidableEq α] (zero : α) :
    List (List (List α)) → Nat → Nat
  | [], _ => 0
  | p :: ps, a2 =>
    if p.all (fun r => r.all (fun v => v = zero)) then planesIter zero ps (a2 + 1)
    else (if a2 > 0 then 1 else 0) + rowsIter zero p 0 + 1 + planesIter zero ps 0

/-! Dense array conversions (arrayToDenseInt/Str, denseIntToArray,
denseStrToArray, parseIndexKey) and the full var payload codec. -/

/-- strings.Split on the colon separator. -/
def splitOnColon : List Char → List (List Char)
  | [] => [[]]
  | c :: rest =>
    if c = ':' then [] :: splitOnColon rest
    else
      match splitOnColon rest with
      | [] => [[c]]
      | p :: ps => (c :: p) :: ps

/-- parseIndexKey: a trimmed colon-separated list of base-10 integers. -/
def parseIndexKey (key : String) : Option (List Int) :=
  let k := trimSpace key
  if k = "" then none
  else
    let parts := (splitOnColon k.toList).map (fun cs => trimSpace (String.mk cs))
    let vals := parts.map parseInt64
    if vals.all (fun o => o.isSome) then some (vals.map (fun o => o.getD 0))
    else none

/-- The row-major offset loop of arrayToDenseInt/Str: iterate the dims
from the last to the first, multiplying up the stride; a missing index
component counts as 0 and an out-of-range component poisons the offset
to -1. -/
def offsetOf (dims idx : List Int) : Int :=
  (((List.range dims.length).reverse).foldl
    (fun (st : Int × Int × Bool) i =>
      let (off, mul, dead) := st
      if dead then st
      else
        let iv := if i < idx.length then idx.getD i 0 else 0
        if iv < 0 ∨ iv ≥ dims.getD i 0 then (-1, mul, true)
        else (off + iv * mul, mul * dims.getD i 0, false))
    ((0 : Int), (1 : Int), false)).1

/-- The size loop of arrayToDenseInt/Str: negative dims count as 0, a zero
dim short-circuits to total 0, and a total above 1e6 is an error. -/
def totalDims : Nat → List Int → Except String Nat
  | acc, [] => .ok acc
  | acc, d :: rest =>
    let d2 : Nat := if d < 0 then 0 else d.toNat
    if d2 = 0 then .ok 0
    else
      let t := acc * d2
      if t > 1000000 then .error "array too large for binary save"
      else totalDims t rest

/-- arrayToDenseInt: flatten the sparse backing store into a row-major
dense list (the Go map iteration appears as the assoc-list order). -/
def arrayToDenseInt (arr : ArrayVar) : Except String (List Int × List Int) := do
  let dims := if arr.dims = [] then [(1 : Int)] else arr.dims
  if dims.length > 3 then .error "array dimension > 3 is not supported in binary save"
  else do
    let total ← totalDims 1 dims
    let flat := arr.data.foldl
      (fun flat p =>
        match parseIndexKey p.1 with
        | none => flat
        | some idx =>
          if idx.length = 0 ∨ idx.length > dims.length then flat
          else
            let off := offsetOf dims idx
            if 0 ≤ off ∧ off < (flat.length : Int) then flat.set off.toNat p.2.int64
            else flat)
      (List.replicate total (0 : Int))
    pure (flat, dims)

/-- arrayToDenseStr. -/
def arrayToDenseStr (arr : ArrayVar) : Except String (List String × List Int) := do
  let dims := if arr.dims = [] then [(1 : Int)] else arr.dims
  if dims.length > 3 then .error "array dimension > 3 is not supported in binary save"
  else do
    let total ← totalDims 1 dims
    let flat := arr.data.foldl
      (fun flat p =>
        match parseIndexKey p.1 with
        | none => flat
        | some idx =>
          if idx.length = 0 ∨ idx.length > dims.length then flat
          else
            let off := offsetOf dims idx
            if 0 ≤ off ∧ off < (flat.length : Int) then flat.set off.toNat p.2.str
            else flat)
      (List.replicate total "")
    pure (flat, dims)

/-- The canonical index of a flat position, by dimension count (the
switch in denseIntToArray/denseStrToArray). Division is by the Nat images
of the trailing dims (positive whenever a non-zero element exists). -/
def idxForFlat (dims : List Int) (d1 d2 : Nat) (i : Nat) : List Int :=
  match dims.length with
  | 1 => [(i : Int)]
  | 2 => [((i / d1 : Nat) : Int), ((i % d1 : Nat) : Int)]
  | _ =>
    [((i / (d1 * d2) : Nat) : Int),
      ((i % (d1 * d2) / d2 : Nat) : Int),
      ((i % (d1 * d2) % d2 : Nat) : Int)]

/-- The store loop of denseIntToArray: non-zero cells are Set at their
canonical index; a 1D overrun stops after the write. -/
def denseIntLoop (dims : List Int) (d0 : Int) (d1 d2 : Nat) :
    List Int → Nat → ArrayVar → ArrayVar
  | [], _, arr => arr
  | v :: rest, i, arr =>
    if v = 0 then denseIntLoop dims d0 d1 d2 rest (i + 1) arr
    else
      let arr2 := (arr.set (idxForFlat dims d1 d2 i) (VInt v)).2
      if dims.length = 1 ∧ (i : Int) ≥ d0 then arr2
      else denseIntLoop dims d0 d1 d2 rest (i + 1) arr2

/-- denseIntToArray: re-materialise a dense payload as a dynamic int
array. -/
def denseIntToArray (flat : List Int) (dims0 : List Int) : ArrayVar :=
  let arr := newArrayVar false true dims0
  let dims := if dims0 = [] then [(1 : Int)] else dims0
  let d0 := dims.getD 0 1
  let d1 : Nat := if dims.length > 1 then (dims.getD 1 1).toNat else 1
  let d2 : Nat := if dims.length > 2 then (dims.getD 2 1).toNat else 1
  denseIntLoop dims d0 d1 d2 flat 0 arr

/-- The store loop of denseStrToArray. -/
def denseStrLoop (dims : List Int) (d0 : Int) (d1 d2 : Nat) :
    List String → Nat → ArrayVar → ArrayVar
  | [], _, arr => arr
  | v :: rest, i, arr =>
    if v = "" then denseStrLoop dims d0 d1 d2 rest (i + 1) arr
    else
      let arr2 := (arr.set (idxForFlat dims d1 d2 i) (VStr v)).2
      if dims.length = 1 ∧ (i : Int) ≥ d0 then arr2
      else denseStrLoop dims d0 d1 d2 rest (i + 1) arr2

/-- denseStrToArray. -/
def denseStrToArray (flat : List String) (dims0 : List Int) : ArrayVar :=
  let arr := newArrayVar true true dims0
  let dims := if dims0 = [] then [(1 : Int)] else dims0
  let d0 := dims.getD 0 1
  let d1 : Nat := if dims.length > 1 then (dims.getD 1 1).toNat else 1
  let d2 : Nat := if dims.length > 2 then (dims.getD 2 1).toNat else 1
  denseStrLoop dims d0 d1 d2 flat 0 arr

/-! Per-entry writers (writeWithKey*) and the full payload. -/

/-- eraSaveDataType codes. -/
def etInt : Nat := 0x00
def etIntArr1 : Nat := 0x01
def etIntArr2 : Nat := 0x02
def etIntArr3 : Nat := 0x03
def etStr : Nat := 0x10
def etStrArr1 : Nat := 0x11
def etStrArr2 : Nat := 0x12
def etStrArr3 : Nat := 0x13
def etSep : Nat := 0xFD
def etEOC : Nat := 0xFE
def etEOF : Nat := 0xFF

/-- writeWithKeyInt. -/
def writeWithKeyInt (key : String) (v : Int) : List Nat :=
  etInt :: (wDotNetStr key ++ cenc v)

/-- writeWithKeyStr. -/
def writeWithKeyStr (key s : String) : List Nat :=
  etStr :: (wDotNetStr key ++ wDotNetStr s)

/-- writeWithKeyInt1D: type, key, int32 length, zero-run body, EoD. -/
def writeWithKeyInt1D (key : String) (flat : List Int) : List Nat :=
  etIntArr1 :: (wDotNetStr key ++ le32 flat.length ++ rleBody1 0 cenc flat)

/-- writeWithKeyInt2D. -/
def writeWithKeyInt2D (key : String) (flat : List Int) (d0 d1 : Int) : List Nat :=
  etIntArr2 :: (wDotNetStr key ++ le32 d0 ++ le32 d1 ++
    rleBody2 0 cenc (toRows d0.toNat d1.toNat flat))

/-- writeWithKeyInt3D. -/
def writeWithKeyInt3D (key : String) (flat : List Int) (d0 d1 d2 : Int) : List Nat :=
  etIntArr3 :: (wDotNetStr key ++ le32 d0 ++ le32 d1 ++ le32 d2 ++
    rleBody3 0 cenc (toPlanes d0.toNat d1.toNat d2.toNat flat))

/-- writeWithKeyStr1D. -/
def writeWithKeyStr1D (key : String) (flat : List String) : List Nat :=
  etStrArr1 :: (wDotNetStr key ++ le32 flat.length ++ rleBody1 "" encElemStr flat)

/-- writeWithKeyStr2D. -/
def writeWithKeyStr2D (key : String) (flat : List String) (d0 d1 : Int) : List Nat :=
  etStrArr2 :: (wDotNetStr key ++ le32 d0 ++ le32 d1 ++
    rleBody2 "" encElemStr (toRows d0.toNat d1.toNat flat))

/-- writeWithKeyStr3D. -/
def writeWithKeyStr3D (key : String) (flat : List String) (d0 d1 d2 : Int) : List Nat :=
  etStrArr3 :: (wDotNetStr key ++ le32 d0 ++ le32 d1 ++ le32 d2 ++
    rleBody3 "" encElemStr (toPlanes d0.toNat d1.toNat d2.toNat flat))

/-- The bytes of one array entry of writeVarBinaryFile: dense conversion
then the per-dimension writer (more than three dims is an error). -/
def writeArrayEntry (key : String) (arr : ArrayVar) : Except String (List Nat) := do
  if arr.isString then do
    let (flat, dims) ← arrayToDenseStr arr
    match dims with
    | [_] => pure (writeWithKeyStr1D key flat)
    | [d0, d1] => pure (writeWithKeyStr2D key flat d0 d1)
    | [d0, d1, d2] => pure (writeWithKeyStr3D key flat d0 d1 d2)
    | _ => .error "unsupported dims"
  else do
    let (flat, dims) ← arrayToDenseInt arr
    match dims with
    | [_] => pure (writeWithKeyInt1D key flat)
    | [d0, d1] => pure (writeWithKeyInt2D key flat d0 d1)
    | [d0, d1, d2] => pure (writeWithKeyInt3D key flat d0 d1 d2)
    | _ => .error "unsupported dims"

/-- eraBDHeader magic. -/
def eraBDHeader : Nat := 0x0A1A0A0D41524589

/-- writeVarBinaryFile as a byte producer: header, version 1808, zero
data count, file type eraSaveVar, save identity, save message, globals,
arrays, EOF marker. Globals and arrays are taken in the (sorted) order
the Go writer iterates them in. -/
def writeVarData (uniqueCode versionCode : Int) (saveMes : String)
    (globals : List (String × Value)) (arrays : List (String × ArrayVar)) :
    Except String (List Nat) := do
  let gBytes := globals.flatMap (fun p =>
    if p.2.kind = .string then writeWithKeyStr p.1 p.2.str
    else writeWithKeyInt p.1 p.2.int64)
  let aBytes ← arrays.foldlM (fun acc p => do
    let bs ← writeArrayEntry p.1 p.2
    pure (acc ++ bs)) ([] : List Nat)
  pure (le64 (eraBDHeader : Int) ++ le32 1808 ++ le32 0 ++ [2] ++
    le64 uniqueCode ++ le64 versionCode ++ wDotNetStr saveMes ++
    gBytes ++ aBytes ++ [etEOF])

/-- readIntArray1D. -/
def readIntArray1D (bytes : List Nat) :
    Except String (List Int × List Int × List Nat) := do
  let (len, r1) ← rLE32 bytes
  if len < 0 then .error "negative length"
  else do
    let (flat, r2) ← rleRead1 decElemInt (r1.length + 1)
      (List.replicate len.toNat 0) 0 r1
    pure (flat, [len], r2)

/-- readIntArray2D. -/
def readIntArray2D (bytes : List Nat) :
    Except String (List Int × List Int × List Nat) := do
  let (l0, r1) ← rLE32 bytes
  let (l1, r2) ← rLE32 r1
  if l0 < 0 ∨ l1 < 0 then .error "negative length"
  else do
    let (flat, r3) ← rleRead2 decElemInt l0.toNat l1.toNat (r2.length + 1)
      (List.replicate (l0.toNat * l1.toNat) 0) 0 0 r2
    pure (flat, [l0, l1], r3)

/-- readIntArray3D. -/
def readIntArray3D (bytes : List Nat) :
    Except String (List Int × List Int × List Nat) := do
  let (l0, r1) ← rLE32 bytes
  let (l1, r2) ← rLE32 r1
  let (l2, r3) ← rLE32 r2
  if l0 < 0 ∨ l1 < 0 ∨ l2 < 0 then .error "negative length"
  else do
    let (flat, r4) ← rleRead3 decElemInt l0.toNat l1.toNat l2.toNat (r3.length + 1)
      (List.replicate (l0.toNat * l1.toNat * l2.toNat) 0) 0 0 0 r3
    pure (flat, [l0, l1, l2], r4)

/-- readStrArray1D. -/
def readStrArray1D (bytes : List Nat) :
    Except String (List String × List Int × List Nat) := do
  let (len, r1) ← rLE32 bytes
  if len < 0 then .error "negative length"
  else do
    let (flat, r2) ← rleRead1 decElemStr (r1.length + 1)
      (List.replicate len.toNat "") 0 r1
    pure (flat, [len], r2)

/-- readStrArray2D. -/
def readStrArray2D (bytes : List Nat) :
    Except String (List String × List Int × List Nat) := do
  let (l0, r1) ← rLE32 bytes
  let (l1, r2) ← rLE32 r1
  if l0 < 0 ∨ l1 < 0 then .error "negative length"
  else do
    let (flat, r3) ← rleRead2 decElemStr l0.toNat l1.toNat (r2.length + 1)
      (List.replicate (l0.toNat * l1.toNat) "") 0 0 r2
    pure (flat, [l0, l1], r3)

/-- readStrArray3D. -/
def readStrArray3D (bytes : List Nat) :
    Except String (List String × List Int × List Nat) := do
  let (l0, r1) ← rLE32 bytes
  let (l1, r2) ← rLE32 r1
  let (l2, r3) ← rLE32 r2
  if l0 < 0 ∨ l1 < 0 ∨ l2 < 0 then .error "negative length"
  else do
    let (flat, r4) ← rleRead3 decElemStr l0.toNat l1.toNat l2.toNat (r3.length + 1)
      (List.replicate (l0.toNat * l1.toNat * l2.toNat) "") 0 0 0 r3
    pure (flat, [l0, l1, l2], r4)

/-- Assoc-list update with Go map overwrite semantics. -/
def updAssoc {α : Type} (m : List (String × α)) (k : String) (v : α) :
    List (String × α) :=
  if m.any (fun p => p.1 = k) then
    m.map (fun p => if p.1 = k then (k, v) else p)
  else m ++ [(k, v)]

/-- A decoded var payload. -/
structure VarPayload where
  unique : Int
  version : Int
  saveMes : String
  globals : List (String × Value)
  arrays : List (String × ArrayVar)
  deriving DecidableEq, Repr

/-- The entry loop of readVarBinaryData. -/
def readVarEntries :
    Nat → List Nat → List (String × Value) → List (String × ArrayVar) →
    Except String (List (String × Value) × List (String × ArrayVar)) :=
  fun fuel bytes globals arrays =>
  match fuel with
  | 0 => .error "out of fuel"
  | fuel + 1 => do
    let (t, r1) ← rByte bytes
    if t = etEOF then pure (globals, arrays)
    else if t = etSep ∨ t = etEOC then readVarEntries fuel r1 globals arrays
    else do
      let (key, r2) ← rDotNetStr r1
      if t = etInt then do
        let (v, r3) ← cdec r2
        readVarEntries fuel r3 (updAssoc globals key (VInt v)) arrays
      else if t = etStr then do
        let (s, r3) ← rDotNetStr r2
        readVarEntries fuel r3 (updAssoc globals key (VStr s)) arrays
      else if t = etIntArr1 then do
        let (flat, dims, r3) ← readIntArray1D r2
        readVarEntries fuel r3 globals (updAssoc arrays key (denseIntToArray flat dims))
      else if t = etIntArr2 then do
        let (flat, dims, r3) ← readIntArray2D r2
        readVarEntries fuel r3 globals (updAssoc arrays key (denseIntToArray flat dims))
      else if t = etIntArr3 then do
        let (flat, dims, r3) ← readIntArray3D r2
        readVarEntries fuel r3 globals (updAssoc arrays key (denseIntToArray flat dims))
      else if t = etStrArr1 then do
        let (flat, dims, r3) ← readStrArray1D r2
        readVarEntries fuel r3 globals (updAssoc arrays key (denseStrToArray flat dims))
      else if t = etStrArr2 then do
        let (flat, dims, r3) ← readStrArray2D r2
        readVarEntries fuel r3 globals (updAssoc arrays key (denseStrToArray flat dims))
      else if t = etStrArr3 then do
        let (flat, dims, r3) ← readStrArray3D r2
        readVarEntries fuel r3 globals (updAssoc arrays key (denseStrToArray flat dims))
      else .error "unsupported var data type"

/-- readVarBinaryData: header and identity, then the entry loop. -/
def readVarBinaryData (data : List Nat) : Except String VarPayload := do
  let (hdr, r1) ← rLE64u data
  if hdr ≠ eraBDHeader then .error "invalid era binary header"
  else do
    let (ver, r2) ← rLE32u r1
    let (count, r3) ← rLE32u r2
    let (_, r4) ← rBytes (4 * count) r3
    if ver ≠ 1808 then .error "unsupported era binary version"
    else do
      let (ft, r5) ← rByte r4
      if ft > 3 then .error "invalid save file type"
      else if ft ≠ 2 then .error "not var save data"
      else do
        let (unique, r6) ← rLE64 r5
        let (version, r7b) ← rLE64 r6
        let (saveMes, r8) ← rDotNetStr r7b
        let (globals, arrays) ← readVarEntries (r8.length + 1) r8 [] []
        pure ⟨unique, version, saveMes, globals, arrays⟩

/-- One step of the dense-flattening foldl of arrayToDenseInt/Str,
abstracted over the stored-value projection. -/
def denseSetStep {α : Type} (dims : List Int) (g : String × Value → α)
    (flat : List α) (p : String × Value) : List α :=
  match parseIndexKey p.1 with
  | none => flat
  | some idx =>
    if idx.length = 0 ∨ idx.length > dims.length then flat
    else
      let off := offsetOf dims idx
      if 0 ≤ off ∧ off < (flat.length : Int) then flat.set off.toNat (g p)
      else flat

/-- The bytes of one globals entry of writeVarBinaryFile. -/
def globalEntryBytes (p : String × Value) : List Nat :=
  if p.2.kind = .string then writeWithKeyStr p.1 p.2.str
  else writeWithKeyInt p.1 p.2.int64

/-- writeArrayEntry with errors defaulted away (used only where the
writer is known to succeed). -/
def writeArrayEntryD (key : String) (a : ArrayVar) : List Nat :=
  match writeArrayEntry key a with
  | .ok bs => bs
  | .error _ => []

/-- The array a binary save round-trips an array to: the dynamic
re-materialisation of its dense row-major flattening. -/
def redecodeArray (a : ArrayVar) : ArrayVar :=
  if a.isString then
    match arrayToDenseStr a with
    | .ok (flat, dims) => denseStrToArray flat dims
    | .error _ => a
  else
    match arrayToDenseInt a with
    | .ok (flat, dims) => denseIntToArray flat dims
    | .error _ => a

/-- A canonically-constructed runtime Value whose payload the binary save
format can carry: Str-built string values and Int-built int64 values. -/
def wfValue (v : Value) : Prop :=
  if v.kind = .string then v.i = 0 ∧ 2 * (utf16Units v.s).length < 2 ^ 35
  else v.s = "" ∧ -(2 ^ 63) ≤ v.i ∧ v.i ≤ 2 ^ 63 - 1

/-- An array whose declared dims are int32-sized and whose stored values
the binary save format can carry. -/
def wfArray (a : ArrayVar) : Prop :=
  (∀ d ∈ a.dims, 0 ≤ d ∧ d < 2 ^ 31) ∧
  (∀ p ∈ a.data,
    if a.isString then 2 * (utf16Units p.2.str).length < 2 ^ 35
    else -(2 ^ 63) ≤ p.2.int64 ∧ p.2.int64 ≤ 2 ^ 63 - 1)

/-- ASCII lower-casing of one character (the case of strings.EqualFold
exercised by the save format's kind tags). -/
def lowerAscii (c : Char) : Char :=
  if 'A' ≤ c ∧ c ≤ 'Z' then Char.ofNat (c.toNat + 32) else c

/-- strings.EqualFold on ASCII strings. -/
def eqFold (a b : String) : Bool :=
  decide (a.toList.map lowerAscii = b.toList.map lowerAscii)

/-- saveValue of save.go: the JSON carrier of a runtime Value. -/
structure SaveValue where
  kind : String
  i : Int
  s : String
  deriving DecidableEq, Repr

/-- valueToSaveValue. -/
def valueToSaveValue (v : Value) : SaveValue :=
  if v.kind = .string then ⟨"string", 0, v.str⟩ else ⟨"int", v.int64, ""⟩

/-- saveValueToValue. -/
def saveValueToValue (sv : SaveValue) : Value :=
  if eqFold sv.kind "string" then VStr sv.s else VInt sv.i

/-- saveArraySnapshot of save.go. -/
structure SaveArraySnapshot where
  isString : Bool
  isDynamic : Bool
  dims : List Int
  data : List (String × SaveValue)
  deriving DecidableEq, Repr

/-- varDataSnapshot: the variable-payload fields carried through the JSON
wire format (the format tag and timestamp are constants the reader does
not feed back into the VM state). -/
structure VarSnapshot where
  saveMes : String
  globals : List (String × SaveValue)
  arrays : List (String × SaveArraySnapshot)
  deriving DecidableEq, Repr

/-- buildVarSnapshot (the Go map iteration appears as list order). -/
def buildVarSnapshot (saveMes : String) (globals : List (String × Value))
    (arrays : List (String × ArrayVar)) : VarSnapshot :=
  ⟨saveMes,
    globals.map (fun p => (p.1, valueToSaveValue p.2)),
    arrays.map (fun p => (p.1,
      ⟨p.2.isString, p.2.isDynamic, p.2.dims,
        p.2.data.map (fun q => (q.1, valueToSaveValue q.2))⟩))⟩

/-- One array of applyVarSnapshot: newArrayVar with the saved flags and
dims, then the stored data written back. -/
def applySnapshotArray (s : SaveArraySnapshot) : ArrayVar :=
  { newArrayVar s.isString s.isDynamic s.dims with
      data := s.data.map (fun q => (q.1, saveValueToValue q.2)) }

/-- applyVarSnapshot: globals and arrays written back under upper-cased
keys. -/
def applyVarSnapshot (snap : VarSnapshot) :
    List (String × Value) × List (String × ArrayVar) :=
  (snap.globals.map (fun p => (asciiUpper p.1, saveValueToValue p.2)),
    snap.arrays.map (fun p => (asciiUpper p.1, applySnapshotArray p.2)))

/-- The VM fields execLoadVar reads and writes. -/
structure LoadVM where
  saveUniqueCode : Int
  saveVersion : Int
  globals : List (String × Value)
  gArrays : List (String × ArrayVar)
  deriving DecidableEq, Repr

/-- loadFromData of execLoadVar: the binary payload is tried first; an
identity mismatch is an error; on success the decoded globals and arrays
are written back under upper-cased keys. The JSON-snapshot fallback
(taken only when the binary decode itself fails) goes through
encoding/json and is a parameter here. -/
def loadFromData (jsonFallback : List Nat → Except String LoadVM)
    (vm : LoadVM) (data : List Nat) : Except String LoadVM :=
  match readVarBinaryData data with
  | .ok payload =>
    if payload.unique ≠ vm.saveUniqueCode then
      .error "SAVEVAR incompatible unique code"
    else if payload.version ≠ vm.saveVersion then
      .error "SAVEVAR incompatible version"
    else
      .ok { vm with
        globals := payload.globals.foldl
          (fun m p => updAssoc m (asciiUpper p.1) p.2) vm.globals,
        gArrays := payload.arrays.foldl
          (fun m p => updAssoc m (asciiUpper p.1) p.2) vm.gArrays }
  | .error _ => jsonFallback data

/-- The branch of execLoadVar for an existing binary save file: a
loadFromData error is returned as the command's error (so run propagates
it to the host); only on success is RESULT set, and then to 1. RESULT = 0
is written only when no save file exists at all. -/
def execLoadVarDat (jsonFallback : List Nat → Except String LoadVM)
    (vm : LoadVM) (data : List Nat) : Except String LoadVM :=
  match loadFromData jsonFallback vm data with
  | .error e => .error e
  | .ok vm2 => .ok { vm2 with
      globals := updAssoc vm2.globals "RESULT" (VInt 1) }

end Erago

/-- Spec-side meaning of an index being outside the declared dimension
sizes of an array: a non-empty index with too many components, a negative
component, or a component at or beyond its dimension size. -/
def outsideDims (dims index : List Int) : Prop :=
  index ≠ [] ∧
    (index.length > dims.length ∨
      ∃ j, ∃ hj : j < index.length,
        index.get ⟨j, hj⟩ < 0 ∨
          (j < dims.length ∧ index.get ⟨j, hj⟩ ≥ dims.getD j 0))



/-- C1: for every pair of values, dividing by a right operand whose integer
value is 0 returns the left operand as an integer value, and modulo by such
an operand returns Int 0; neither case is an error. -/
theorem C1_div_mod_by_zero (x y : Erago.Value) (h : y.int64 = 0) :
    Erago.evalBinary "/" x y = .ok (Erago.VInt x.int64) ∧
    Erago.evalBinary "%" x y = .ok (Erago.VInt 0) := by
  constructor <;> simp [Erago.evalBinary, h]

/-- Witness for C1 at x = Int 7, y = Int 0. -/
theorem C1_div_mod_by_zero_witness :
    (Erago.VInt 0).int64 = 0 ∧
    (Erago.evalBinary "/" (Erago.VInt 7) (Erago.VInt 0) =
        .ok (Erago.VInt (Erago.VInt 7).int64) ∧
      Erago.evalBinary "%" (Erago.VInt 7) (Erago.VInt 0) = .ok (Erago.VInt 0)) :=
  ⟨by decide, C1_div_mod_by_zero (Erago.VInt 7) (Erago.VInt 0) (by decide)⟩

/-- C7 counterexample: with the string operands "2" and "10" the ordering
comparison < is NOT lexicographic on the string forms: the code compares
integer values (2 < 10, giving 1), while lexicographically "2" < "10" is
false (which would give 0). -/
theorem C7_counterexample :
    (Erago.VStr "2").kind = .string ∧
    Erago.evalBinary "<" (Erago.VStr "2") (Erago.VStr "10") ≠
      .ok (Erago.VInt (if Erago.strLexLt (Erago.VStr "2").str (Erago.VStr "10").str then 1 else 0)) := by
  decide

/-- C7 amended: when at least one operand is a string, the equality
comparisons == and != compare the operands converted to their string forms,
while the ordering comparisons <, <=, >, >= always compare the operands'
integer values (string operands parsed as integers, 0 on parse failure). -/
theorem C7_amended (l r : Erago.Value) (h : l.kind = .string ∨ r.kind = .string) :
    Erago.evalBinary "==" l r =
      .ok (if l.str = r.str then Erago.VInt 1 else Erago.VInt 0) ∧
    Erago.evalBinary "!=" l r =
      .ok (if l.str = r.str then Erago.VInt 0 else Erago.VInt 1) ∧
    Erago.evalBinary "<" l r =
      .ok (if l.int64 < r.int64 then Erago.VInt 1 else Erago.VInt 0) ∧
    Erago.evalBinary "<=" l r =
      .ok (if l.int64 ≤ r.int64 then Erago.VInt 1 else Erago.VInt 0) ∧
    Erago.evalBinary ">" l r =
      .ok (if l.int64 > r.int64 then Erago.VInt 1 else Erago.VInt 0) ∧
    Erago.evalBinary ">=" l r =
      .ok (if l.int64 ≥ r.int64 then Erago.VInt 1 else Erago.VInt 0) := by
  refine ⟨?_, ?_, ?_, ?_, ?_, ?_⟩
  · simp only [Erago.evalBinary]; rw [if_pos h]
    by_cases hs : l.str = r.str <;> simp [hs]
  · simp only [Erago.evalBinary]; rw [if_pos h]
    by_cases hs : l.str = r.str <;> simp [hs]
  · simp only [Erago.evalBinary]; by_cases hs : l.int64 < r.int64 <;> simp [hs]
  · simp only [Erago.evalBinary]; by_cases hs : l.int64 ≤ r.int64 <;> simp [hs]
  · simp only [Erago.evalBinary]; by_cases hs : l.int64 > r.int64 <;> simp [hs]
  · simp only [Erago.evalBinary]; by_cases hs : l.int64 ≥ r.int64 <;> simp [hs]

/-- C3: the mediator resolves an input request in this order: a queued
pre-supplied value is dequeued and returned with timeout=false regardless
of any provider; else an attached provider's answer (or error) is returned
as-is; else a timed request emits the optional timeout message and returns
the default (or "") with timeout=true; else a request with a default
returns it with timeout=false; otherwise ("", false) is returned. -/
theorem C3_input_resolution_order (st : Erago.InputState)
    (provider : Option Erago.InputProvider) (skipDisp : Bool)
    (req : Erago.InputRequest) :
    (∀ v rest, st.queue = v :: rest →
      (Erago.resolveInput st provider skipDisp req).1 = .ok (v, false) ∧
      (Erago.resolveInput st provider skipDisp req).2.2 = []) ∧
    (∀ p v t, st.queue = [] → provider = some p → p req = .ok (v, t) →
      (Erago.resolveInput st provider skipDisp req).1 = .ok (v, t)) ∧
    (∀ p e, st.queue = [] → provider = some p → p req = .error e →
      (Erago.resolveInput st provider skipDisp req).1 = .error e) ∧
    (st.queue = [] → provider = none → req.timed = true →
      (Erago.resolveInput st provider skipDisp req).1 =
        .ok ((if req.hasDefault then req.defaultValue.str else ""), true) ∧
      (Erago.resolveInput st provider skipDisp req).2.2 =
        (if req.timeoutMessage ≠ "" then
          Erago.maybeEchoInput skipDisp req.timeoutMessage else [])) ∧
    (st.queue = [] → provider = none → req.timed = false → req.hasDefault = true →
      (Erago.resolveInput st provider skipDisp req).1 =
        .ok (req.defaultValue.str, false)) ∧
    (st.queue = [] → provider = none → req.timed = false → req.hasDefault = false →
      (Erago.resolveInput st provider skipDisp req).1 = .ok ("", false)) := by
  refine ⟨?_, ?_, ?_, ?_, ?_, ?_⟩
  · intro v rest hq
    simp [Erago.resolveInput, Erago.consumeQueuedInput, Erago.beginInputRequest, hq]
  · intro p v t hq hp hres
    simp [Erago.resolveInput, Erago.consumeQueuedInput, Erago.beginInputRequest, hq, hp, hres]
  · intro p e hq hp hres
    simp [Erago.resolveInput, Erago.consumeQueuedInput, Erago.beginInputRequest, hq, hp, hres]
  · intro hq hp ht
    by_cases hd : req.hasDefault <;>
      simp [Erago.resolveInput, Erago.consumeQueuedInput, Erago.beginInputRequest, hq, hp, ht, hd]
  · intro hq hp ht hd
    simp [Erago.resolveInput, Erago.consumeQueuedInput, Erago.beginInputRequest, hq, hp, ht, hd]
  · intro hq hp ht hd
    simp [Erago.resolveInput, Erago.consumeQueuedInput, Erago.beginInputRequest, hq, hp, ht, hd]

/-- Witness for C3: a queued value "7" resolves immediately, and with an
empty queue, no provider and a timed request with default "5" and timeout
message, the default comes back with timeout=true and the message is
emitted. -/
theorem C3_input_resolution_order_witness :
    ((Erago.resolveInput
        ⟨Erago.InputPhase.idle, none, ["7"], "", false, 3⟩ none false
        ⟨"INPUT", false, false, false, 0, false, false, false, Erago.VInt 0, ""⟩).1 =
      .ok ("7", false) ∧
     (Erago.resolveInput
        ⟨Erago.InputPhase.idle, none, ["7"], "", false, 3⟩ none false
        ⟨"INPUT", false, false, false, 0, false, false, false, Erago.VInt 0, ""⟩).2.2 = []) ∧
    (Erago.resolveInput
        ⟨Erago.InputPhase.idle, none, [], "", false, 3⟩ none false
        ⟨"TINPUT", true, false, true, 1000, false, false, true, Erago.VInt 5, "time up"⟩).1 =
      .ok ((if (⟨"TINPUT", true, false, true, 1000, false, false, true, Erago.VInt 5,
        "time up"⟩ : Erago.InputRequest).hasDefault then
          (⟨"TINPUT", true, false, true, 1000, false, false, true, Erago.VInt 5,
            "time up"⟩ : Erago.InputRequest).defaultValue.str else ""), true) :=
  ⟨(C3_input_resolution_order
      ⟨Erago.InputPhase.idle, none, ["7"], "", false, 3⟩ none false
      ⟨"INPUT", false, false, false, 0, false, false, false, Erago.VInt 0, ""⟩).1
      "7" [] rfl,
   ((C3_input_resolution_order
      ⟨Erago.InputPhase.idle, none, [], "", false, 3⟩ none false
      ⟨"TINPUT", true, false, true, 1000, false, false, true, Erago.VInt 5, "time up"⟩).2.2.2.1
      rfl rfl rfl).1⟩

/-- C6 counterexample: the token sequence of A:B+1 does NOT parse as A
indexed by the sum (B+1): a colon index is parsed at precedence 11, above
every binary operator, so the index is just B and the + applies to the
whole indexed reference; and A:B:C does NOT parse as a VarRef with two
indices, because the identifier index B consumes the second colon itself. -/
theorem C6_counterexample :
    Erago.parseExprToks
        [Erago.Tok.ident "A", Erago.Tok.colon, Erago.Tok.ident "B",
          Erago.Tok.op "+", Erago.Tok.int "1"] ≠
      .ok (Erago.Expr.varRef "A"
        [Erago.Expr.binary "+" (Erago.Expr.varRef "B" []) (Erago.Expr.intLit 1)]) ∧
    Erago.parseExprToks
        [Erago.Tok.ident "A", Erago.Tok.colon, Erago.Tok.ident "B",
          Erago.Tok.colon, Erago.Tok.ident "C"] ≠
      .ok (Erago.Expr.varRef "A"
        [Erago.Expr.varRef "B" [], Erago.Expr.varRef "C" []]) := by
  constructor
  · intro h
    rw [show Erago.parseExprToks
        [Erago.Tok.ident "A", Erago.Tok.colon, Erago.Tok.ident "B",
          Erago.Tok.op "+", Erago.Tok.int "1"] =
      .ok (Erago.Expr.binary "+"
        (Erago.Expr.varRef "A" [Erago.Expr.varRef "B" []]) (Erago.Expr.intLit 1)) from rfl] at h
    injection h with h2
    exact Erago.Expr.noConfusion h2
  · intro h
    rw [show Erago.parseExprToks
        [Erago.Tok.ident "A", Erago.Tok.colon, Erago.Tok.ident "B",
          Erago.Tok.colon, Erago.Tok.ident "C"] =
      .ok (Erago.Expr.varRef "A"
        [Erago.Expr.varRef "B" [Erago.Expr.varRef "C" []]]) from rfl] at h
    injection h with h2
    have h3 : [Erago.Expr.varRef "B" [Erago.Expr.varRef "C" []]] =
        [Erago.Expr.varRef "B" [], Erago.Expr.varRef "C" []] := by
      injection h2
    exact List.noConfusion h3 (fun _ h4 => List.noConfusion h4)

/-- C6 amended: a colon index binds at unary level (precedence 11) and is
itself a full leading operand, so A:B+1 parses as (A:B)+1 and A:(B+1)
requires explicit parentheses; in A:B:C the identifier index B consumes
the second colon itself, giving A indexed once by (B indexed by C), while
A:1:2 (whose first index is a literal) parses as one VarRef carrying two
indices. -/
theorem C6_amended :
    Erago.parseExprToks
        [Erago.Tok.ident "A", Erago.Tok.colon, Erago.Tok.ident "B",
          Erago.Tok.op "+", Erago.Tok.int "1"] =
      .ok (Erago.Expr.binary "+"
        (Erago.Expr.varRef "A" [Erago.Expr.varRef "B" []]) (Erago.Expr.intLit 1)) ∧
    Erago.parseExprToks
        [Erago.Tok.lparen, Erago.Tok.ident "A", Erago.Tok.colon,
          Erago.Tok.ident "B", Erago.Tok.rparen, Erago.Tok.op "+",
          Erago.Tok.int "1"] =
      .ok (Erago.Expr.binary "+"
        (Erago.Expr.varRef "A" [Erago.Expr.varRef "B" []]) (Erago.Expr.intLit 1)) ∧
    Erago.parseExprToks
        [Erago.Tok.ident "A", Erago.Tok.colon, Erago.Tok.lparen,
          Erago.Tok.ident "B", Erago.Tok.op "+", Erago.Tok.int "1",
          Erago.Tok.rparen] =
      .ok (Erago.Expr.varRef "A"
        [Erago.Expr.binary "+" (Erago.Expr.varRef "B" []) (Erago.Expr.intLit 1)]) ∧
    Erago.parseExprToks
        [Erago.Tok.ident "A", Erago.Tok.colon, Erago.Tok.ident "B",
          Erago.Tok.colon, Erago.Tok.ident "C"] =
      .ok (Erago.Expr.varRef "A"
        [Erago.Expr.varRef "B" [Erago.Expr.varRef "C" []]]) ∧
    Erago.parseExprToks
        [Erago.Tok.ident "A", Erago.Tok.colon, Erago.Tok.int "1",
          Erago.Tok.colon, Erago.Tok.int "2"] =
      .ok (Erago.Expr.varRef "A"
        [Erago.Expr.intLit 1, Erago.Expr.intLit 2]) := by
  exact ⟨rfl, rfl, rfl, rfl, rfl⟩

/-- Helper: on a non-dynamic array, one step of the key loop at a
non-negative in-bound head index reduces to the loop on the tail. -/
theorem keyLoop_nondyn_cons (a : Erago.ArrayVar) (hdyn : a.isDynamic = false)
    (v : Int) (rest : List Int) (i : Nat) (parts : List String)
    (hv : ¬v < 0) (hc : ¬(i < a.dims.length ∧ v ≥ a.dims.getD i 0)) :
    Erago.ArrayVar.keyLoop a (v :: rest) i parts =
      Erago.ArrayVar.keyLoop a rest (i + 1) (toString v :: parts) := by
  conv_lhs => rw [Erago.ArrayVar.keyLoop]
  rw [if_neg hv, if_neg (by simp [hdyn]), if_neg hc]

/-- Helper: on a non-dynamic array, the key loop errors at an in-bound
position whose index is at or beyond its dimension size. -/
theorem keyLoop_nondyn_hit (a : Erago.ArrayVar) (hdyn : a.isDynamic = false)
    (v : Int) (rest : List Int) (i : Nat) (parts : List String)
    (hv : ¬v < 0) (hc : i < a.dims.length ∧ v ≥ a.dims.getD i 0) :
    Erago.ArrayVar.keyLoop a (v :: rest) i parts = (.error "index out of range", a) := by
  conv_lhs => rw [Erago.ArrayVar.keyLoop]
  rw [if_neg hv, if_neg (by simp [hdyn]), if_pos hc]

/-- Helper: the key loop errors at a negative head index, on any array. -/
theorem keyLoop_neg_hit (a : Erago.ArrayVar) (v : Int) (rest : List Int)
    (i : Nat) (parts : List String) (hv : v < 0) :
    Erago.ArrayVar.keyLoop a (v :: rest) i parts = (.error "index out of range", a) := by
  conv_lhs => rw [Erago.ArrayVar.keyLoop]
  rw [if_pos hv]

/-- Helper: the key loop of a non-dynamic array errors whenever some
position violates its dimension bound. -/
theorem keyLoop_nondyn_err (a : Erago.ArrayVar) (hdyn : a.isDynamic = false) :
    ∀ (index : List Int) (i : Nat) (parts : List String),
      (∃ j, ∃ hj : j < index.length,
        index.get ⟨j, hj⟩ < 0 ∨
          (i + j < a.dims.length ∧ index.get ⟨j, hj⟩ ≥ a.dims.getD (i + j) 0)) →
      ∃ e, (Erago.ArrayVar.keyLoop a index i parts).1 = .error e := by
  intro index
  induction index with
  | nil =>
    intro i parts h
    obtain ⟨j, hj, _⟩ := h
    exact absurd hj (by simp)
  | cons v rest ih =>
    intro i parts h
    by_cases hv : v < 0
    · exact ⟨"index out of range", by rw [keyLoop_neg_hit a v rest i parts hv]⟩
    · by_cases hc : i < a.dims.length ∧ v ≥ a.dims.getD i 0
      · exact ⟨"index out of range",
          by rw [keyLoop_nondyn_hit a hdyn v rest i parts hv hc]⟩
      · have htail : ∃ j, ∃ hj : j < rest.length,
            rest.get ⟨j, hj⟩ < 0 ∨
              ((i + 1) + j < a.dims.length ∧
                rest.get ⟨j, hj⟩ ≥ a.dims.getD ((i + 1) + j) 0) := by
          obtain ⟨j, hj, hvio⟩ := h
          match j, hj with
          | 0, _ =>
            exfalso
            simp only [List.get] at hvio
            rcases hvio with h1 | h2
            · exact hv h1
            · exact hc ⟨by omega, h2.2⟩
          | k + 1, hk =>
            have hk2 : k < rest.length := by
              simp only [List.length_cons] at hk
              omega
            refine ⟨k, hk2, ?_⟩
            have hget : (v :: rest).get ⟨k + 1, hk⟩ = rest.get ⟨k, hk2⟩ := rfl
            rw [hget] at hvio
            have harith : i + (k + 1) = (i + 1) + k := by omega
            rw [harith] at hvio
            exact hvio
        rw [keyLoop_nondyn_cons a hdyn v rest i parts hv hc]
        exact ih (i + 1) (toString v :: parts) htail

/-- Helper: the key loop errors whenever some index component is
negative, on any array. -/
theorem keyLoop_neg_err :
    ∀ (index : List Int), (∃ v ∈ index, v < 0) →
      ∀ (a : Erago.ArrayVar) (i : Nat) (parts : List String),
        ∃ e, (Erago.ArrayVar.keyLoop a index i parts).1 = .error e := by
  intro index
  induction index with
  | nil => intro h; simp at h
  | cons v rest ih =>
    intro h a i parts
    by_cases hv : v < 0
    · exact ⟨"index out of range", by rw [keyLoop_neg_hit a v rest i parts hv]⟩
    · have htail : ∃ w ∈ rest, w < 0 := by
        rcases h with ⟨w, hw, hneg⟩
        rcases List.mem_cons.mp hw with rfl | hmem
        · exact absurd hneg hv
        · exact ⟨w, hmem, hneg⟩
      by_cases hd : a.isDynamic = true
      · have hstep : Erago.ArrayVar.keyLoop a (v :: rest) i parts =
            Erago.ArrayVar.keyLoop
              (if i ≥ a.dims.length then { a with dims := a.dims ++ [v + 1] }
               else if v ≥ a.dims.getD i 0 then { a with dims := a.dims.set i (v + 1) }
               else a) rest (i + 1) (toString v :: parts) := by
          conv_lhs => rw [Erago.ArrayVar.keyLoop]
          rw [if_neg hv, if_pos (by simp [hd])]
        rw [hstep]
        exact ih htail _ (i + 1) (toString v :: parts)
      · by_cases hc : i < a.dims.length ∧ v ≥ a.dims.getD i 0
        · exact ⟨"index out of range", by
            rw [keyLoop_nondyn_hit a (by simpa using hd) v rest i parts hv hc]⟩
        · rw [keyLoop_nondyn_cons a (by simpa using hd) v rest i parts hv hc]
          exact ih htail a (i + 1) (toString v :: parts)

/-- Helper: ArrayVar.key on a non-dynamic array errors at every index
outside the declared dims. -/
theorem key_nondyn_err (a : Erago.ArrayVar) (index : List Int)
    (hdyn : a.isDynamic = false) (hout : outsideDims a.dims index) :
    ∃ e, (Erago.ArrayVar.key a index).1 = .error e := by
  obtain ⟨hne, hviol⟩ := hout
  have hne2 : ¬index.isEmpty := by simpa using hne
  have hkey : Erago.ArrayVar.key a index =
      (if index.isEmpty then ((.ok "0", a) : Except String String × Erago.ArrayVar)
       else if ¬a.isDynamic ∧ index.length > a.dims.length then (.error "too many indices", a)
       else Erago.ArrayVar.keyLoop
         (if a.isDynamic ∧ index.length > a.dims.length then
            { a with dims := a.dims ++ ((index.drop a.dims.length).map (fun v => v + 1)) }
          else a) index 0 []) := rfl
  by_cases hlen : index.length > a.dims.length
  · refine ⟨"too many indices", ?_⟩
    rw [hkey, if_neg hne2, if_pos ⟨by simp [hdyn], hlen⟩]
  · rcases hviol with hl | ⟨j, hj, hvio⟩
    · exact absurd hl hlen
    · obtain ⟨e, he⟩ := keyLoop_nondyn_err a hdyn index 0 []
        ⟨j, hj, by simpa using hvio⟩
      refine ⟨e, ?_⟩
      rw [hkey, if_neg hne2, if_neg (by intro hcon; exact hlen hcon.2),
        if_neg (by intro hcon; exact hlen hcon.2)]
      exact he

/-- Helper: ArrayVar.key errors whenever some index component is
negative. -/
theorem key_neg_err (a : Erago.ArrayVar) (index : List Int)
    (hneg : Erago.hasNegativeIndex index = true) :
    ∃ e, (Erago.ArrayVar.key a index).1 = .error e := by
  have hmem : ∃ v ∈ index, v < 0 := by
    simpa [Erago.hasNegativeIndex, List.any_eq_true, decide_eq_true_eq] using hneg
  have hne2 : ¬index.isEmpty := by
    rcases hmem with ⟨v, hv, _⟩
    cases index with
    | nil => simp at hv
    | cons a b => simp
  have hkey : Erago.ArrayVar.key a index =
      (if index.isEmpty then ((.ok "0", a) : Except String String × Erago.ArrayVar)
       else if ¬a.isDynamic ∧ index.length > a.dims.length then (.error "too many indices", a)
       else Erago.ArrayVar.keyLoop
         (if a.isDynamic ∧ index.length > a.dims.length then
            { a with dims := a.dims ++ ((index.drop a.dims.length).map (fun v => v + 1)) }
          else a) index 0 []) := rfl
  by_cases htm : ¬a.isDynamic ∧ index.length > a.dims.length
  · exact ⟨"too many indices", by rw [hkey, if_neg hne2, if_pos htm]⟩
  · obtain ⟨e, he⟩ := keyLoop_neg_err index hmem
      (if a.isDynamic ∧ index.length > a.dims.length then
        { a with dims := a.dims ++ ((index.drop a.dims.length).map (fun v => v + 1)) }
      else a) 0 []
    refine ⟨e, ?_⟩
    rw [hkey, if_neg hne2, if_neg htm]
    exact he

/-- C5 counterexample: on the non-dynamic string array of dims [3],
writing at the negative index -1 IS an error (the claimed negative-index
exception does not apply to writes). -/
theorem C5_counterexample :
    (Erago.newArrayVar true false [3]).isString = true ∧
    (Erago.newArrayVar true false [3]).isDynamic = false ∧
    Erago.hasNegativeIndex [(-1 : Int)] = true ∧
    (Erago.setVarRefArray (Erago.newArrayVar true false [3]) [(-1 : Int)]
        (Erago.VStr "x")).1 = .error "index out of range" := by
  refine ⟨rfl, rfl, rfl, ?_⟩
  rfl

/-- C5 amended: on a non-dynamic array every write at an index outside
the declared dims is an error, including negative indices on string
arrays; the negative-index exception applies to reads instead: reading a
string array at an index with a negative component yields the empty
string without error, while a read outside the dims with no negative
component is an error. -/
theorem C5_amended (arr : Erago.ArrayVar) (index : List Int) (v : Erago.Value) :
    (arr.isDynamic = false → outsideDims arr.dims index →
      ∃ e, (Erago.setVarRefArray arr index v).1 = .error e) ∧
    (arr.isString = true → Erago.hasNegativeIndex index = true →
      (Erago.getVarRefArray arr index none).1 = .ok (Erago.VStr "")) ∧
    (arr.isDynamic = false → Erago.hasNegativeIndex index = false →
      outsideDims arr.dims index →
      ∃ e, (Erago.getVarRefArray arr index none).1 = .error e) := by
  refine ⟨?_, ?_, ?_⟩
  · intro hdyn hout
    obtain ⟨e, he⟩ := key_nondyn_err arr index hdyn hout
    refine ⟨e, ?_⟩
    simp only [Erago.setVarRefArray, Erago.ArrayVar.set]
    obtain ⟨a2, h2⟩ : ∃ a2, Erago.ArrayVar.key arr index = (.error e, a2) := by
      rcases hk : Erago.ArrayVar.key arr index with ⟨r, a2⟩
      rw [hk] at he
      simp at he
      exact ⟨a2, by rw [he]⟩
    rw [h2]
  · intro hstr hneg
    obtain ⟨e, he⟩ := key_neg_err arr index hneg
    obtain ⟨a2, h2⟩ : ∃ a2, Erago.ArrayVar.key arr index = (.error e, a2) := by
      rcases hk : Erago.ArrayVar.key arr index with ⟨r, a2⟩
      rw [hk] at he
      simp at he
      exact ⟨a2, by rw [he]⟩
    simp [Erago.getVarRefArray, Erago.ArrayVar.get, h2, hstr, hneg]
  · intro hdyn hneg hout
    obtain ⟨e, he⟩ := key_nondyn_err arr index hdyn hout
    obtain ⟨a2, h2⟩ : ∃ a2, Erago.ArrayVar.key arr index = (.error e, a2) := by
      rcases hk : Erago.ArrayVar.key arr index with ⟨r, a2⟩
      rw [hk] at he
      simp at he
      exact ⟨a2, by rw [he]⟩
    refine ⟨e, ?_⟩
    simp [Erago.getVarRefArray, Erago.ArrayVar.get, h2, hneg]

/-- Witness for C5 amended on the non-dynamic string array of dims [3]
at index [5] (write out of range) and the same statement instantiated. -/
theorem C5_amended_witness :
    ((Erago.newArrayVar true false [3]).isDynamic = false →
      outsideDims (Erago.newArrayVar true false [3]).dims [(5 : Int)] →
      ∃ e, (Erago.setVarRefArray (Erago.newArrayVar true false [3]) [(5 : Int)]
        (Erago.VStr "x")).1 = .error e) ∧
    ((Erago.newArrayVar true false [3]).isString = true →
      Erago.hasNegativeIndex [(5 : Int)] = true →
      (Erago.getVarRefArray (Erago.newArrayVar true false [3]) [(5 : Int)] none).1 =
        .ok (Erago.VStr "")) ∧
    ((Erago.newArrayVar true false [3]).isDynamic = false →
      Erago.hasNegativeIndex [(5 : Int)] = false →
      outsideDims (Erago.newArrayVar true false [3]).dims [(5 : Int)] →
      ∃ e, (Erago.getVarRefArray (Erago.newArrayVar true false [3]) [(5 : Int)] none).1 =
        .error e) :=
  C5_amended (Erago.newArrayVar true false [3]) [(5 : Int)] (Erago.VStr "x")

/-- C4 (code evaluated at the failing input): with two EVENTSHOP
functions, the second declared with #PRI, the parser collects and sorts
the per-event list [second, first], but the Run loop handling
Begin("SHOP") dispatches exactly the single first-declared function, not
every function of the list in priority order. -/
theorem C4_event_dispatch_failing_input :
    Erago.parseERBEventResult
        [⟨0, "EVENTSHOP", 0⟩, ⟨1, "EVENTSHOP", 1⟩] =
      ([("EVENTSHOP", ⟨0, "EVENTSHOP", 0⟩)],
        [("EVENTSHOP", [⟨1, "EVENTSHOP", 1⟩, ⟨0, "EVENTSHOP", 0⟩])]) ∧
    Erago.runBeginDispatchList
        (Erago.parseERBEventResult
          [⟨0, "EVENTSHOP", 0⟩, ⟨1, "EVENTSHOP", 1⟩]).1 "SHOP" =
      [⟨0, "EVENTSHOP", 0⟩] ∧
    Erago.runBeginDispatchList
        (Erago.parseERBEventResult
          [⟨0, "EVENTSHOP", 0⟩, ⟨1, "EVENTSHOP", 1⟩]).1 "SHOP" ≠
      ((Erago.alistGet
        (Erago.parseERBEventResult
          [⟨0, "EVENTSHOP", 0⟩, ⟨1, "EVENTSHOP", 1⟩]).2 "EVENTSHOP").getD []) := by
  refine ⟨by decide, by decide, by decide⟩

/-- C9: a RAND bound n <= 0 yields Int 0 in both the indexed form and the
call form, the PRNG panic branch (Int63n on a non-positive bound) is never
reached in either form, and a bound n > 0 yields a value in [0, n). -/
theorem C9_rand_bounds (g : Nat) (n : Int) (args : List Erago.Value) :
    (n ≤ 0 → Erago.getVarRefRand g n = some (Erago.VInt 0, g)) ∧
    (∀ a rest, args = a :: rest → a.int64 ≤ 0 →
      Erago.execMethodLikeRand g args = some (Erago.VInt 0, g)) ∧
    Erago.getVarRefRand g n ≠ none ∧
    Erago.execMethodLikeRand g args ≠ none ∧
    (0 < n → ∃ v g2, Erago.getVarRefRand g n = some (Erago.VInt v, g2) ∧
      0 ≤ v ∧ v < n) := by
  refine ⟨?_, ?_, ?_, ?_, ?_⟩
  · intro h
    simp [Erago.getVarRefRand, h]
  · intro a rest hargs h
    simp [Erago.execMethodLikeRand, hargs, h]
  · by_cases h : n ≤ 0 <;>
      simp [Erago.getVarRefRand, Erago.int63n, h]
  · match args with
    | [] => simp [Erago.execMethodLikeRand]
    | a :: rest =>
      by_cases h : a.int64 ≤ 0 <;>
        simp [Erago.execMethodLikeRand, Erago.int63n, h]
  · intro h
    have hn0 : ¬n ≤ 0 := by omega
    refine ⟨(g : Int) % n, g + 1, ?_, ?_, ?_⟩
    · simp [Erago.getVarRefRand, Erago.int63n, hn0]
    · exact Int.emod_nonneg _ (by omega)
    · exact Int.emod_lt_of_pos _ h

/-- Witness for C9 at g = 5, n = -2, args = [Int -2], plus the positive
case n = 3. -/
theorem C9_rand_bounds_witness :
    ((-2 : Int) ≤ 0 → Erago.getVarRefRand 5 (-2) = some (Erago.VInt 0, 5)) ∧
    (∀ a rest, [Erago.VInt (-2)] = a :: rest → a.int64 ≤ 0 →
      Erago.execMethodLikeRand 5 [Erago.VInt (-2)] = some (Erago.VInt 0, 5)) ∧
    Erago.getVarRefRand 5 (-2) ≠ none ∧
    Erago.execMethodLikeRand 5 [Erago.VInt (-2)] ≠ none ∧
    (0 < (-2 : Int) → ∃ v g2, Erago.getVarRefRand 5 (-2) = some (Erago.VInt v, g2) ∧
      0 ≤ v ∧ v < -2) :=
  C9_rand_bounds 5 (-2) [Erago.VInt (-2)]

/-- Helper: with effective step 1 and a body that always falls through,
the FOR loop starting at cur <= limit reaches limit with fuel
(limit - cur) + 1. -/
theorem forLoopFuel_step_one (k : Nat) :
    ∀ (cur limit : Int) (body : Int → Erago.BodyOutcome),
      (∀ i, body i = .fall) → cur ≤ limit → (limit - cur).toNat = k →
      Erago.forLoopFuel (k + 1) cur limit 1 body = some limit := by
  induction k with
  | zero =>
    intro cur limit body _ hle hk
    have : cur = limit := by omega
    subst this
    simp [Erago.forLoopFuel]
  | succ k ih =>
    intro cur limit body hb hle hk
    have hlt : cur < limit := by omega
    have hcond : ¬(((1 : Int) > 0 ∧ cur ≥ limit) ∨ ((1 : Int) < 0 ∧ cur ≤ limit)) := by
      omega
    simp only [Erago.forLoopFuel, if_neg hcond, hb cur]
    exact ih (cur + 1) limit body hb (by omega) (by omega)

/-- C10: a FOR statement whose step expression evaluates to 0 runs with
effective step 1 (the loop variable advances by 1 per iteration), so with
limit >= init and a body that always falls through the loop terminates
(some fuel suffices), ending with the loop variable at limit. -/
theorem C10_for_zero_step (init limit : Int) (body : Int → Erago.BodyOutcome)
    (h1 : init ≤ limit) (h2 : ∀ i, body i = .fall) :
    Erago.forStep 0 = 1 ∧
    ∃ fuel, Erago.execFor fuel init limit 0 body = some limit := by
  refine ⟨rfl, (limit - init).toNat + 1, ?_⟩
  show Erago.forLoopFuel _ init limit (Erago.forStep 0) body = some limit
  rw [show Erago.forStep 0 = 1 from rfl]
  exact forLoopFuel_step_one _ init limit body h2 h1 rfl

/-- Witness for C10 at init = 0, limit = 3. -/
theorem C10_for_zero_step_witness :
    (0 : Int) ≤ 3 ∧
    (Erago.forStep 0 = 1 ∧
      ∃ fuel, Erago.execFor fuel 0 3 0 (fun _ => .fall) = some 3) :=
  ⟨by decide, C10_for_zero_step 0 3 (fun _ => .fall) (by decide) (fun _ => rfl)⟩

/-- Witness for C7 amended at the string operands "2" and "10". -/
theorem C7_amended_witness :
    ((Erago.VStr "2").kind = .string ∨ (Erago.VStr "10").kind = .string) ∧
    (Erago.evalBinary "==" (Erago.VStr "2") (Erago.VStr "10") =
        .ok (if (Erago.VStr "2").str = (Erago.VStr "10").str then Erago.VInt 1 else Erago.VInt 0) ∧
      Erago.evalBinary "!=" (Erago.VStr "2") (Erago.VStr "10") =
        .ok (if (Erago.VStr "2").str = (Erago.VStr "10").str then Erago.VInt 0 else Erago.VInt 1) ∧
      Erago.evalBinary "<" (Erago.VStr "2") (Erago.VStr "10") =
        .ok (if (Erago.VStr "2").int64 < (Erago.VStr "10").int64 then Erago.VInt 1 else Erago.VInt 0) ∧
      Erago.evalBinary "<=" (Erago.VStr "2") (Erago.VStr "10") =
        .ok (if (Erago.VStr "2").int64 ≤ (Erago.VStr "10").int64 then Erago.VInt 1 else Erago.VInt 0) ∧
      Erago.evalBinary ">" (Erago.VStr "2") (Erago.VStr "10") =
        .ok (if (Erago.VStr "2").int64 > (Erago.VStr "10").int64 then Erago.VInt 1 else Erago.VInt 0) ∧
      Erago.evalBinary ">=" (Erago.VStr "2") (Erago.VStr "10") =
        .ok (if (Erago.VStr "2").int64 ≥ (Erago.VStr "10").int64 then Erago.VInt 1 else Erago.VInt 0)) :=
  ⟨Or.inl rfl, C7_amended (Erago.VStr "2") (Erago.VStr "10") (Or.inl rfl)⟩

/-! Round-trip lemmas for the binary codec primitives. -/

/-- Reading exactly the prepended bytes. -/
theorem rBytes_append (l rest : List Nat) :
    Erago.rBytes l.length (l ++ rest) = .ok (l, rest) := by
  simp [Erago.rBytes, List.take_left, List.drop_left]

/-- rByte on a cons. -/
theorem rByte_cons (b : Nat) (rest : List Nat) :
    Erago.rByte (b :: rest) = .ok (b, rest) := rfl

/-- leVal of le16. -/
theorem leVal_le16 (v : Int) : Erago.leVal (Erago.le16 v) = (v % 2 ^ 16).toNat := by
  have h : 0 ≤ v % 2 ^ 16 := Int.emod_nonneg v (by norm_num)
  have h2 : v % 2 ^ 16 < 2 ^ 16 := Int.emod_lt_of_pos v (by norm_num)
  simp only [Erago.le16, Erago.leVal]
  omega

/-- leVal of le32. -/
theorem leVal_le32 (v : Int) : Erago.leVal (Erago.le32 v) = (v % 2 ^ 32).toNat := by
  have h : 0 ≤ v % 2 ^ 32 := Int.emod_nonneg v (by norm_num)
  have h2 : v % 2 ^ 32 < 2 ^ 32 := Int.emod_lt_of_pos v (by norm_num)
  simp only [Erago.le32, Erago.leVal]
  omega

/-- leVal of le64. -/
theorem leVal_le64 (v : Int) : Erago.leVal (Erago.le64 v) = (v % 2 ^ 64).toNat := by
  have h : 0 ≤ v % 2 ^ 64 := Int.emod_nonneg v (by norm_num)
  have h2 : v % 2 ^ 64 < 2 ^ 64 := Int.emod_lt_of_pos v (by norm_num)
  simp only [Erago.le64, Erago.leVal]
  omega

/-- le16 length. -/
theorem le16_length (v : Int) : (Erago.le16 v).length = 2 := rfl

/-- le32 length. -/
theorem le32_length (v : Int) : (Erago.le32 v).length = 4 := rfl

/-- le64 length. -/
theorem le64_length (v : Int) : (Erago.le64 v).length = 8 := rfl

/-- Signed 16-bit round trip. -/
theorem rLE16_le16 (v : Int) (rest : List Nat)
    (h : -(2 ^ 15) ≤ v ∧ v ≤ 2 ^ 15 - 1) :
    Erago.rLE16 (Erago.le16 v ++ rest) = .ok (v, rest) := by
  have hb := rBytes_append (Erago.le16 v) rest
  rw [le16_length] at hb
  simp only [Erago.rLE16, le16_length, hb]
  simp only [bind, Except.bind]
  rw [leVal_le16]
  simp only [Erago.recentre]
  have h1 : 0 ≤ v % 2 ^ 16 := Int.emod_nonneg v (by norm_num)
  have h2 : v % 2 ^ 16 < 2 ^ 16 := Int.emod_lt_of_pos v (by norm_num)
  have hmod : v % 2 ^ 16 = v - 2 ^ 16 * (v / 2 ^ 16) := Int.emod_def v (2 ^ 16)
  congr 1
  congr 1
  omega

/-- Signed 32-bit round trip. -/
theorem rLE32_le32 (v : Int) (rest : List Nat)
    (h : -(2 ^ 31) ≤ v ∧ v ≤ 2 ^ 31 - 1) :
    Erago.rLE32 (Erago.le32 v ++ rest) = .ok (v, rest) := by
  have hb := rBytes_append (Erago.le32 v) rest
  rw [le32_length] at hb
  simp only [Erago.rLE32, le32_length, hb]
  simp only [bind, Except.bind]
  rw [leVal_le32]
  simp only [Erago.recentre]
  have h1 : 0 ≤ v % 2 ^ 32 := Int.emod_nonneg v (by norm_num)
  have h2 : v % 2 ^ 32 < 2 ^ 32 := Int.emod_lt_of_pos v (by norm_num)
  have hmod : v % 2 ^ 32 = v - 2 ^ 32 * (v / 2 ^ 32) := Int.emod_def v (2 ^ 32)
  congr 1
  congr 1
  omega

/-- Signed 64-bit round trip. -/
theorem rLE64_le64 (v : Int) (rest : List Nat)
    (h : -(2 ^ 63) ≤ v ∧ v ≤ 2 ^ 63 - 1) :
    Erago.rLE64 (Erago.le64 v ++ rest) = .ok (v, rest) := by
  have hb := rBytes_append (Erago.le64 v) rest
  rw [le64_length] at hb
  simp only [Erago.rLE64, le64_length, hb]
  simp only [bind, Except.bind]
  rw [leVal_le64]
  simp only [Erago.recentre]
  have h1 : 0 ≤ v % 2 ^ 64 := Int.emod_nonneg v (by norm_num)
  have h2 : v % 2 ^ 64 < 2 ^ 64 := Int.emod_lt_of_pos v (by norm_num)
  have hmod : v % 2 ^ 64 = v - 2 ^ 64 * (v / 2 ^ 64) := Int.emod_def v (2 ^ 64)
  congr 1
  congr 1
  omega

/-- Unsigned 32-bit round trip (header words). -/
theorem rLE32u_le32 (n : Nat) (rest : List Nat) (h : n < 2 ^ 32) :
    Erago.rLE32u (Erago.le32 (n : Int) ++ rest) = .ok (n, rest) := by
  have hb := rBytes_append (Erago.le32 (n : Int)) rest
  rw [le32_length] at hb
  simp only [Erago.rLE32u, le32_length, hb]
  simp only [bind, Except.bind]
  rw [leVal_le32]
  congr 1
  congr 1
  omega

/-- Unsigned 64-bit round trip (magic header). -/
theorem rLE64u_le64 (n : Nat) (rest : List Nat) (h : n < 2 ^ 64) :
    Erago.rLE64u (Erago.le64 (n : Int) ++ rest) = .ok (n, rest) := by
  have hb := rBytes_append (Erago.le64 (n : Int)) rest
  rw [le64_length] at hb
  simp only [Erago.rLE64u, le64_length, hb]
  simp only [bind, Except.bind]
  rw [leVal_le64]
  congr 1
  congr 1
  omega

/-- The fuel of w7F is irrelevant once it dominates the value. -/
theorem w7F_irrel : ∀ (v fuel fuel2 : Nat), v ≤ fuel → v ≤ fuel2 →
    Erago.w7F fuel v = Erago.w7F fuel2 v := by
  intro v
  induction v using Nat.strong_induction_on with
  | _ v ih =>
    intro fuel fuel2 h1 h2
    match fuel, fuel2 with
    | 0, 0 => rfl
    | 0, g + 1 =>
      have hv : v = 0 := by omega
      subst hv
      simp [Erago.w7F]
    | f + 1, 0 =>
      have hv : v = 0 := by omega
      subst hv
      simp [Erago.w7F]
    | f + 1, g + 1 =>
      rw [Erago.w7F, Erago.w7F]
      by_cases hv : v < 0x80
      · rw [if_pos hv, if_pos hv]
      · rw [if_neg hv, if_neg hv]
        have hlt : v / 0x80 < v := Nat.div_lt_self (by omega) (by norm_num)
        rw [ih (v / 0x80) hlt f g (by omega) (by omega)]

/-- The defining unfolding of w7. -/
theorem w7_eq (v : Nat) : Erago.w7 v =
    if v < 0x80 then [v] else (v % 0x80 + 0x80) :: Erago.w7 (v / 0x80) := by
  rw [Erago.w7]
  by_cases hv : v < 0x80
  · rw [if_pos hv]
    cases v with
    | zero => rfl
    | succ v2 => rw [Erago.w7F, if_pos hv]
  · rw [if_neg hv]
    obtain ⟨v2, rfl⟩ : ∃ v3, v = v3 + 1 := ⟨v - 1, by omega⟩
    rw [Erago.w7F, if_neg hv]
    rw [Erago.w7]
    congr 1
    have hlt : (v2 + 1) / 0x80 < v2 + 1 := Nat.div_lt_self (by omega) (by norm_num)
    exact w7F_irrel _ _ _ (by omega) (le_refl _)

/-- One step of the 7-bit varint reader. -/
theorem r7Aux_cons (groups acc shift b : Nat) (rest : List Nat) :
    Erago.r7Aux (groups + 1) acc shift (b :: rest) =
      if b % 256 < 0x80 then .ok (acc + b % 0x80 * 2 ^ shift, rest)
      else Erago.r7Aux groups (acc + b % 0x80 * 2 ^ shift) (shift + 7) rest := rfl

/-- The 7-bit varint loop: each group lands in disjoint bit positions, so
parsing the writer output accumulates back the value. -/
theorem r7Aux_w7 :
    ∀ (groups : Nat) (v acc shift : Nat) (rest : List Nat),
      v < 2 ^ (7 * (groups + 1)) →
      Erago.r7Aux (groups + 1) acc shift (Erago.w7 v ++ rest) =
        .ok (acc + v * 2 ^ shift, rest) := by
  intro groups
  induction groups with
  | zero =>
    intro v acc shift rest h
    have hv : v < 0x80 := by norm_num at h; omega
    rw [w7_eq, if_pos hv, List.cons_append, List.nil_append, r7Aux_cons,
      if_pos (by omega : v % 256 < 0x80)]
    rw [Nat.mod_eq_of_lt hv]
  | succ g ih =>
    intro v acc shift rest h
    by_cases hv : v < 0x80
    · rw [w7_eq, if_pos hv, List.cons_append, List.nil_append, r7Aux_cons,
        if_pos (by omega : v % 256 < 0x80)]
      rw [Nat.mod_eq_of_lt hv]
    · rw [w7_eq, if_neg hv, List.cons_append, r7Aux_cons,
        if_neg (by omega : ¬((v % 0x80 + 0x80) % 256 < 0x80))]
      have hchunk : (v % 0x80 + 0x80) % 0x80 = v % 0x80 := by omega
      rw [hchunk]
      have hdiv : v / 0x80 < 2 ^ (7 * (g + 1)) := by
        have h7 : 7 * (g + 1 + 1) = 7 * (g + 1) + 7 := by ring
        rw [h7, pow_add] at h
        norm_num at h
        omega
      rw [ih (v / 0x80) (acc + v % 0x80 * 2 ^ shift) (shift + 7) rest hdiv]
      congr 2
      have hp : 2 ^ (shift + 7) = 2 ^ shift * 128 := by rw [pow_add]; norm_num
      rw [hp]
      have hv2 : v % 128 + 128 * (v / 128) = v := Nat.mod_add_div v 128
      conv_rhs => rw [← hv2]
      ring

/-- read7BitEncodedInt round trip below 2^35. -/
theorem r7_w7 (v : Nat) (rest : List Nat) (h : v < 2 ^ 35) :
    Erago.r7 (Erago.w7 v ++ rest) = .ok (v, rest) := by
  have h5 : v < 2 ^ (7 * (4 + 1)) := by norm_num at h ⊢; omega
  have := r7Aux_w7 4 v 0 0 rest h5
  simpa [Erago.r7] using this

/-- Valid characters are below the surrogate range or above it. -/
theorem char_valid_ranges (c : Char) :
    c.toNat < 0xD800 ∨ (0xDFFF < c.toNat ∧ c.toNat < 0x110000) := by
  have := c.valid
  simpa [UInt32.isValidChar, Nat.isValidChar, Char.toNat] using this

/-- Char.ofNat recovers a valid scalar value. -/
theorem char_toNat_ofNat (n : Nat) (h : n.isValidChar) :
    (Char.ofNat n).toNat = n := by
  simp [Char.ofNat, h, Char.toNat, Char.ofNatAux, UInt32.toNat]

/-- utf16Char always emits at least one unit. -/
theorem utf16Char_ne_nil (c : Char) : Erago.utf16Char c ≠ [] := by
  unfold Erago.utf16Char
  split <;> simp

/-- Every unit emitted by utf16Char fits in 16 bits. -/
theorem utf16Char_lt (c : Char) : ∀ u ∈ Erago.utf16Char c, u < 2 ^ 16 := by
  intro u hu
  have hv := char_valid_ranges c
  unfold Erago.utf16Char at hu
  by_cases h : c.toNat < 0x10000
  · rw [if_pos h] at hu
    simp at hu
    omega
  · rw [if_neg h] at hu
    simp at hu
    rcases hu with h1 | h2 <;> omega

/-- Decoding a non-surrogate head unit. -/
theorem utf16Decode_cons_plain (u : Nat) (tail : List Nat)
    (hu : u < 0xD800 ∨ 0xE000 ≤ u) :
    Erago.utf16Decode (u :: tail) = Char.ofNat u :: Erago.utf16Decode tail := by
  have hc1 : ¬(0xD800 ≤ u ∧ u < 0xDC00) := by omega
  have hc2 : ¬(0xDC00 ≤ u ∧ u < 0xE000) := by omega
  cases tail with
  | nil =>
    simp only [Erago.utf16Decode]
    rw [if_neg (by omega : ¬((0xD800 ≤ u ∧ u < 0xDC00) ∨ (0xDC00 ≤ u ∧ u < 0xE000)))]
  | cons v t =>
    simp only [Erago.utf16Decode]
    rw [if_neg hc1, if_neg hc2]

/-- Decoding a surrogate pair. -/
theorem utf16Decode_cons_pair (hi lo : Nat) (tail : List Nat)
    (hhi : 0xD800 ≤ hi ∧ hi < 0xDC00) (hlo : 0xDC00 ≤ lo ∧ lo < 0xE000) :
    Erago.utf16Decode (hi :: lo :: tail) =
      Char.ofNat (0x10000 + (hi - 0xD800) * 0x400 + (lo - 0xDC00)) ::
        Erago.utf16Decode tail := by
  simp only [Erago.utf16Decode]
  rw [if_pos hhi, if_pos hlo]

/-- utf16Char on a basic-plane character. -/
theorem utf16Char_bmp (c : Char) (h : c.toNat < 0x10000) :
    Erago.utf16Char c = [c.toNat] := by
  unfold Erago.utf16Char
  rw [if_pos h]

/-- utf16Char on a supplementary character. -/
theorem utf16Char_supp (c : Char) (h : ¬c.toNat < 0x10000) :
    Erago.utf16Char c =
      [0xD800 + (c.toNat - 0x10000) / 0x400, 0xDC00 + (c.toNat - 0x10000) % 0x400] := by
  unfold Erago.utf16Char
  rw [if_neg h]

/-- utf16.Decode undoes utf16.Encode on character lists. -/
theorem utf16Decode_flatMap (cs : List Char) :
    Erago.utf16Decode (cs.flatMap Erago.utf16Char) = cs := by
  induction cs with
  | nil => rfl
  | cons c rest ih =>
    have hv := char_valid_ranges c
    rw [List.flatMap_cons]
    by_cases h : c.toNat < 0x10000
    · rw [utf16Char_bmp c h, List.cons_append, List.nil_append,
        utf16Decode_cons_plain c.toNat _ (by omega), ih, Char.ofNat_toNat]
    · rw [utf16Char_supp c h]
      have hmod : (c.toNat - 0x10000) % 0x400 < 0x400 := Nat.mod_lt _ (by norm_num)
      have hdivlt : (c.toNat - 0x10000) / 0x400 < 0x400 := by omega
      rw [List.cons_append, List.cons_append, List.nil_append,
        utf16Decode_cons_pair _ _ _ (by omega) (by omega), ih]
      have harith : 0x10000 + (0xD800 + (c.toNat - 0x10000) / 0x400 - 0xD800) * 0x400 +
          (0xDC00 + (c.toNat - 0x10000) % 0x400 - 0xDC00) = c.toNat := by
        have := Nat.mod_add_div (c.toNat - 0x10000) 0x400
        omega
      rw [harith, Char.ofNat_toNat]

/-- The byte expansion of 16-bit units regroups to the units. -/
theorem bytesToUnits_flatMap (us : List Nat) (h : ∀ u ∈ us, u < 2 ^ 16) :
    Erago.bytesToUnits (us.flatMap (fun u => [u % 256, u / 256 % 256])) = us := by
  induction us with
  | nil => rfl
  | cons u rest ih =>
    have hu : u < 2 ^ 16 := h u (by simp)
    rw [List.flatMap_cons, List.cons_append, List.cons_append, List.nil_append,
      Erago.bytesToUnits]
    rw [ih (fun v hv => h v (by simp [hv]))]
    congr 1
    omega

/-- Length of the byte expansion. -/
theorem flatMap_pair_length (us : List Nat) :
    (us.flatMap (fun u => [u % 256, u / 256 % 256])).length = 2 * us.length := by
  induction us with
  | nil => rfl
  | cons u rest ih => simp [ih]; omega

/-- utf16Units of a non-empty string is non-empty. -/
theorem utf16Units_ne_nil (s : String) (h : s ≠ "") :
    Erago.utf16Units s ≠ [] := by
  have hd : s.toList ≠ [] := by
    intro hc
    apply h
    cases s with
    | mk data =>
      simp [String.toList] at hc
      simp [hc]
  unfold Erago.utf16Units
  cases hcs : s.toList with
  | nil => exact absurd hcs hd
  | cons c rest =>
    rw [List.flatMap_cons]
    have := utf16Char_ne_nil c
    intro hc
    rcases List.append_eq_nil.mp hc with ⟨h1, _⟩
    exact this h1

/-- readDotNetString undoes writeDotNetString, for strings whose UTF-16
byte length stays below the reader's 35-bit varint limit. -/
theorem rDotNetStr_w (s : String) (rest : List Nat)
    (h : 2 * (Erago.utf16Units s).length < 2 ^ 35) :
    Erago.rDotNetStr (Erago.wDotNetStr s ++ rest) = .ok (s, rest) := by
  by_cases hs : s = ""
  · subst hs
    rw [Erago.wDotNetStr, if_pos rfl]
    unfold Erago.rDotNetStr
    rw [r7_w7 0 rest (by norm_num)]
    simp [bind, Except.bind, pure, Except.pure]
  · rw [Erago.wDotNetStr, if_neg hs]
    unfold Erago.rDotNetStr
    rw [List.append_assoc,
      r7_w7 (2 * (Erago.utf16Units s).length) _ h]
    have hne := utf16Units_ne_nil s hs
    have hlen : (Erago.utf16Units s).length ≠ 0 := by
      simpa [List.length_eq_zero] using hne
    simp only [bind, Except.bind]
    rw [if_neg (by omega), if_neg (by omega)]
    have hblen : ((Erago.utf16Units s).flatMap
        (fun u => [u % 256, u / 256 % 256])).length = 2 * (Erago.utf16Units s).length :=
      flatMap_pair_length _
    have hb : Erago.rBytes (2 * (Erago.utf16Units s).length)
        ((Erago.utf16Units s).flatMap (fun u => [u % 256, u / 256 % 256]) ++ rest) =
        .ok ((Erago.utf16Units s).flatMap (fun u => [u % 256, u / 256 % 256]), rest) := by
      have := rBytes_append
        ((Erago.utf16Units s).flatMap (fun u => [u % 256, u / 256 % 256])) rest
      rwa [hblen] at this
    rw [hb]
    have hunits : ∀ u ∈ Erago.utf16Units s, u < 2 ^ 16 := by
      intro u hu
      unfold Erago.utf16Units at hu
      rcases List.mem_flatMap.mp hu with ⟨c, _, hc⟩
      exact utf16Char_lt c u hc
    have h1 := bytesToUnits_flatMap (Erago.utf16Units s) hunits
    have h2 : Erago.utf16Decode (Erago.utf16Units s) = s.toList :=
      utf16Decode_flatMap s.toList
    have h3 : String.mk s.toList = s := by cases s; rfl
    simp [pure, Except.pure, h1, h2, h3]

/-- writeCompressedInt always emits a lead byte at most 0xD2 (below every
array marker byte). -/
theorem cenc_head (v : Int) :
    ∃ b bs, Erago.cenc v = b :: bs ∧ b ≤ 0xD2 := by
  unfold Erago.cenc
  by_cases h1 : 0 ≤ v ∧ v ≤ (Erago.ebByte : Int)
  · rw [if_pos h1]
    refine ⟨v.toNat, [], rfl, ?_⟩
    have : (Erago.ebByte : Int) = 0xCF := rfl
    omega
  · rw [if_neg h1]
    by_cases h2 : -(2 ^ 15) ≤ v ∧ v ≤ 2 ^ 15 - 1
    · rw [if_pos h2]
      exact ⟨Erago.ebInt16, _, rfl, by norm_num [Erago.ebInt16]⟩
    · rw [if_neg h2]
      by_cases h3 : -(2 ^ 31) ≤ v ∧ v ≤ 2 ^ 31 - 1
      · rw [if_pos h3]
        exact ⟨Erago.ebInt32, _, rfl, by norm_num [Erago.ebInt32]⟩
      · rw [if_neg h3]
        exact ⟨Erago.ebInt64, _, rfl, by norm_num [Erago.ebInt64]⟩

/-- readCompressedInt undoes writeCompressedInt on int64 values. -/
theorem cdec_cenc (v : Int) (rest : List Nat)
    (h : -(2 ^ 63) ≤ v ∧ v ≤ 2 ^ 63 - 1) :
    Erago.cdec (Erago.cenc v ++ rest) = .ok (v, rest) := by
  unfold Erago.cenc
  by_cases h1 : 0 ≤ v ∧ v ≤ (Erago.ebByte : Int)
  · rw [if_pos h1]
    have hb : (Erago.ebByte : Int) = 0xCF := rfl
    unfold Erago.cdec
    rw [List.cons_append, List.nil_append, rByte_cons]
    simp only [bind, Except.bind]
    unfold Erago.cdecFirst
    rw [if_pos (by omega : v.toNat ≤ Erago.ebByte)]
    congr 2
    omega
  · rw [if_neg h1]
    by_cases h2 : -(2 ^ 15) ≤ v ∧ v ≤ 2 ^ 15 - 1
    · rw [if_pos h2]
      unfold Erago.cdec
      rw [List.cons_append, rByte_cons]
      simp only [bind, Except.bind]
      unfold Erago.cdecFirst
      rw [if_neg (by norm_num [Erago.ebInt16, Erago.ebByte]),
        if_pos rfl]
      exact rLE16_le16 v rest h2
    · rw [if_neg h2]
      by_cases h3 : -(2 ^ 31) ≤ v ∧ v ≤ 2 ^ 31 - 1
      · rw [if_pos h3]
        unfold Erago.cdec
        rw [List.cons_append, rByte_cons]
        simp only [bind, Except.bind]
        unfold Erago.cdecFirst
        rw [if_neg (by norm_num [Erago.ebInt32, Erago.ebByte]),
          if_neg (by norm_num [Erago.ebInt32, Erago.ebInt16]),
          if_pos rfl]
        exact rLE32_le32 v rest h3
      · rw [if_neg h3]
        unfold Erago.cdec
        rw [List.cons_append, rByte_cons]
        simp only [bind, Except.bind]
        unfold Erago.cdecFirst
        rw [if_neg (by norm_num [Erago.ebInt64, Erago.ebByte]),
          if_neg (by norm_num [Erago.ebInt64, Erago.ebInt16]),
          if_neg (by norm_num [Erago.ebInt64, Erago.ebInt32]),
          if_pos rfl]
        exact rLE64_le64 v rest h

/-- One step of the 1D RLE reader. -/
theorem rleRead1_cons {α : Type}
    (decEl : Nat → List Nat → Except String (α × List Nat))
    (fuel : Nat) (arr : List α) (x : Int) (b : Nat) (rest : List Nat) :
    Erago.rleRead1 decEl (fuel + 1) arr x (b :: rest) =
      if b = Erago.ebEoD then .ok (arr, rest)
      else if b = Erago.ebZero then
        match Erago.cdec rest with
        | .error e => .error e
        | .ok (cnt, rest2) => Erago.rleRead1 decEl fuel arr (x + cnt) rest2
      else
        match decEl b rest with
        | .error e => .error e
        | .ok (v, rest2) =>
          Erago.rleRead1 decEl fuel
            (if 0 ≤ x ∧ x < (arr.length : Int) then arr.set x.toNat v else arr)
            (x + 1) rest2 := by
  rw [Erago.rleRead1]
  simp only [Erago.rByte, bind, Except.bind]
  by_cases h1 : b = Erago.ebEoD
  · rw [if_pos h1, if_pos h1]
    rfl
  · rw [if_neg h1, if_neg h1]
    by_cases h2 : b = Erago.ebZero
    · rw [if_pos h2, if_pos h2]
      rcases Erago.cdec rest with e | ⟨cnt, rest2⟩ <;> rfl
    · rw [if_neg h2, if_neg h2]
      rcases decEl b rest with e | ⟨v, rest2⟩ <;> rfl

/-- updFrom preserves length. -/
theorem updFrom_length {α : Type} [DecidableEq α] (zero : α) :
    ∀ (t : List α) (arr : List α) (pos : Nat),
      (Erago.updFrom zero arr pos t).length = arr.length := by
  intro t
  induction t with
  | nil => intro arr pos; rfl
  | cons v vs ih =>
    intro arr pos
    rw [Erago.updFrom]
    rw [ih]
    by_cases h : v = zero
    · rw [if_pos h]
    · rw [if_neg h, List.length_set]

/-- updFrom into a suffix of zeros replaces it. -/
theorem updFrom_exact {α : Type} [DecidableEq α] (zero : α) :
    ∀ (t : List α) (arr : List α) (pos : Nat),
      arr.length = pos + t.length →
      (∀ j, pos ≤ j → ∀ hj : j < arr.length, arr.get ⟨j, hj⟩ = zero) →
      Erago.updFrom zero arr pos t = arr.take pos ++ t := by
  intro t
  induction t with
  | nil =>
    intro arr pos hlen _
    have hlen2 : arr.length = pos := by simpa using hlen
    rw [Erago.updFrom, List.append_nil, List.take_of_length_le (le_of_eq hlen2)]
  | cons v vs ih =>
    intro arr pos hlen hz
    have hlen2 : arr.length = pos + vs.length + 1 := by
      simp only [List.length_cons] at hlen
      omega
    have hpos : pos < arr.length := by omega
    rw [Erago.updFrom]
    by_cases h : v = zero
    · rw [if_pos h]
      have hz2 : ∀ j, pos + 1 ≤ j → ∀ hj : j < arr.length, arr.get ⟨j, hj⟩ = zero :=
        fun j hj hjl => hz j (by omega) hjl
      rw [ih arr (pos + 1) (by omega) hz2]
      have hgetp : arr.get ⟨pos, hpos⟩ = zero := hz pos (le_refl pos) hpos
      rw [List.take_succ, List.getElem?_eq_getElem hpos]
      simp only [List.get_eq_getElem] at hgetp
      rw [hgetp, h]
      simp
    · rw [if_neg h]
      have hlenset : (arr.set pos v).length = arr.length := List.length_set arr pos v
      have hz2 : ∀ j, pos + 1 ≤ j → ∀ hj : j < (arr.set pos v).length,
          (arr.set pos v).get ⟨j, hj⟩ = zero := by
        intro j hj hjl
        have hjl2 : j < arr.length := by omega
        simp only [List.get_eq_getElem, List.getElem_set]
        rw [if_neg (by omega : ¬pos = j)]
        have := hz j (by omega) hjl2
        simpa using this
      rw [ih (arr.set pos v) (pos + 1) (by omega) hz2]
      have hget : (arr.set pos v)[pos]? = some v := by
        rw [List.getElem?_eq_getElem (by omega : pos < (arr.set pos v).length)]
        simp [List.getElem_set]
      rw [List.take_succ, hget]
      have htake : (arr.set pos v).take pos = arr.take pos := by
        apply List.ext_getElem
        · simp [List.length_set]
        · intro i h1 h2
          have hi : i < pos := by
            simp only [List.length_take] at h1
            omega
          simp only [List.getElem_take, List.getElem_set]
          rw [if_neg (by omega : ¬pos = i)]
      rw [htake]
      simp

/-- rowIter is covered by the emitted bytes. -/
theorem rowIter_le {α : Type} [DecidableEq α] (zero : α) (enc : α → List Nat)
    (Hne : ∀ v : α, v ≠ zero → enc v ≠ []) :
    ∀ (t : List α) (c : Nat),
      Erago.rowIter zero t c ≤ (Erago.rleRow zero enc t c).length := by
  intro t
  induction t with
  | nil => intro c; simp [Erago.rowIter, Erago.rleRow]
  | cons v vs ih =>
    intro c
    rw [Erago.rowIter, Erago.rleRow]
    by_cases h : v = zero
    · rw [if_pos h, if_pos h]
      exact ih (c + 1)
    · rw [if_neg h, if_neg h]
      have h1 := ih 0
      have h2 : (enc v).length ≥ 1 := by
        have := Hne v h
        cases hc : enc v with
        | nil => exact absurd hc this
        | cons a b => simp
      by_cases hc : c > 0
      · rw [if_pos hc, if_pos hc]
        simp only [List.length_append, List.length_cons]
        have : (Erago.cenc (c : Int)).length ≥ 0 := Nat.zero_le _
        omega
      · rw [if_neg hc, if_neg hc]
        simp only [List.length_append, List.length_nil]
        omega

/-- The EoD step of the 1D RLE reader. -/
theorem rleRead1_eod {α : Type}
    (decEl : Nat → List Nat → Except String (α × List Nat))
    (fuel : Nat) (arr : List α) (x : Int) (rest : List Nat) :
    Erago.rleRead1 decEl (fuel + 1) arr x (Erago.ebEoD :: rest) = .ok (arr, rest) := by
  rw [rleRead1_cons, if_pos rfl]

/-- The zero-run step of the 1D RLE reader. -/
theorem rleRead1_zero {α : Type}
    (decEl : Nat → List Nat → Except String (α × List Nat))
    (fuel : Nat) (arr : List α) (x cnt : Int) (rest rest2 : List Nat)
    (hc : Erago.cdec rest = .ok (cnt, rest2)) :
    Erago.rleRead1 decEl (fuel + 1) arr x (Erago.ebZero :: rest) =
      Erago.rleRead1 decEl fuel arr (x + cnt) rest2 := by
  rw [rleRead1_cons, if_neg (by norm_num [Erago.ebZero, Erago.ebEoD]), if_pos rfl, hc]

/-- The value step of the 1D RLE reader. -/
theorem rleRead1_val {α : Type}
    (decEl : Nat → List Nat → Except String (α × List Nat))
    (fuel : Nat) (arr : List α) (x : Int) (b : Nat) (rest rest2 : List Nat)
    (v : α) (hEoD : b ≠ Erago.ebEoD) (hZ : b ≠ Erago.ebZero)
    (hdec : decEl b rest = .ok (v, rest2)) :
    Erago.rleRead1 decEl (fuel + 1) arr x (b :: rest) =
      Erago.rleRead1 decEl fuel
        (if 0 ≤ x ∧ x < (arr.length : Int) then arr.set x.toNat v else arr)
        (x + 1) rest2 := by
  rw [rleRead1_cons, if_neg hEoD, if_neg hZ, hdec]

/-- Parsing one row run moves the reader past the run, writing exactly
the non-zero elements of the row (additively in fuel). -/
theorem rleRead1_row {α : Type} [DecidableEq α] (zero : α) (enc : α → List Nat)
    (decEl : Nat → List Nat → Except String (α × List Nat)) (P : α → Prop)
    (Hhead : ∀ v : α, v ≠ zero → ∃ b bs, enc v = b :: bs ∧ b < 0xE0)
    (Hdec : ∀ (v : α) (rest : List Nat) (b : Nat) (bs : List Nat),
      P v → v ≠ zero → enc v = b :: bs → decEl b (bs ++ rest) = .ok (v, rest)) :
    ∀ (t : List α) (c x : Nat) (arr : List α) (fuel : Nat) (rest2 : List Nat),
      (∀ v ∈ t, v ≠ zero → P v) →
      x + c + t.length ≤ arr.length →
      arr.length < 2 ^ 31 →
      ∃ x2 : Int,
        Erago.rleRead1 decEl (fuel + Erago.rowIter zero t c) arr (x : Int)
          (Erago.rleRow zero enc t c ++ rest2) =
        Erago.rleRead1 decEl fuel (Erago.updFrom zero arr (x + c) t) x2 rest2 := by
  intro t
  induction t with
  | nil =>
    intro c x arr fuel rest2 _ _ _
    refine ⟨(x : Int), ?_⟩
    rw [Erago.rowIter, Erago.rleRow, Erago.updFrom, List.nil_append, Nat.add_zero]
  | cons v vs ih =>
    intro c x arr fuel rest2 hP hlen h31
    by_cases hv : v = zero
    · rw [Erago.rowIter, if_pos hv, Erago.rleRow, if_pos hv, Erago.updFrom, if_pos hv]
      have harith : x + c + 1 = x + (c + 1) := by omega
      rw [harith]
      exact ih (c + 1) x arr fuel rest2 (fun w hw => hP w (by simp [hw]))
        (by simp only [List.length_cons] at hlen; omega) h31
    · have hPv : P v := hP v (by simp) hv
      obtain ⟨b, bs, hbv, hblt⟩ := Hhead v hv
      have hlen2 : x + c + vs.length + 1 ≤ arr.length := by
        simp only [List.length_cons] at hlen
        omega
      have hup : Erago.updFrom zero arr (x + c) (v :: vs) =
          Erago.updFrom zero (arr.set (x + c) v) (x + c + 1) vs := by
        rw [Erago.updFrom, if_neg hv]
      have hguard : 0 ≤ ((x + c : Nat) : Int) ∧
          ((x + c : Nat) : Int) < (arr.length : Int) := by
        refine ⟨Int.natCast_nonneg _, ?_⟩
        exact_mod_cast (by omega : x + c < arr.length)
      -- value plus tail, starting at cursor x+c with no pending zeros
      have hcommon : ∃ x2 : Int,
          Erago.rleRead1 decEl ((fuel + Erago.rowIter zero vs 0) + 1) arr
            ((x + c : Nat) : Int)
            (enc v ++ (Erago.rleRow zero enc vs 0 ++ rest2)) =
          Erago.rleRead1 decEl fuel (Erago.updFrom zero arr (x + c) (v :: vs))
            x2 rest2 := by
        rw [hbv, List.cons_append,
          rleRead1_val decEl _ arr _ b _ _ v
            (by simp only [Erago.ebEoD]; omega) (by simp only [Erago.ebZero]; omega)
            (Hdec v _ b bs hPv hv hbv),
          if_pos hguard, Int.toNat_natCast]
        have hcast : ((x + c : Nat) : Int) + 1 = ((x + c + 1 : Nat) : Int) := by
          push_cast
          ring
        rw [hcast, hup]
        have harr2 : (arr.set (x + c) v).length = arr.length := List.length_set arr _ _
        have := ih 0 (x + c + 1) (arr.set (x + c) v) fuel rest2
          (fun w hw => hP w (by simp [hw]))
          (by omega) (by omega)
        simpa using this
      by_cases hc : c > 0
      · rw [Erago.rowIter, if_neg hv, Erago.rleRow, if_neg hv, if_pos hc, if_pos hc]
        have hfuel : fuel + ((1 : Nat) + 1 + Erago.rowIter zero vs 0) =
            ((fuel + Erago.rowIter zero vs 0) + 1) + 1 := by omega
        rw [hfuel]
        rw [List.append_assoc, List.append_assoc, List.cons_append]
        rw [rleRead1_zero decEl _ arr _ (c : Int) _ _
          (cdec_cenc (c : Int) _ (by
            constructor
            · have : (0 : Int) ≤ c := Int.natCast_nonneg c
              omega
            · have hcb : (c : Int) < 2 ^ 31 := by exact_mod_cast (by omega : c < 2 ^ 31)
              omega))]
        have hcast : (x : Int) + (c : Int) = ((x + c : Nat) : Int) := by push_cast; ring
        rw [hcast]
        exact hcommon
      · rw [Erago.rowIter, if_neg hv, Erago.rleRow, if_neg hv, if_neg hc, if_neg hc]
        have hc0 : c = 0 := by omega
        subst hc0
        have hfuel : fuel + ((0 : Nat) + 1 + Erago.rowIter zero vs 0) =
            (fuel + Erago.rowIter zero vs 0) + 1 := by omega
        rw [hfuel, List.nil_append, List.append_assoc]
        have hx : (x : Int) = ((x + 0 : Nat) : Int) := by norm_num
        rw [hx]
        exact hcommon
/-- The int element reader undoes the compressed-int writer given its
lead byte. -/
theorem decElemInt_cenc (v : Int) (rest : List Nat) (b : Nat) (bs : List Nat)
    (h : -(2 ^ 63) ≤ v ∧ v ≤ 2 ^ 63 - 1) (henc : Erago.cenc v = b :: bs) :
    Erago.decElemInt b (bs ++ rest) = .ok (v, rest) := by
  have h1 := cdec_cenc v rest h
  rw [henc, List.cons_append] at h1
  unfold Erago.cdec at h1
  rw [rByte_cons] at h1
  simpa [Erago.decElemInt, bind, Except.bind] using h1

/-- The string element reader undoes the 0xD8-marked string writer given
its lead byte. -/
theorem decElemStr_enc (s : String) (rest : List Nat) (b : Nat) (bs : List Nat)
    (h : 2 * (Erago.utf16Units s).length < 2 ^ 35)
    (henc : Erago.encElemStr s = b :: bs) :
    Erago.decElemStr b (bs ++ rest) = .ok (s, rest) := by
  rw [Erago.encElemStr] at henc
  injection henc with hb hbs
  subst hb
  subst hbs
  rw [Erago.decElemStr, if_neg (by simp)]
  exact rDotNetStr_w s rest h

/-- The full 1D array body read into a zeroed array recovers the dense
payload exactly (additively in fuel). -/
theorem rleRead1_body {α : Type} [DecidableEq α] (zero : α) (enc : α → List Nat)
    (decEl : Nat → List Nat → Except String (α × List Nat)) (P : α → Prop)
    (Hhead : ∀ v : α, v ≠ zero → ∃ b bs, enc v = b :: bs ∧ b < 0xE0)
    (Hdec : ∀ (v : α) (rest : List Nat) (b : Nat) (bs : List Nat),
      P v → v ≠ zero → enc v = b :: bs → decEl b (bs ++ rest) = .ok (v, rest))
    (flat : List α) (rest : List Nat) (fuel : Nat)
    (hP : ∀ v ∈ flat, v ≠ zero → P v) (h31 : flat.length < 2 ^ 31) :
    Erago.rleRead1 decEl (fuel + (Erago.rowIter zero flat 0 + 1))
      (List.replicate flat.length zero) 0
      (Erago.rleBody1 zero enc flat ++ rest) = .ok (flat, rest) := by
  have hrow := rleRead1_row zero enc decEl P Hhead Hdec flat 0 0
    (List.replicate flat.length zero) (fuel + 1) (Erago.ebEoD :: rest) hP
    (by simp) (by simpa using h31)
  obtain ⟨x2, hx⟩ := hrow
  have hb : Erago.rleBody1 zero enc flat ++ rest =
      Erago.rleRow zero enc flat 0 ++ (Erago.ebEoD :: rest) := by
    rw [Erago.rleBody1, List.append_assoc, List.singleton_append]
  have hfuel : fuel + (Erago.rowIter zero flat 0 + 1) =
      (fuel + 1) + Erago.rowIter zero flat 0 := by omega
  rw [hb, hfuel]
  have h0 : ((0 : Nat) : Int) = (0 : Int) := rfl
  rw [← h0, hx, rleRead1_eod]
  have hupd : Erago.updFrom zero (List.replicate flat.length zero) (0 + 0) flat =
      flat := by
    rw [updFrom_exact zero flat (List.replicate flat.length zero) 0
      (by simp) (by intro j _ hj; simp)]
    simp
  rw [hupd]

/-- readIntArray1D undoes writeWithKeyInt1D after the type byte and key. -/
theorem readIntArray1D_w (flat : List Int) (rest : List Nat)
    (hP : ∀ v ∈ flat, -(2 ^ 63) ≤ v ∧ v ≤ 2 ^ 63 - 1)
    (h31 : flat.length < 2 ^ 31) :
    Erago.readIntArray1D (Erago.le32 (flat.length : Int) ++
      Erago.rleBody1 0 Erago.cenc flat ++ rest) =
      .ok (flat, [(flat.length : Int)], rest) := by
  unfold Erago.readIntArray1D
  rw [List.append_assoc,
    rLE32_le32 (flat.length : Int) _ (by
      constructor
      · have : (0 : Int) ≤ flat.length := Int.natCast_nonneg _
        omega
      · have : (flat.length : Int) < 2 ^ 31 := by exact_mod_cast h31
        omega)]
  simp only [bind, Except.bind]
  rw [if_neg (by
    simp only [not_lt]
    exact Int.natCast_nonneg _)]
  have hne : ∀ v : Int, v ≠ 0 → Erago.cenc v ≠ [] := by
    intro v _
    obtain ⟨b, bs, h1, _⟩ := cenc_head v
    simp [h1]
  have hri := rowIter_le (0 : Int) Erago.cenc hne flat 0
  have hlen : (Erago.rleBody1 0 Erago.cenc flat ++ rest).length =
      (Erago.rleRow 0 Erago.cenc flat 0).length + 1 + rest.length := by
    simp [Erago.rleBody1]
    omega
  have hfuel : (Erago.rleBody1 0 Erago.cenc flat ++ rest).length + 1 =
      ((Erago.rleBody1 0 Erago.cenc flat ++ rest).length -
        Erago.rowIter 0 flat 0) + (Erago.rowIter 0 flat 0 + 1) := by omega
  rw [hfuel]
  have hbody := rleRead1_body (0 : Int) Erago.cenc Erago.decElemInt
    (fun v => -(2 ^ 63) ≤ v ∧ v ≤ 2 ^ 63 - 1)
    (fun v _ => by
      obtain ⟨b, bs, h1, h2⟩ := cenc_head v
      exact ⟨b, bs, h1, by omega⟩)
    (fun v r b bs hPv _ henc => decElemInt_cenc v r b bs hPv henc)
    flat rest
    ((Erago.rleBody1 0 Erago.cenc flat ++ rest).length - Erago.rowIter 0 flat 0)
    (fun v hv _ => hP v hv) h31
  rw [Int.toNat_natCast, hbody]
  rfl

/-- readStrArray1D undoes writeWithKeyStr1D after the type byte and key. -/
theorem readStrArray1D_w (flat : List String) (rest : List Nat)
    (hP : ∀ s ∈ flat, 2 * (Erago.utf16Units s).length < 2 ^ 35)
    (h31 : flat.length < 2 ^ 31) :
    Erago.readStrArray1D (Erago.le32 (flat.length : Int) ++
      Erago.rleBody1 "" Erago.encElemStr flat ++ rest) =
      .ok (flat, [(flat.length : Int)], rest) := by
  unfold Erago.readStrArray1D
  rw [List.append_assoc,
    rLE32_le32 (flat.length : Int) _ (by
      constructor
      · have : (0 : Int) ≤ flat.length := Int.natCast_nonneg _
        omega
      · have : (flat.length : Int) < 2 ^ 31 := by exact_mod_cast h31
        omega)]
  simp only [bind, Except.bind]
  rw [if_neg (by
    simp only [not_lt]
    exact Int.natCast_nonneg _)]
  have hne : ∀ s : String, s ≠ "" → Erago.encElemStr s ≠ [] := by
    intro s _
    simp [Erago.encElemStr]
  have hri := rowIter_le "" Erago.encElemStr hne flat 0
  have hlen : (Erago.rleBody1 "" Erago.encElemStr flat ++ rest).length =
      (Erago.rleRow "" Erago.encElemStr flat 0).length + 1 + rest.length := by
    simp [Erago.rleBody1]
    omega
  have hfuel : (Erago.rleBody1 "" Erago.encElemStr flat ++ rest).length + 1 =
      ((Erago.rleBody1 "" Erago.encElemStr flat ++ rest).length -
        Erago.rowIter "" flat 0) + (Erago.rowIter "" flat 0 + 1) := by omega
  rw [hfuel]
  have hbody := rleRead1_body "" Erago.encElemStr Erago.decElemStr
    (fun s => 2 * (Erago.utf16Units s).length < 2 ^ 35)
    (fun s _ => ⟨Erago.ebString, Erago.wDotNetStr s, rfl, by norm_num [Erago.ebString]⟩)
    (fun s r b bs hPs _ henc => decElemStr_enc s r b bs hPs henc)
    flat rest
    ((Erago.rleBody1 "" Erago.encElemStr flat ++ rest).length -
      Erago.rowIter "" flat 0)
    (fun s hs _ => hP s hs) h31
  rw [Int.toNat_natCast, hbody]
  rfl
/-- One step of the 2D RLE reader, as a case split on the lead byte. -/
theorem rleRead2_cons {α : Type}
    (decEl : Nat → List Nat → Except String (α × List Nat))
    (d0 d1 fuel : Nat) (arr : List α) (x y : Int) (b : Nat) (rest : List Nat) :
    Erago.rleRead2 decEl d0 d1 (fuel + 1) arr x y (b :: rest) =
      if b = Erago.ebEoD then .ok (arr, rest)
      else if b = Erago.ebZeroA1 then
        match Erago.cdec rest with
        | .error e => .error e
        | .ok (cnt, rest2) => Erago.rleRead2 decEl d0 d1 fuel arr (x + cnt) 0 rest2
      else if b = Erago.ebEoA1 then
        Erago.rleRead2 decEl d0 d1 fuel arr (x + 1) 0 rest
      else if b = Erago.ebZero then
        match Erago.cdec rest with
        | .error e => .error e
        | .ok (cnt, rest2) => Erago.rleRead2 decEl d0 d1 fuel arr x (y + cnt) rest2
      else
        match decEl b rest with
        | .error e => .error e
        | .ok (v, rest2) =>
          Erago.rleRead2 decEl d0 d1 fuel
            (if 0 ≤ x ∧ x < (d0 : Int) ∧ 0 ≤ y ∧ y < (d1 : Int) then
              arr.set (x.toNat * d1 + y.toNat) v
            else arr) x (y + 1) rest2 := by
  rw [Erago.rleRead2]
  simp only [Erago.rByte, bind, Except.bind]
  by_cases h1 : b = Erago.ebEoD
  · rw [if_pos h1, if_pos h1]
    rfl
  · rw [if_neg h1, if_neg h1]
    by_cases h2 : b = Erago.ebZeroA1
    · rw [if_pos h2, if_pos h2]
      rcases Erago.cdec rest with e | ⟨cnt, rest2⟩ <;> rfl
    · rw [if_neg h2, if_neg h2]
      by_cases h3 : b = Erago.ebEoA1
      · rw [if_pos h3, if_pos h3]
      · rw [if_neg h3, if_neg h3]
        by_cases h4 : b = Erago.ebZero
        · rw [if_pos h4, if_pos h4]
          rcases Erago.cdec rest with e | ⟨cnt, rest2⟩ <;> rfl
        · rw [if_neg h4, if_neg h4]
          rcases decEl b rest with e | ⟨v, rest2⟩ <;> rfl

/-- The EoD step of the 2D RLE reader. -/
theorem rleRead2_eod {α : Type}
    (decEl : Nat → List Nat → Except String (α × List Nat))
    (d0 d1 fuel : Nat) (arr : List α) (x y : Int) (rest : List Nat) :
    Erago.rleRead2 decEl d0 d1 (fuel + 1) arr x y (Erago.ebEoD :: rest) =
      .ok (arr, rest) := by
  rw [rleRead2_cons, if_pos rfl]

/-- The zero-row-run step of the 2D RLE reader. -/
theorem rleRead2_zeroA1 {α : Type}
    (decEl : Nat → List Nat → Except String (α × List Nat))
    (d0 d1 fuel : Nat) (arr : List α) (x y cnt : Int) (rest rest2 : List Nat)
    (hc : Erago.cdec rest = .ok (cnt, rest2)) :
    Erago.rleRead2 decEl d0 d1 (fuel + 1) arr x y (Erago.ebZeroA1 :: rest) =
      Erago.rleRead2 decEl d0 d1 fuel arr (x + cnt) 0 rest2 := by
  rw [rleRead2_cons, if_neg (by norm_num [Erago.ebZeroA1, Erago.ebEoD]),
    if_pos rfl, hc]

/-- The end-of-row step of the 2D RLE reader. -/
theorem rleRead2_eoa1 {α : Type}
    (decEl : Nat → List Nat → Except String (α × List Nat))
    (d0 d1 fuel : Nat) (arr : List α) (x y : Int) (rest : List Nat) :
    Erago.rleRead2 decEl d0 d1 (fuel + 1) arr x y (Erago.ebEoA1 :: rest) =
      Erago.rleRead2 decEl d0 d1 fuel arr (x + 1) 0 rest := by
  rw [rleRead2_cons, if_neg (by norm_num [Erago.ebEoA1, Erago.ebEoD]),
    if_neg (by norm_num [Erago.ebEoA1, Erago.ebZeroA1]), if_pos rfl]

/-- The zero-cell-run step of the 2D RLE reader. -/
theorem rleRead2_zero {α : Type}
    (decEl : Nat → List Nat → Except String (α × List Nat))
    (d0 d1 fuel : Nat) (arr : List α) (x y cnt : Int) (rest rest2 : List Nat)
    (hc : Erago.cdec rest = .ok (cnt, rest2)) :
    Erago.rleRead2 decEl d0 d1 (fuel + 1) arr x y (Erago.ebZero :: rest) =
      Erago.rleRead2 decEl d0 d1 fuel arr x (y + cnt) rest2 := by
  rw [rleRead2_cons, if_neg (by norm_num [Erago.ebZero, Erago.ebEoD]),
    if_neg (by norm_num [Erago.ebZero, Erago.ebZeroA1]),
    if_neg (by norm_num [Erago.ebZero, Erago.ebEoA1]), if_pos rfl, hc]

/-- The value step of the 2D RLE reader. -/
theorem rleRead2_val {α : Type}
    (decEl : Nat → List Nat → Except String (α × List Nat))
    (d0 d1 fuel : Nat) (arr : List α) (x y : Int) (b : Nat) (rest rest2 : List Nat)
    (v : α) (hb : b < 0xE0)
    (hdec : decEl b rest = .ok (v, rest2)) :
    Erago.rleRead2 decEl d0 d1 (fuel + 1) arr x y (b :: rest) =
      Erago.rleRead2 decEl d0 d1 fuel
        (if 0 ≤ x ∧ x < (d0 : Int) ∧ 0 ≤ y ∧ y < (d1 : Int) then
          arr.set (x.toNat * d1 + y.toNat) v
        else arr) x (y + 1) rest2 := by
  rw [rleRead2_cons, if_neg (by simp only [Erago.ebEoD]; omega),
    if_neg (by simp only [Erago.ebZeroA1]; omega),
    if_neg (by simp only [Erago.ebEoA1]; omega),
    if_neg (by simp only [Erago.ebZero]; omega), hdec]

/-- updFrom over an all-zero run leaves the array unchanged. -/
theorem updFrom_allZero {α : Type} [DecidableEq α] (zero : α) :
    ∀ (t : List α) (arr : List α) (pos : Nat), (∀ v ∈ t, v = zero) →
      Erago.updFrom zero arr pos t = arr := by
  intro t
  induction t with
  | nil => intro arr pos _; rfl
  | cons v vs ih =>
    intro arr pos hz
    rw [Erago.updFrom, if_pos (hz v (by simp))]
    exact ih arr (pos + 1) (fun w hw => hz w (by simp [hw]))
/-- Parsing one row run inside a 2D body writes the row's non-zero
elements at the current row index (additively in fuel). -/
theorem rleRead2_row {α : Type} [DecidableEq α] (zero : α) (enc : α → List Nat)
    (decEl : Nat → List Nat → Except String (α × List Nat)) (P : α → Prop)
    (d0 d1 : Nat)
    (Hhead : ∀ v : α, v ≠ zero → ∃ b bs, enc v = b :: bs ∧ b < 0xE0)
    (Hdec : ∀ (v : α) (rest : List Nat) (b : Nat) (bs : List Nat),
      P v → v ≠ zero → enc v = b :: bs → decEl b (bs ++ rest) = .ok (v, rest))
    (xn : Nat) (hx : xn < d0) (h31 : d1 < 2 ^ 31) :
    ∀ (t : List α) (c y : Nat) (arr : List α) (fuel : Nat) (rest2 : List Nat),
      (∀ v ∈ t, v ≠ zero → P v) →
      y + c + t.length ≤ d1 →
      ∃ y2 : Int,
        Erago.rleRead2 decEl d0 d1 (fuel + Erago.rowIter zero t c) arr
          (xn : Int) ((y : Nat) : Int) (Erago.rleRow zero enc t c ++ rest2) =
        Erago.rleRead2 decEl d0 d1 fuel
          (Erago.updFrom zero arr (xn * d1 + y + c) t) (xn : Int) y2 rest2 := by
  intro t
  induction t with
  | nil =>
    intro c y arr fuel rest2 _ _
    refine ⟨((y : Nat) : Int), ?_⟩
    rw [Erago.rowIter, Erago.rleRow, Erago.updFrom, List.nil_append, Nat.add_zero]
  | cons v vs ih =>
    intro c y arr fuel rest2 hP hlen
    by_cases hv : v = zero
    · rw [Erago.rowIter, if_pos hv, Erago.rleRow, if_pos hv, Erago.updFrom, if_pos hv]
      have harith : xn * d1 + y + c + 1 = xn * d1 + y + (c + 1) := by omega
      rw [harith]
      exact ih (c + 1) y arr fuel rest2 (fun w hw => hP w (by simp [hw]))
        (by simp only [List.length_cons] at hlen; omega)
    · have hPv : P v := hP v (by simp) hv
      obtain ⟨b, bs, hbv, hblt⟩ := Hhead v hv
      have hlen2 : y + c + vs.length + 1 ≤ d1 := by
        simp only [List.length_cons] at hlen
        omega
      have hup : Erago.updFrom zero arr (xn * d1 + y + c) (v :: vs) =
          Erago.updFrom zero (arr.set (xn * d1 + y + c) v) (xn * d1 + y + c + 1) vs := by
        rw [Erago.updFrom, if_neg hv]
      have hguard : 0 ≤ ((xn : Nat) : Int) ∧ ((xn : Nat) : Int) < (d0 : Int) ∧
          0 ≤ ((y + c : Nat) : Int) ∧ ((y + c : Nat) : Int) < (d1 : Int) := by
        refine ⟨Int.natCast_nonneg _, by exact_mod_cast hx,
          Int.natCast_nonneg _, ?_⟩
        exact_mod_cast (by omega : y + c < d1)
      have hcommon : ∃ y2 : Int,
          Erago.rleRead2 decEl d0 d1 ((fuel + Erago.rowIter zero vs 0) + 1) arr
            (xn : Int) ((y + c : Nat) : Int)
            (enc v ++ (Erago.rleRow zero enc vs 0 ++ rest2)) =
          Erago.rleRead2 decEl d0 d1 fuel
            (Erago.updFrom zero arr (xn * d1 + y + c) (v :: vs)) (xn : Int)
            y2 rest2 := by
        rw [hbv, List.cons_append,
          rleRead2_val decEl d0 d1 _ arr _ _ b _ _ v hblt
            (Hdec v _ b bs hPv hv hbv),
          if_pos hguard, Int.toNat_natCast, Int.toNat_natCast]
        have hidx : xn * d1 + (y + c) = xn * d1 + y + c := (Nat.add_assoc _ _ _).symm
        rw [hidx]
        have hcast : ((y + c : Nat) : Int) + 1 = (((y + c) + 1 : Nat) : Int) := by
          push_cast
          ring
        rw [hcast, hup]
        have := ih 0 (y + c + 1) (arr.set (xn * d1 + y + c) v) fuel rest2
          (fun w hw => hP w (by simp [hw]))
          (by omega)
        have harith : xn * d1 + (y + c + 1) + 0 = xn * d1 + y + c + 1 := by omega
        rw [harith] at this
        simpa using this
      by_cases hc : c > 0
      · rw [Erago.rowIter, if_neg hv, Erago.rleRow, if_neg hv, if_pos hc, if_pos hc]
        have hfuel : fuel + ((1 : Nat) + 1 + Erago.rowIter zero vs 0) =
            ((fuel + Erago.rowIter zero vs 0) + 1) + 1 := by omega
        rw [hfuel]
        rw [List.append_assoc, List.append_assoc, List.cons_append]
        rw [rleRead2_zero decEl d0 d1 _ arr _ _ (c : Int) _ _
          (cdec_cenc (c : Int) _ (by
            constructor
            · have : (0 : Int) ≤ c := Int.natCast_nonneg c
              omega
            · have hcb : (c : Int) < 2 ^ 31 := by
                exact_mod_cast (by omega : c < 2 ^ 31)
              omega))]
        have hcast : ((y : Nat) : Int) + (c : Int) = ((y + c : Nat) : Int) := by
          push_cast
          ring
        rw [hcast]
        exact hcommon
      · rw [Erago.rowIter, if_neg hv, Erago.rleRow, if_neg hv, if_neg hc, if_neg hc]
        have hc0 : c = 0 := by omega
        subst hc0
        have hfuel : fuel + ((0 : Nat) + 1 + Erago.rowIter zero vs 0) =
            (fuel + Erago.rowIter zero vs 0) + 1 := by omega
        rw [hfuel, List.nil_append, List.append_assoc]
        have hy : ((y : Nat) : Int) = ((y + 0 : Nat) : Int) := by norm_num
        rw [hy]
        exact hcommon
/-- rowsIter is covered by the emitted bytes. -/
theorem rowsIter_le {α : Type} [DecidableEq α] (zero : α) (enc : α → List Nat)
    (Hne : ∀ v : α, v ≠ zero → enc v ≠ []) :
    ∀ (rows : List (List α)) (a1 : Nat),
      Erago.rowsIter zero rows a1 ≤ (Erago.rleRows zero enc rows a1).length := by
  intro rows
  induction rows with
  | nil => intro a1; simp [Erago.rowsIter, Erago.rleRows]
  | cons r rs ih =>
    intro a1
    rw [Erago.rowsIter, Erago.rleRows]
    by_cases h : r.all (fun v => v = zero) = true
    · rw [if_pos h, if_pos h]
      exact ih (a1 + 1)
    · rw [if_neg h, if_neg h]
      have h1 := ih 0
      have h2 := rowIter_le zero enc Hne r 0
      by_cases hc : a1 > 0
      · rw [if_pos hc, if_pos hc]
        simp only [List.length_append, List.length_cons, List.length_nil]
        omega
      · rw [if_neg hc, if_neg hc]
        simp only [List.length_append, List.length_cons, List.length_nil]
        omega

/-- Parsing a 2D row-sequence run writes the rows at successive row
indices (additively in fuel). -/
theorem rleRead2_rows {α : Type} [DecidableEq α] (zero : α) (enc : α → List Nat)
    (decEl : Nat → List Nat → Except String (α × List Nat)) (P : α → Prop)
    (d0 d1 : Nat)
    (Hhead : ∀ v : α, v ≠ zero → ∃ b bs, enc v = b :: bs ∧ b < 0xE0)
    (Hdec : ∀ (v : α) (rest : List Nat) (b : Nat) (bs : List Nat),
      P v → v ≠ zero → enc v = b :: bs → decEl b (bs ++ rest) = .ok (v, rest))
    (h31d0 : d0 < 2 ^ 31) (h31 : d1 < 2 ^ 31) :
    ∀ (rows : List (List α)) (a1 x : Nat) (arr : List α) (fuel : Nat)
      (rest2 : List Nat),
      (∀ r ∈ rows, (∀ v ∈ r, v ≠ zero → P v) ∧ r.length ≤ d1) →
      x + a1 + rows.length ≤ d0 →
      ∃ (x2 y2 : Int),
        Erago.rleRead2 decEl d0 d1 (fuel + Erago.rowsIter zero rows a1) arr
          ((x : Nat) : Int) 0 (Erago.rleRows zero enc rows a1 ++ rest2) =
        Erago.rleRead2 decEl d0 d1 fuel
          (Erago.updRows zero d1 arr (x + a1) rows) x2 y2 rest2 := by
  intro rows
  induction rows with
  | nil =>
    intro a1 x arr fuel rest2 _ _
    refine ⟨((x : Nat) : Int), 0, ?_⟩
    rw [Erago.rowsIter, Erago.rleRows, Erago.updRows, List.nil_append, Nat.add_zero]
  | cons r rs ih =>
    intro a1 x arr fuel rest2 hP hlen
    by_cases hz : r.all (fun v => v = zero) = true
    · rw [Erago.rowsIter, if_pos hz, Erago.rleRows, if_pos hz]
      have hzp : ∀ v ∈ r, v = zero := by
        intro v hv
        have := List.all_eq_true.mp hz v hv
        simpa using this
      have hupd : Erago.updRows zero d1 arr (x + a1) (r :: rs) =
          Erago.updRows zero d1 arr (x + (a1 + 1)) rs := by
        rw [Erago.updRows, updFrom_allZero zero r arr _ hzp]
        have : x + a1 + 1 = x + (a1 + 1) := by omega
        rw [this]
      rw [hupd]
      exact ih (a1 + 1) x arr fuel rest2 (fun w hw => hP w (by simp [hw]))
        (by simp only [List.length_cons] at hlen; omega)
    · have hxlt : x + a1 < d0 := by
        simp only [List.length_cons] at hlen
        omega
      have hPr := (hP r (by simp)).1
      have hrlen := (hP r (by simp)).2
      have hupd : Erago.updRows zero d1 arr (x + a1) (r :: rs) =
          Erago.updRows zero d1
            (Erago.updFrom zero arr ((x + a1) * d1) r) (x + a1 + 1) rs := by
        rw [Erago.updRows]
      have hcommon : ∃ (x2 y2 : Int),
          Erago.rleRead2 decEl d0 d1
            (((fuel + Erago.rowsIter zero rs 0) + 1) + Erago.rowIter zero r 0)
            arr ((x + a1 : Nat) : Int) (((0 : Nat) : Int))
            (Erago.rleRow zero enc r 0 ++
              (Erago.ebEoA1 :: (Erago.rleRows zero enc rs 0 ++ rest2))) =
          Erago.rleRead2 decEl d0 d1 fuel
            (Erago.updRows zero d1 arr (x + a1) (r :: rs)) x2 y2 rest2 := by
        obtain ⟨y2, hrow⟩ := rleRead2_row zero enc decEl P d0 d1 Hhead Hdec
          (x + a1) hxlt h31 r 0 0 arr ((fuel + Erago.rowsIter zero rs 0) + 1)
          (Erago.ebEoA1 :: (Erago.rleRows zero enc rs 0 ++ rest2)) hPr
          (by omega)
        rw [hrow, rleRead2_eoa1]
        have hcast : ((x + a1 : Nat) : Int) + 1 = ((x + a1 + 1 : Nat) : Int) := by
          push_cast
          ring
        have hidx : (x + a1) * d1 + 0 + 0 = (x + a1) * d1 := by omega
        rw [hcast, hidx, hupd]
        have := ih 0 (x + a1 + 1)
          (Erago.updFrom zero arr ((x + a1) * d1) r) fuel rest2
          (fun w hw => hP w (by simp [hw]))
          (by simp only [List.length_cons] at hlen; omega)
        simpa using this
      by_cases hc : a1 > 0
      · rw [Erago.rowsIter, if_neg hz, Erago.rleRows, if_neg hz, if_pos hc, if_pos hc]
        have hfuel : fuel + ((1 : Nat) + Erago.rowIter zero r 0 + 1 +
            Erago.rowsIter zero rs 0) =
            ((((fuel + Erago.rowsIter zero rs 0) + 1) + Erago.rowIter zero r 0) + 1) := by
          omega
        rw [hfuel]
        simp only [List.cons_append, List.append_assoc, List.singleton_append]
        rw [rleRead2_zeroA1 decEl d0 d1 _ arr _ _ (a1 : Int) _ _
          (cdec_cenc (a1 : Int) _ (by
            constructor
            · have : (0 : Int) ≤ a1 := Int.natCast_nonneg a1
              omega
            · have hcb : (a1 : Int) < 2 ^ 31 := by
                exact_mod_cast (by omega : a1 < 2 ^ 31)
              omega))]
        have hcast : ((x : Nat) : Int) + (a1 : Int) = ((x + a1 : Nat) : Int) := by
          push_cast
          ring
        rw [hcast]
        have h0 : ((0 : Nat) : Int) = (0 : Int) := rfl
        rw [← h0]
        exact hcommon
      · rw [Erago.rowsIter, if_neg hz, Erago.rleRows, if_neg hz, if_neg hc, if_neg hc]
        have ha0 : a1 = 0 := by omega
        subst ha0
        have hfuel : fuel + ((0 : Nat) + Erago.rowIter zero r 0 + 1 +
            Erago.rowsIter zero rs 0) =
            (((fuel + Erago.rowsIter zero rs 0) + 1) + Erago.rowIter zero r 0) := by
          omega
        rw [hfuel]
        simp only [List.nil_append, List.append_assoc, List.singleton_append]
        have hx : ((x : Nat) : Int) = ((x + 0 : Nat) : Int) := by norm_num
        have h0 : ((0 : Nat) : Int) = (0 : Int) := rfl
        rw [hx, ← h0]
        exact hcommon
/-- updFrom confined to the left part of an append. -/
theorem updFrom_append_right {α : Type} [DecidableEq α] (zero : α) :
    ∀ (t arr1 arr2 : List α) (pos : Nat), pos + t.length ≤ arr1.length →
      Erago.updFrom zero (arr1 ++ arr2) pos t =
        Erago.updFrom zero arr1 pos t ++ arr2 := by
  intro t
  induction t with
  | nil => intro arr1 arr2 pos _; rfl
  | cons v vs ih =>
    intro arr1 arr2 pos hlen
    simp only [List.length_cons] at hlen
    rw [Erago.updFrom, Erago.updFrom]
    by_cases h : v = zero
    · rw [if_pos h, if_pos h]
      exact ih arr1 arr2 (pos + 1) (by omega)
    · rw [if_neg h, if_neg h, List.set_append_left _ _ (by omega)]
      exact ih (arr1.set pos v) arr2 (pos + 1) (by simp [List.length_set]; omega)

/-- updFrom into an all-zero segment splices the run in place. -/
theorem updFrom_seg {α : Type} [DecidableEq α] (zero : α)
    (t arr : List α) (pos : Nat) (hlen : pos + t.length ≤ arr.length)
    (hz : ∀ j, pos ≤ j → j < pos + t.length → ∀ hj : j < arr.length,
      arr.get ⟨j, hj⟩ = zero) :
    Erago.updFrom zero arr pos t =
      arr.take pos ++ t ++ arr.drop (pos + t.length) := by
  have htlen : (arr.take (pos + t.length)).length = pos + t.length := by
    simp [hlen]
  conv_lhs => rw [← List.take_append_drop (pos + t.length) arr]
  rw [updFrom_append_right zero t _ _ pos (by rw [htlen])]
  rw [updFrom_exact zero t _ pos htlen (by
    intro j hj hjl
    rw [htlen] at hjl
    have hjarr : j < arr.length := by omega
    simp only [List.get_eq_getElem, List.getElem_take]
    have := hz j hj hjl hjarr
    simpa using this)]
  rw [List.take_take, Nat.min_eq_left (by omega)]

/-- toRows unfolds one row at a time. -/
theorem toRows_succ {α : Type} (m d1 : Nat) (g : List α) :
    Erago.toRows (m + 1) d1 g = g.take d1 :: Erago.toRows m d1 (g.drop d1) := by
  simp only [Erago.toRows, List.range_succ_eq_map, List.map_cons, List.map_map]
  congr 1
  · simp
  · apply List.map_congr_left
    intro i _
    simp only [Function.comp_apply, List.drop_drop]
    congr 2
    rw [Nat.succ_mul, Nat.add_comm]

/-- toRows produces rows of length at most the width. -/
theorem toRows_row_length {α : Type} (m d1 : Nat) (g : List α) :
    ∀ r ∈ Erago.toRows m d1 g, r.length ≤ d1 := by
  intro r hr
  simp only [Erago.toRows, List.mem_map] at hr
  obtain ⟨x, _, rfl⟩ := hr
  simp [Nat.min_le_left]

/-- toRows produces the declared number of rows. -/
theorem toRows_length {α : Type} (m d1 : Nat) (g : List α) :
    (Erago.toRows m d1 g).length = m := by
  simp [Erago.toRows]

/-- updRows over the rows of a dense payload splices the payload into an
all-zero segment. -/
theorem updRows_seg {α : Type} [DecidableEq α] (zero : α) (d1 : Nat) :
    ∀ (m : Nat) (g : List α) (x : Nat) (arr : List α),
      g.length = m * d1 →
      x * d1 + m * d1 ≤ arr.length →
      (∀ j, x * d1 ≤ j → j < x * d1 + m * d1 → ∀ hj : j < arr.length,
        arr.get ⟨j, hj⟩ = zero) →
      Erago.updRows zero d1 arr x (Erago.toRows m d1 g) =
        arr.take (x * d1) ++ g ++ arr.drop (x * d1 + m * d1) := by
  intro m
  induction m with
  | zero =>
    intro g x arr hg hlen _
    have hg0 : g = [] := List.length_eq_zero.mp (by simpa using hg)
    subst hg0
    have h1 : Erago.toRows 0 d1 ([] : List α) = [] := rfl
    rw [h1, Erago.updRows]
    simp only [Nat.zero_mul, Nat.add_zero, List.append_nil]
    exact (List.take_append_drop _ arr).symm
  | succ m ih =>
    intro g x arr hg hlen hz
    have hsm : (m + 1) * d1 = m * d1 + d1 := Nat.succ_mul m d1
    rw [hsm] at hg hlen
    rw [hsm]
    have htake : (g.take d1).length = d1 := by simp [hg]
    rw [toRows_succ, Erago.updRows]
    have hseg := updFrom_seg zero (g.take d1) arr (x * d1)
      (by rw [htake]; omega)
      (by
        intro j hj1 hj2 hj
        rw [htake] at hj2
        exact hz j hj1 (by omega) hj)
    rw [htake] at hseg
    rw [hseg]
    have hlft : (arr.take (x * d1) ++ g.take d1).length = x * d1 + d1 := by
      simp [htake]
      omega
    have harr2len : (arr.take (x * d1) ++ g.take d1 ++
        arr.drop (x * d1 + d1)).length = arr.length := by
      simp [htake]
      omega
    have hdrop : (arr.take (x * d1) ++ g.take d1 ++
        arr.drop (x * d1 + d1)).drop (x * d1 + d1) = arr.drop (x * d1 + d1) := by
      rw [← hlft, List.drop_left]
    have hih := ih (g.drop d1) (x + 1)
      (arr.take (x * d1) ++ g.take d1 ++ arr.drop (x * d1 + d1))
      (by simp [hg])
      (by
        rw [harr2len, Nat.succ_mul]
        omega)
      (by
        intro j hj1 hj2 hj
        rw [Nat.succ_mul] at hj1 hj2
        obtain ⟨i, rfl⟩ : ∃ i, j = (x * d1 + d1) + i :=
          ⟨j - (x * d1 + d1), by omega⟩
        have hjarr : x * d1 + d1 + i < arr.length := by
          rw [harr2len] at hj
          exact hj
        have hidrop : i < ((arr.take (x * d1) ++ g.take d1 ++
            arr.drop (x * d1 + d1)).drop (x * d1 + d1)).length := by
          rw [List.length_drop, harr2len]
          omega
        have hstep : ((arr.take (x * d1) ++ g.take d1 ++
            arr.drop (x * d1 + d1)).drop (x * d1 + d1)).get ⟨i, hidrop⟩ = zero := by
          simp only [List.get_eq_getElem]
          have hb2 : i < (arr.drop (x * d1 + d1)).length := by
            rw [List.length_drop]
            omega
          have hq : ((arr.take (x * d1) ++ g.take d1 ++
              arr.drop (x * d1 + d1)).drop (x * d1 + d1))[i]? =
              (arr.drop (x * d1 + d1))[i]? := by rw [hdrop]
          rw [List.getElem?_eq_getElem hidrop, List.getElem?_eq_getElem hb2] at hq
          rw [Option.some.inj hq, List.getElem_drop]
          have := hz (x * d1 + d1 + i) (by omega) (by omega) hjarr
          simpa using this
        simp only [List.get_eq_getElem] at hstep ⊢
        rw [List.getElem_drop] at hstep
        exact hstep)
    rw [hih]
    have htake2 : (arr.take (x * d1) ++ g.take d1 ++
        arr.drop (x * d1 + d1)).take ((x + 1) * d1) =
        arr.take (x * d1) ++ g.take d1 := by
      have : (x + 1) * d1 = x * d1 + d1 := Nat.succ_mul x d1
      rw [this, ← hlft, List.take_left]
    have hdrop2 : (arr.take (x * d1) ++ g.take d1 ++
        arr.drop (x * d1 + d1)).drop ((x + 1) * d1 + m * d1) =
        arr.drop (x * d1 + (m * d1 + d1)) := by
      have h1 : (x + 1) * d1 + m * d1 = (x * d1 + d1) + m * d1 := by
        rw [Nat.succ_mul]
      rw [h1, ← List.drop_drop, hdrop, List.drop_drop]
      congr 1
      omega
    rw [htake2, hdrop2]
    simp only [List.append_assoc]
    rw [← List.append_assoc (g.take d1) (g.drop d1), List.take_append_drop]
/-- The full 2D array body read into a zeroed array recovers the dense
payload exactly (additively in fuel). -/
theorem rleRead2_body {α : Type} [DecidableEq α] (zero : α) (enc : α → List Nat)
    (decEl : Nat → List Nat → Except String (α × List Nat)) (P : α → Prop)
    (d0 d1 : Nat)
    (Hhead : ∀ v : α, v ≠ zero → ∃ b bs, enc v = b :: bs ∧ b < 0xE0)
    (Hdec : ∀ (v : α) (rest : List Nat) (b : Nat) (bs : List Nat),
      P v → v ≠ zero → enc v = b :: bs → decEl b (bs ++ rest) = .ok (v, rest))
    (h31d0 : d0 < 2 ^ 31) (h31 : d1 < 2 ^ 31)
    (flat : List α) (rest : List Nat) (fuel : Nat)
    (hP : ∀ v ∈ flat, v ≠ zero → P v) (hflat : flat.length = d0 * d1) :
    Erago.rleRead2 decEl d0 d1
      (fuel + (Erago.rowsIter zero (Erago.toRows d0 d1 flat) 0 + 1))
      (List.replicate (d0 * d1) zero) 0 0
      (Erago.rleBody2 zero enc (Erago.toRows d0 d1 flat) ++ rest) =
      .ok (flat, rest) := by
  have hrows := rleRead2_rows zero enc decEl P d0 d1 Hhead Hdec h31d0 h31
    (Erago.toRows d0 d1 flat) 0 0 (List.replicate (d0 * d1) zero) (fuel + 1)
    (Erago.ebEoD :: rest)
    (by
      intro r hr
      constructor
      · intro v hv
        apply hP
        simp only [Erago.toRows, List.mem_map] at hr
        obtain ⟨x, _, rfl⟩ := hr
        exact List.mem_of_mem_drop (List.mem_of_mem_take hv)
      · exact toRows_row_length d0 d1 flat r hr)
    (by rw [toRows_length]; omega)
  obtain ⟨x2, y2, hx⟩ := hrows
  have hb : Erago.rleBody2 zero enc (Erago.toRows d0 d1 flat) ++ rest =
      Erago.rleRows zero enc (Erago.toRows d0 d1 flat) 0 ++
        (Erago.ebEoD :: rest) := by
    rw [Erago.rleBody2, List.append_assoc, List.singleton_append]
  have hfuel : fuel + (Erago.rowsIter zero (Erago.toRows d0 d1 flat) 0 + 1) =
      (fuel + 1) + Erago.rowsIter zero (Erago.toRows d0 d1 flat) 0 := by omega
  rw [hb, hfuel]
  have h0 : ((0 : Nat) : Int) = (0 : Int) := rfl
  nth_rewrite 1 [← h0]
  rw [hx, rleRead2_eod]
  have hupd : Erago.updRows zero d1 (List.replicate (d0 * d1) zero) (0 + 0)
      (Erago.toRows d0 d1 flat) = flat := by
    rw [Nat.add_zero, updRows_seg zero d1 d0 flat 0
      (List.replicate (d0 * d1) zero) hflat (by simp) (by intro j _ _ hj; simp)]
    simp [hflat]
  rw [hupd]

/-- readIntArray2D undoes writeWithKeyInt2D after the type byte and key. -/
theorem readIntArray2D_w (d0 d1 : Nat) (flat : List Int) (rest : List Nat)
    (hP : ∀ v ∈ flat, -(2 ^ 63) ≤ v ∧ v ≤ 2 ^ 63 - 1)
    (h31d0 : d0 < 2 ^ 31) (h31 : d1 < 2 ^ 31) (hflat : flat.length = d0 * d1) :
    Erago.readIntArray2D (Erago.le32 (d0 : Int) ++ Erago.le32 (d1 : Int) ++
      Erago.rleBody2 0 Erago.cenc (Erago.toRows d0 d1 flat) ++ rest) =
      .ok (flat, [(d0 : Int), (d1 : Int)], rest) := by
  unfold Erago.readIntArray2D
  rw [List.append_assoc, List.append_assoc,
    rLE32_le32 (d0 : Int) _ (by
      constructor
      · have : (0 : Int) ≤ d0 := Int.natCast_nonneg _
        omega
      · have : (d0 : Int) < 2 ^ 31 := by exact_mod_cast h31d0
        omega)]
  simp only [bind, Except.bind]
  rw [rLE32_le32 (d1 : Int) _ (by
      constructor
      · have : (0 : Int) ≤ d1 := Int.natCast_nonneg _
        omega
      · have : (d1 : Int) < 2 ^ 31 := by exact_mod_cast h31 
        omega)]
  have hcond : ¬((d0 : Int) < 0 ∨ (d1 : Int) < 0) := by
    push_neg
    exact ⟨Int.natCast_nonneg _, Int.natCast_nonneg _⟩
  simp only [if_neg hcond]
  have hne : ∀ v : Int, v ≠ 0 → Erago.cenc v ≠ [] := by
    intro v _
    obtain ⟨b, bs, h1, _⟩ := cenc_head v
    simp [h1]
  have hri := rowsIter_le (0 : Int) Erago.cenc hne (Erago.toRows d0 d1 flat) 0
  have hlen : (Erago.rleBody2 0 Erago.cenc (Erago.toRows d0 d1 flat) ++ rest).length =
      (Erago.rleRows 0 Erago.cenc (Erago.toRows d0 d1 flat) 0).length + 1 +
        rest.length := by
    simp [Erago.rleBody2]
    omega
  have hfuel : (Erago.rleBody2 0 Erago.cenc (Erago.toRows d0 d1 flat) ++
      rest).length + 1 =
      ((Erago.rleBody2 0 Erago.cenc (Erago.toRows d0 d1 flat) ++ rest).length -
        Erago.rowsIter 0 (Erago.toRows d0 d1 flat) 0) +
        (Erago.rowsIter 0 (Erago.toRows d0 d1 flat) 0 + 1) := by omega
  rw [hfuel]
  have hbody := rleRead2_body (0 : Int) Erago.cenc Erago.decElemInt
    (fun v => -(2 ^ 63) ≤ v ∧ v ≤ 2 ^ 63 - 1) d0 d1
    (fun v _ => by
      obtain ⟨b, bs, h1, h2⟩ := cenc_head v
      exact ⟨b, bs, h1, by omega⟩)
    (fun v r b bs hPv _ henc => decElemInt_cenc v r b bs hPv henc)
    h31d0 h31 flat rest
    ((Erago.rleBody2 0 Erago.cenc (Erago.toRows d0 d1 flat) ++ rest).length -
      Erago.rowsIter 0 (Erago.toRows d0 d1 flat) 0)
    (fun v hv _ => hP v hv) hflat
  rw [Int.toNat_natCast, Int.toNat_natCast, hbody]
  rfl

/-- readStrArray2D undoes writeWithKeyStr2D after the type byte and key. -/
theorem readStrArray2D_w (d0 d1 : Nat) (flat : List String) (rest : List Nat)
    (hP : ∀ s ∈ flat, 2 * (Erago.utf16Units s).length < 2 ^ 35)
    (h31d0 : d0 < 2 ^ 31) (h31 : d1 < 2 ^ 31) (hflat : flat.length = d0 * d1) :
    Erago.readStrArray2D (Erago.le32 (d0 : Int) ++ Erago.le32 (d1 : Int) ++
      Erago.rleBody2 "" Erago.encElemStr (Erago.toRows d0 d1 flat) ++ rest) =
      .ok (flat, [(d0 : Int), (d1 : Int)], rest) := by
  unfold Erago.readStrArray2D
  rw [List.append_assoc, List.append_assoc,
    rLE32_le32 (d0 : Int) _ (by
      constructor
      · have : (0 : Int) ≤ d0 := Int.natCast_nonneg _
        omega
      · have : (d0 : Int) < 2 ^ 31 := by exact_mod_cast h31d0
        omega)]
  simp only [bind, Except.bind]
  rw [rLE32_le32 (d1 : Int) _ (by
      constructor
      · have : (0 : Int) ≤ d1 := Int.natCast_nonneg _
        omega
      · have : (d1 : Int) < 2 ^ 31 := by exact_mod_cast h31
        omega)]
  have hcond : ¬((d0 : Int) < 0 ∨ (d1 : Int) < 0) := by
    push_neg
    exact ⟨Int.natCast_nonneg _, Int.natCast_nonneg _⟩
  simp only [if_neg hcond]
  have hne : ∀ s : String, s ≠ "" → Erago.encElemStr s ≠ [] := by
    intro s _
    simp [Erago.encElemStr]
  have hri := rowsIter_le "" Erago.encElemStr hne (Erago.toRows d0 d1 flat) 0
  have hlen : (Erago.rleBody2 "" Erago.encElemStr (Erago.toRows d0 d1 flat) ++
      rest).length =
      (Erago.rleRows "" Erago.encElemStr (Erago.toRows d0 d1 flat) 0).length + 1 +
        rest.length := by
    simp [Erago.rleBody2]
    omega
  have hfuel : (Erago.rleBody2 "" Erago.encElemStr (Erago.toRows d0 d1 flat) ++
      rest).length + 1 =
      ((Erago.rleBody2 "" Erago.encElemStr (Erago.toRows d0 d1 flat) ++
        rest).length -
        Erago.rowsIter "" (Erago.toRows d0 d1 flat) 0) +
        (Erago.rowsIter "" (Erago.toRows d0 d1 flat) 0 + 1) := by omega
  rw [hfuel]
  have hbody := rleRead2_body "" Erago.encElemStr Erago.decElemStr
    (fun s => 2 * (Erago.utf16Units s).length < 2 ^ 35) d0 d1
    (fun s _ => ⟨Erago.ebString, Erago.wDotNetStr s, rfl, by norm_num [Erago.ebString]⟩)
    (fun s r b bs hPs _ henc => decElemStr_enc s r b bs hPs henc)
    h31d0 h31 flat rest
    ((Erago.rleBody2 "" Erago.encElemStr (Erago.toRows d0 d1 flat) ++ rest).length -
      Erago.rowsIter "" (Erago.toRows d0 d1 flat) 0)
    (fun s hs _ => hP s hs) hflat
  rw [Int.toNat_natCast, Int.toNat_natCast, hbody]
  rfl
/-- One step of the 3D RLE reader, as a case split on the lead byte. -/
theorem rleRead3_cons {α : Type}
    (decEl : Nat → List Nat → Except String (α × List Nat))
    (d0 d1 d2 fuel : Nat) (arr : List α) (x y z : Int) (b : Nat) (rest : List Nat) :
    Erago.rleRead3 decEl d0 d1 d2 (fuel + 1) arr x y z (b :: rest) =
      if b = Erago.ebEoD then .ok (arr, rest)
      else if b = Erago.ebZeroA2 then
        match Erago.cdec rest with
        | .error e => .error e
        | .ok (cnt, rest2) =>
          Erago.rleRead3 decEl d0 d1 d2 fuel arr (x + cnt) 0 0 rest2
      else if b = Erago.ebEoA2 then
        Erago.rleRead3 decEl d0 d1 d2 fuel arr (x + 1) 0 0 rest
      else if b = Erago.ebZeroA1 then
        match Erago.cdec rest with
        | .error e => .error e
        | .ok (cnt, rest2) =>
          Erago.rleRead3 decEl d0 d1 d2 fuel arr x (y + cnt) 0 rest2
      else if b = Erago.ebEoA1 then
        Erago.rleRead3 decEl d0 d1 d2 fuel arr x (y + 1) 0 rest
      else if b = Erago.ebZero then
        match Erago.cdec rest with
        | .error e => .error e
        | .ok (cnt, rest2) =>
          Erago.rleRead3 decEl d0 d1 d2 fuel arr x y (z + cnt) rest2
      else
        match decEl b rest with
        | .error e => .error e
        | .ok (v, rest2) =>
          Erago.rleRead3 decEl d0 d1 d2 fuel
            (if 0 ≤ x ∧ x < (d0 : Int) ∧ 0 ≤ y ∧ y < (d1 : Int) ∧
                0 ≤ z ∧ z < (d2 : Int) then
              arr.set ((x.toNat * d1 + y.toNat) * d2 + z.toNat) v
            else arr) x y (z + 1) rest2 := by
  rw [Erago.rleRead3]
  simp only [Erago.rByte, bind, Except.bind]
  by_cases h1 : b = Erago.ebEoD
  · rw [if_pos h1, if_pos h1]
    rfl
  · rw [if_neg h1, if_neg h1]
    by_cases h2 : b = Erago.ebZeroA2
    · rw [if_pos h2, if_pos h2]
      rcases Erago.cdec rest with e | ⟨cnt, rest2⟩ <;> rfl
    · rw [if_neg h2, if_neg h2]
      by_cases h3 : b = Erago.ebEoA2
      · rw [if_pos h3, if_pos h3]
      · rw [if_neg h3, if_neg h3]
        by_cases h4 : b = Erago.ebZeroA1
        · rw [if_pos h4, if_pos h4]
          rcases Erago.cdec rest with e | ⟨cnt, rest2⟩ <;> rfl
        · rw [if_neg h4, if_neg h4]
          by_cases h5 : b = Erago.ebEoA1
          · rw [if_pos h5, if_pos h5]
          · rw [if_neg h5, if_neg h5]
            by_cases h6 : b = Erago.ebZero
            · rw [if_pos h6, if_pos h6]
              rcases Erago.cdec rest with e | ⟨cnt, rest2⟩ <;> rfl
            · rw [if_neg h6, if_neg h6]
              rcases decEl b rest with e | ⟨v, rest2⟩ <;> rfl

/-- The EoD step of the 3D RLE reader. -/
theorem rleRead3_eod {α : Type}
    (decEl : Nat → List Nat → Except String (α × List Nat))
    (d0 d1 d2 fuel : Nat) (arr : List α) (x y z : Int) (rest : List Nat) :
    Erago.rleRead3 decEl d0 d1 d2 (fuel + 1) arr x y z (Erago.ebEoD :: rest) =
      .ok (arr, rest) := by
  rw [rleRead3_cons, if_pos rfl]

/-- The zero-plane-run step of the 3D RLE reader. -/
theorem rleRead3_zeroA2 {α : Type}
    (decEl : Nat → List Nat → Except String (α × List Nat))
    (d0 d1 d2 fuel : Nat) (arr : List α) (x y z cnt : Int) (rest rest2 : List Nat)
    (hc : Erago.cdec rest = .ok (cnt, rest2)) :
    Erago.rleRead3 decEl d0 d1 d2 (fuel + 1) arr x y z (Erago.ebZeroA2 :: rest) =
      Erago.rleRead3 decEl d0 d1 d2 fuel arr (x + cnt) 0 0 rest2 := by
  rw [rleRead3_cons, if_neg (by norm_num [Erago.ebZeroA2, Erago.ebEoD]),
    if_pos rfl, hc]

/-- The end-of-plane step of the 3D RLE reader. -/
theorem rleRead3_eoa2 {α : Type}
    (decEl : Nat → List Nat → Except String (α × List Nat))
    (d0 d1 d2 fuel : Nat) (arr : List α) (x y z : Int) (rest : List Nat) :
    Erago.rleRead3 decEl d0 d1 d2 (fuel + 1) arr x y z (Erago.ebEoA2 :: rest) =
      Erago.rleRead3 decEl d0 d1 d2 fuel arr (x + 1) 0 0 rest := by
  rw [rleRead3_cons, if_neg (by norm_num [Erago.ebEoA2, Erago.ebEoD]),
    if_neg (by norm_num [Erago.ebEoA2, Erago.ebZeroA2]), if_pos rfl]

/-- The zero-row-run step of the 3D RLE reader. -/
theorem rleRead3_zeroA1 {α : Type}
    (decEl : Nat → List Nat → Except String (α × List Nat))
    (d0 d1 d2 fuel : Nat) (arr : List α) (x y z cnt : Int) (rest rest2 : List Nat)
    (hc : Erago.cdec rest = .ok (cnt, rest2)) :
    Erago.rleRead3 decEl d0 d1 d2 (fuel + 1) arr x y z (Erago.ebZeroA1 :: rest) =
      Erago.rleRead3 decEl d0 d1 d2 fuel arr x (y + cnt) 0 rest2 := by
  rw [rleRead3_cons, if_neg (by norm_num [Erago.ebZeroA1, Erago.ebEoD]),
    if_neg (by norm_num [Erago.ebZeroA1, Erago.ebZeroA2]),
    if_neg (by norm_num [Erago.ebZeroA1, Erago.ebEoA2]), if_pos rfl, hc]

/-- The end-of-row step of the 3D RLE reader. -/
theorem rleRead3_eoa1 {α : Type}
    (decEl : Nat → List Nat → Except String (α × List Nat))
    (d0 d1 d2 fuel : Nat) (arr : List α) (x y z : Int) (rest : List Nat) :
    Erago.rleRead3 decEl d0 d1 d2 (fuel + 1) arr x y z (Erago.ebEoA1 :: rest) =
      Erago.rleRead3 decEl d0 d1 d2 fuel arr x (y + 1) 0 rest := by
  rw [rleRead3_cons, if_neg (by norm_num [Erago.ebEoA1, Erago.ebEoD]),
    if_neg (by norm_num [Erago.ebEoA1, Erago.ebZeroA2]),
    if_neg (by norm_num [Erago.ebEoA1, Erago.ebEoA2]),
    if_neg (by norm_num [Erago.ebEoA1, Erago.ebZeroA1]), if_pos rfl]

/-- The zero-cell-run step of the 3D RLE reader. -/
theorem rleRead3_zero {α : Type}
    (decEl : Nat → List Nat → Except String (α × List Nat))
    (d0 d1 d2 fuel : Nat) (arr : List α) (x y z cnt : Int) (rest rest2 : List Nat)
    (hc : Erago.cdec rest = .ok (cnt, rest2)) :
    Erago.rleRead3 decEl d0 d1 d2 (fuel + 1) arr x y z (Erago.ebZero :: rest) =
      Erago.rleRead3 decEl d0 d1 d2 fuel arr x y (z + cnt) rest2 := by
  rw [rleRead3_cons, if_neg (by norm_num [Erago.ebZero, Erago.ebEoD]),
    if_neg (by norm_num [Erago.ebZero, Erago.ebZeroA2]),
    if_neg (by norm_num [Erago.ebZero, Erago.ebEoA2]),
    if_neg (by norm_num [Erago.ebZero, Erago.ebZeroA1]),
    if_neg (by norm_num [Erago.ebZero, Erago.ebEoA1]), if_pos rfl, hc]

/-- The value step of the 3D RLE reader. -/
theorem rleRead3_val {α : Type}
    (decEl : Nat → List Nat → Except String (α × List Nat))
    (d0 d1 d2 fuel : Nat) (arr : List α) (x y z : Int) (b : Nat)
    (rest rest2 : List Nat) (v : α) (hb : b < 0xE0)
    (hdec : decEl b rest = .ok (v, rest2)) :
    Erago.rleRead3 decEl d0 d1 d2 (fuel + 1) arr x y z (b :: rest) =
      Erago.rleRead3 decEl d0 d1 d2 fuel
        (if 0 ≤ x ∧ x < (d0 : Int) ∧ 0 ≤ y ∧ y < (d1 : Int) ∧
            0 ≤ z ∧ z < (d2 : Int) then
          arr.set ((x.toNat * d1 + y.toNat) * d2 + z.toNat) v
        else arr) x y (z + 1) rest2 := by
  rw [rleRead3_cons, if_neg (by simp only [Erago.ebEoD]; omega),
    if_neg (by simp only [Erago.ebZeroA2]; omega),
    if_neg (by simp only [Erago.ebEoA2]; omega),
    if_neg (by simp only [Erago.ebZeroA1]; omega),
    if_neg (by simp only [Erago.ebEoA1]; omega),
    if_neg (by simp only [Erago.ebZero]; omega), hdec]
/-- Parsing one row run inside a 3D body writes the row's non-zero
elements at the current plane and row indices (additively in fuel). -/
theorem rleRead3_row {α : Type} [DecidableEq α] (zero : α) (enc : α → List Nat)
    (decEl : Nat → List Nat → Except String (α × List Nat)) (P : α → Prop)
    (d0 d1 d2 : Nat)
    (Hhead : ∀ v : α, v ≠ zero → ∃ b bs, enc v = b :: bs ∧ b < 0xE0)
    (Hdec : ∀ (v : α) (rest : List Nat) (b : Nat) (bs : List Nat),
      P v → v ≠ zero → enc v = b :: bs → decEl b (bs ++ rest) = .ok (v, rest))
    (xn yn : Nat) (hx : xn < d0) (hy : yn < d1) (h31 : d2 < 2 ^ 31) :
    ∀ (t : List α) (c z : Nat) (arr : List α) (fuel : Nat) (rest2 : List Nat),
      (∀ v ∈ t, v ≠ zero → P v) →
      z + c + t.length ≤ d2 →
      ∃ z2 : Int,
        Erago.rleRead3 decEl d0 d1 d2 (fuel + Erago.rowIter zero t c) arr
          (xn : Int) (yn : Int) ((z : Nat) : Int)
          (Erago.rleRow zero enc t c ++ rest2) =
        Erago.rleRead3 decEl d0 d1 d2 fuel
          (Erago.updFrom zero arr ((xn * d1 + yn) * d2 + z + c) t)
          (xn : Int) (yn : Int) z2 rest2 := by
  intro t
  induction t with
  | nil =>
    intro c z arr fuel rest2 _ _
    refine ⟨((z : Nat) : Int), ?_⟩
    rw [Erago.rowIter, Erago.rleRow, Erago.updFrom, List.nil_append, Nat.add_zero]
  | cons v vs ih =>
    intro c z arr fuel rest2 hP hlen
    by_cases hv : v = zero
    · rw [Erago.rowIter, if_pos hv, Erago.rleRow, if_pos hv, Erago.updFrom, if_pos hv]
      have harith : (xn * d1 + yn) * d2 + z + c + 1 =
          (xn * d1 + yn) * d2 + z + (c + 1) := by omega
      rw [harith]
      exact ih (c + 1) z arr fuel rest2 (fun w hw => hP w (by simp [hw]))
        (by simp only [List.length_cons] at hlen; omega)
    · have hPv : P v := hP v (by simp) hv
      obtain ⟨b, bs, hbv, hblt⟩ := Hhead v hv
      have hlen2 : z + c + vs.length + 1 ≤ d2 := by
        simp only [List.length_cons] at hlen
        omega
      have hup : Erago.updFrom zero arr ((xn * d1 + yn) * d2 + z + c) (v :: vs) =
          Erago.updFrom zero (arr.set ((xn * d1 + yn) * d2 + z + c) v)
            ((xn * d1 + yn) * d2 + z + c + 1) vs := by
        rw [Erago.updFrom, if_neg hv]
      have hguard : 0 ≤ ((xn : Nat) : Int) ∧ ((xn : Nat) : Int) < (d0 : Int) ∧
          0 ≤ ((yn : Nat) : Int) ∧ ((yn : Nat) : Int) < (d1 : Int) ∧
          0 ≤ ((z + c : Nat) : Int) ∧ ((z + c : Nat) : Int) < (d2 : Int) := by
        refine ⟨Int.natCast_nonneg _, by exact_mod_cast hx,
          Int.natCast_nonneg _, by exact_mod_cast hy,
          Int.natCast_nonneg _, ?_⟩
        exact_mod_cast (by omega : z + c < d2)
      have hcommon : ∃ z2 : Int,
          Erago.rleRead3 decEl d0 d1 d2 ((fuel + Erago.rowIter zero vs 0) + 1) arr
            (xn : Int) (yn : Int) ((z + c : Nat) : Int)
            (enc v ++ (Erago.rleRow zero enc vs 0 ++ rest2)) =
          Erago.rleRead3 decEl d0 d1 d2 fuel
            (Erago.updFrom zero arr ((xn * d1 + yn) * d2 + z + c) (v :: vs))
            (xn : Int) (yn : Int) z2 rest2 := by
        rw [hbv, List.cons_append,
          rleRead3_val decEl d0 d1 d2 _ arr _ _ _ b _ _ v hblt
            (Hdec v _ b bs hPv hv hbv),
          if_pos hguard, Int.toNat_natCast, Int.toNat_natCast, Int.toNat_natCast]
        have hidx : (xn * d1 + yn) * d2 + (z + c) = (xn * d1 + yn) * d2 + z + c :=
          (Nat.add_assoc _ _ _).symm
        rw [hidx]
        have hcast : ((z + c : Nat) : Int) + 1 = (((z + c) + 1 : Nat) : Int) := by
          push_cast
          ring
        rw [hcast, hup]
        have := ih 0 (z + c + 1) (arr.set ((xn * d1 + yn) * d2 + z + c) v) fuel rest2
          (fun w hw => hP w (by simp [hw]))
          (by omega)
        have harith : (xn * d1 + yn) * d2 + (z + c + 1) + 0 =
            (xn * d1 + yn) * d2 + z + c + 1 := by omega
        rw [harith] at this
        simpa using this
      by_cases hc : c > 0
      · rw [Erago.rowIter, if_neg hv, Erago.rleRow, if_neg hv, if_pos hc, if_pos hc]
        have hfuel : fuel + ((1 : Nat) + 1 + Erago.rowIter zero vs 0) =
            ((fuel + Erago.rowIter zero vs 0) + 1) + 1 := by omega
        rw [hfuel]
        rw [List.append_assoc, List.append_assoc, List.cons_append]
        rw [rleRead3_zero decEl d0 d1 d2 _ arr _ _ _ (c : Int) _ _
          (cdec_cenc (c : Int) _ (by
            constructor
            · have : (0 : Int) ≤ c := Int.natCast_nonneg c
              omega
            · have hcb : (c : Int) < 2 ^ 31 := by
                exact_mod_cast (by omega : c < 2 ^ 31)
              omega))]
        have hcast : ((z : Nat) : Int) + (c : Int) = ((z + c : Nat) : Int) := by
          push_cast
          ring
        rw [hcast]
        exact hcommon
      · rw [Erago.rowIter, if_neg hv, Erago.rleRow, if_neg hv, if_neg hc, if_neg hc]
        have hc0 : c = 0 := by omega
        subst hc0
        have hfuel : fuel + ((0 : Nat) + 1 + Erago.rowIter zero vs 0) =
            (fuel + Erago.rowIter zero vs 0) + 1 := by omega
        rw [hfuel, List.nil_append, List.append_assoc]
        have hz : ((z : Nat) : Int) = ((z + 0 : Nat) : Int) := by norm_num
        rw [hz]
        exact hcommon
/-- Parsing a 3D plane's row sequence writes its rows at successive row
indices within the current plane (additively in fuel). -/
theorem rleRead3_rows {α : Type} [DecidableEq α] (zero : α) (enc : α → List Nat)
    (decEl : Nat → List Nat → Except String (α × List Nat)) (P : α → Prop)
    (d0 d1 d2 : Nat)
    (Hhead : ∀ v : α, v ≠ zero → ∃ b bs, enc v = b :: bs ∧ b < 0xE0)
    (Hdec : ∀ (v : α) (rest : List Nat) (b : Nat) (bs : List Nat),
      P v → v ≠ zero → enc v = b :: bs → decEl b (bs ++ rest) = .ok (v, rest))
    (xn : Nat) (hx : xn < d0) (h31d1 : d1 < 2 ^ 31) (h31 : d2 < 2 ^ 31) :
    ∀ (rows : List (List α)) (a1 y : Nat) (arr : List α) (fuel : Nat)
      (rest2 : List Nat),
      (∀ r ∈ rows, (∀ v ∈ r, v ≠ zero → P v) ∧ r.length ≤ d2) →
      y + a1 + rows.length ≤ d1 →
      ∃ (y2 z2 : Int),
        Erago.rleRead3 decEl d0 d1 d2 (fuel + Erago.rowsIter zero rows a1) arr
          (xn : Int) ((y : Nat) : Int) 0 (Erago.rleRows zero enc rows a1 ++ rest2) =
        Erago.rleRead3 decEl d0 d1 d2 fuel
          (Erago.updRows zero d2 arr (xn * d1 + y + a1) rows) (xn : Int)
          y2 z2 rest2 := by
  intro rows
  induction rows with
  | nil =>
    intro a1 y arr fuel rest2 _ _
    refine ⟨((y : Nat) : Int), 0, ?_⟩
    rw [Erago.rowsIter, Erago.rleRows, Erago.updRows, List.nil_append, Nat.add_zero]
  | cons r rs ih =>
    intro a1 y arr fuel rest2 hP hlen
    by_cases hz : r.all (fun v => v = zero) = true
    · rw [Erago.rowsIter, if_pos hz, Erago.rleRows, if_pos hz]
      have hzp : ∀ v ∈ r, v = zero := by
        intro v hv
        have := List.all_eq_true.mp hz v hv
        simpa using this
      have hupd : Erago.updRows zero d2 arr (xn * d1 + y + a1) (r :: rs) =
          Erago.updRows zero d2 arr (xn * d1 + y + (a1 + 1)) rs := by
        rw [Erago.updRows, updFrom_allZero zero r arr _ hzp]
        have : xn * d1 + y + a1 + 1 = xn * d1 + y + (a1 + 1) := by omega
        rw [this]
      rw [hupd]
      exact ih (a1 + 1) y arr fuel rest2 (fun w hw => hP w (by simp [hw]))
        (by simp only [List.length_cons] at hlen; omega)
    · have hylt : y + a1 < d1 := by
        simp only [List.length_cons] at hlen
        omega
      have hPr := (hP r (by simp)).1
      have hrlen := (hP r (by simp)).2
      have hupd : Erago.updRows zero d2 arr (xn * d1 + y + a1) (r :: rs) =
          Erago.updRows zero d2
            (Erago.updFrom zero arr ((xn * d1 + y + a1) * d2) r)
            (xn * d1 + y + a1 + 1) rs := by
        rw [Erago.updRows]
      have hcommon : ∃ (y2 z2 : Int),
          Erago.rleRead3 decEl d0 d1 d2
            (((fuel + Erago.rowsIter zero rs 0) + 1) + Erago.rowIter zero r 0)
            arr (xn : Int) ((y + a1 : Nat) : Int) (((0 : Nat) : Int))
            (Erago.rleRow zero enc r 0 ++
              (Erago.ebEoA1 :: (Erago.rleRows zero enc rs 0 ++ rest2))) =
          Erago.rleRead3 decEl d0 d1 d2 fuel
            (Erago.updRows zero d2 arr (xn * d1 + y + a1) (r :: rs)) (xn : Int)
            y2 z2 rest2 := by
        obtain ⟨z2, hrow⟩ := rleRead3_row zero enc decEl P d0 d1 d2 Hhead Hdec
          xn (y + a1) hx hylt h31 r 0 0 arr ((fuel + Erago.rowsIter zero rs 0) + 1)
          (Erago.ebEoA1 :: (Erago.rleRows zero enc rs 0 ++ rest2)) hPr
          (by omega)
        rw [hrow, rleRead3_eoa1]
        have hcast : ((y + a1 : Nat) : Int) + 1 = ((y + a1 + 1 : Nat) : Int) := by
          push_cast
          ring
        have hidx : (xn * d1 + (y + a1)) * d2 + 0 + 0 = (xn * d1 + y + a1) * d2 := by
          have : xn * d1 + (y + a1) = xn * d1 + y + a1 := (Nat.add_assoc _ _ _).symm
          rw [this]
          omega
        rw [hcast, hidx, hupd]
        have := ih 0 (y + a1 + 1)
          (Erago.updFrom zero arr ((xn * d1 + y + a1) * d2) r) fuel rest2
          (fun w hw => hP w (by simp [hw]))
          (by simp only [List.length_cons] at hlen; omega)
        have harith : xn * d1 + (y + a1 + 1) + 0 = xn * d1 + y + a1 + 1 := by omega
        rw [harith] at this
        simpa using this
      by_cases hc : a1 > 0
      · rw [Erago.rowsIter, if_neg hz, Erago.rleRows, if_neg hz, if_pos hc, if_pos hc]
        have hfuel : fuel + ((1 : Nat) + Erago.rowIter zero r 0 + 1 +
            Erago.rowsIter zero rs 0) =
            ((((fuel + Erago.rowsIter zero rs 0) + 1) + Erago.rowIter zero r 0) + 1) := by
          omega
        rw [hfuel]
        simp only [List.cons_append, List.append_assoc, List.singleton_append]
        rw [rleRead3_zeroA1 decEl d0 d1 d2 _ arr _ _ _ (a1 : Int) _ _
          (cdec_cenc (a1 : Int) _ (by
            constructor
            · have : (0 : Int) ≤ a1 := Int.natCast_nonneg a1
              omega
            · have hcb : (a1 : Int) < 2 ^ 31 := by
                exact_mod_cast (by omega : a1 < 2 ^ 31)
              omega))]
        have hcast : ((y : Nat) : Int) + (a1 : Int) = ((y + a1 : Nat) : Int) := by
          push_cast
          ring
        rw [hcast]
        have h0 : ((0 : Nat) : Int) = (0 : Int) := rfl
        rw [← h0]
        exact hcommon
      · rw [Erago.rowsIter, if_neg hz, Erago.rleRows, if_neg hz, if_neg hc, if_neg hc]
        have ha0 : a1 = 0 := by omega
        subst ha0
        have hfuel : fuel + ((0 : Nat) + Erago.rowIter zero r 0 + 1 +
            Erago.rowsIter zero rs 0) =
            (((fuel + Erago.rowsIter zero rs 0) + 1) + Erago.rowIter zero r 0) := by
          omega
        rw [hfuel]
        simp only [List.nil_append, List.append_assoc, List.singleton_append]
        have hy : ((y : Nat) : Int) = ((y + 0 : Nat) : Int) := by norm_num
        have h0 : ((0 : Nat) : Int) = (0 : Int) := rfl
        rw [hy, ← h0]
        exact hcommon
/-- planesIter is covered by the emitted bytes. -/
theorem planesIter_le {α : Type} [DecidableEq α] (zero : α) (enc : α → List Nat)
    (Hne : ∀ v : α, v ≠ zero → enc v ≠ []) :
    ∀ (planes : List (List (List α))) (a2 : Nat),
      Erago.planesIter zero planes a2 ≤
        (Erago.rlePlanes zero enc planes a2).length := by
  intro planes
  induction planes with
  | nil => intro a2; simp [Erago.planesIter, Erago.rlePlanes]
  | cons p ps ih =>
    intro a2
    rw [Erago.planesIter, Erago.rlePlanes]
    by_cases h : p.all (fun r => r.all (fun v => v = zero)) = true
    · rw [if_pos h, if_pos h]
      exact ih (a2 + 1)
    · rw [if_neg h, if_neg h]
      have h1 := ih 0
      have h2 := rowsIter_le zero enc Hne p 0
      by_cases hc : a2 > 0
      · rw [if_pos hc, if_pos hc]
        simp only [List.length_append, List.length_cons, List.length_nil]
        omega
      · rw [if_neg hc, if_neg hc]
        simp only [List.length_append, List.length_cons, List.length_nil]
        omega

/-- updRows over all-zero rows leaves the array unchanged. -/
theorem updRows_allZero {α : Type} [DecidableEq α] (zero : α) (d1 : Nat) :
    ∀ (rows : List (List α)) (arr : List α) (x : Nat),
      (∀ r ∈ rows, ∀ v ∈ r, v = zero) →
      Erago.updRows zero d1 arr x rows = arr := by
  intro rows
  induction rows with
  | nil => intro arr x _; rfl
  | cons r rs ih =>
    intro arr x hz
    rw [Erago.updRows, updFrom_allZero zero r arr _ (hz r (by simp))]
    exact ih arr (x + 1) (fun w hw => hz w (by simp [hw]))

/-- Parsing a 3D plane-sequence run writes the planes at successive plane
indices (additively in fuel). -/
theorem rleRead3_planes {α : Type} [DecidableEq α] (zero : α) (enc : α → List Nat)
    (decEl : Nat → List Nat → Except String (α × List Nat)) (P : α → Prop)
    (d0 d1 d2 : Nat)
    (Hhead : ∀ v : α, v ≠ zero → ∃ b bs, enc v = b :: bs ∧ b < 0xE0)
    (Hdec : ∀ (v : α) (rest : List Nat) (b : Nat) (bs : List Nat),
      P v → v ≠ zero → enc v = b :: bs → decEl b (bs ++ rest) = .ok (v, rest))
    (h31d0 : d0 < 2 ^ 31) (h31d1 : d1 < 2 ^ 31) (h31 : d2 < 2 ^ 31) :
    ∀ (planes : List (List (List α))) (a2 x : Nat) (arr : List α) (fuel : Nat)
      (rest2 : List Nat),
      (∀ p ∈ planes, p.length ≤ d1 ∧
        ∀ r ∈ p, (∀ v ∈ r, v ≠ zero → P v) ∧ r.length ≤ d2) →
      x + a2 + planes.length ≤ d0 →
      ∃ (x2 y2 z2 : Int),
        Erago.rleRead3 decEl d0 d1 d2 (fuel + Erago.planesIter zero planes a2) arr
          ((x : Nat) : Int) 0 0 (Erago.rlePlanes zero enc planes a2 ++ rest2) =
        Erago.rleRead3 decEl d0 d1 d2 fuel
          (Erago.updPlanes zero d1 d2 arr (x + a2) planes) x2 y2 z2 rest2 := by
  intro planes
  induction planes with
  | nil =>
    intro a2 x arr fuel rest2 _ _
    refine ⟨((x : Nat) : Int), 0, 0, ?_⟩
    rw [Erago.planesIter, Erago.rlePlanes, Erago.updPlanes, List.nil_append,
      Nat.add_zero]
  | cons p ps ih =>
    intro a2 x arr fuel rest2 hP hlen
    by_cases hz : p.all (fun r => r.all (fun v => v = zero)) = true
    · rw [Erago.planesIter, if_pos hz, Erago.rlePlanes, if_pos hz]
      have hzp : ∀ r ∈ p, ∀ v ∈ r, v = zero := by
        intro r hr v hv
        have h1 := List.all_eq_true.mp hz r hr
        have h2 := List.all_eq_true.mp h1 v hv
        simpa using h2
      have hupd : Erago.updPlanes zero d1 d2 arr (x + a2) (p :: ps) =
          Erago.updPlanes zero d1 d2 arr (x + (a2 + 1)) ps := by
        rw [Erago.updPlanes, updRows_allZero zero d2 p arr _ hzp]
        have : x + a2 + 1 = x + (a2 + 1) := by omega
        rw [this]
      rw [hupd]
      exact ih (a2 + 1) x arr fuel rest2 (fun w hw => hP w (by simp [hw]))
        (by simp only [List.length_cons] at hlen; omega)
    · have hxlt : x + a2 < d0 := by
        simp only [List.length_cons] at hlen
        omega
      have hPp := (hP p (by simp)).2
      have hplen := (hP p (by simp)).1
      have hupd : Erago.updPlanes zero d1 d2 arr (x + a2) (p :: ps) =
          Erago.updPlanes zero d1 d2
            (Erago.updRows zero d2 arr ((x + a2) * d1) p) (x + a2 + 1) ps := by
        rw [Erago.updPlanes]
      have hcommon : ∃ (x2 y2 z2 : Int),
          Erago.rleRead3 decEl d0 d1 d2
            (((fuel + Erago.planesIter zero ps 0) + 1) + Erago.rowsIter zero p 0)
            arr ((x + a2 : Nat) : Int) (((0 : Nat) : Int)) 0
            (Erago.rleRows zero enc p 0 ++
              (Erago.ebEoA2 :: (Erago.rlePlanes zero enc ps 0 ++ rest2))) =
          Erago.rleRead3 decEl d0 d1 d2 fuel
            (Erago.updPlanes zero d1 d2 arr (x + a2) (p :: ps)) x2 y2 z2 rest2 := by
        obtain ⟨y2, z2, hrows⟩ := rleRead3_rows zero enc decEl P d0 d1 d2 Hhead Hdec
          (x + a2) hxlt h31d1 h31 p 0 0 arr
          ((fuel + Erago.planesIter zero ps 0) + 1)
          (Erago.ebEoA2 :: (Erago.rlePlanes zero enc ps 0 ++ rest2)) hPp
          (by omega)
        rw [hrows, rleRead3_eoa2]
        have hcast : ((x + a2 : Nat) : Int) + 1 = ((x + a2 + 1 : Nat) : Int) := by
          push_cast
          ring
        have hidx : (x + a2) * d1 + 0 + 0 = (x + a2) * d1 := by omega
        rw [hcast, hidx, hupd]
        have := ih 0 (x + a2 + 1)
          (Erago.updRows zero d2 arr ((x + a2) * d1) p) fuel rest2
          (fun w hw => hP w (by simp [hw]))
          (by simp only [List.length_cons] at hlen; omega)
        simpa using this
      by_cases hc : a2 > 0
      · rw [Erago.planesIter, if_neg hz, Erago.rlePlanes, if_neg hz,
          if_pos hc, if_pos hc]
        have hfuel : fuel + ((1 : Nat) + Erago.rowsIter zero p 0 + 1 +
            Erago.planesIter zero ps 0) =
            ((((fuel + Erago.planesIter zero ps 0) + 1) +
              Erago.rowsIter zero p 0) + 1) := by
          omega
        rw [hfuel]
        simp only [List.cons_append, List.append_assoc, List.singleton_append]
        rw [rleRead3_zeroA2 decEl d0 d1 d2 _ arr _ _ _ (a2 : Int) _ _
          (cdec_cenc (a2 : Int) _ (by
            constructor
            · have : (0 : Int) ≤ a2 := Int.natCast_nonneg a2
              omega
            · have hcb : (a2 : Int) < 2 ^ 31 := by
                exact_mod_cast (by omega : a2 < 2 ^ 31)
              omega))]
        have hcast : ((x : Nat) : Int) + (a2 : Int) = ((x + a2 : Nat) : Int) := by
          push_cast
          ring
        rw [hcast]
        have h0 : ((0 : Nat) : Int) = (0 : Int) := rfl
        rw [← h0]
        exact hcommon
      · rw [Erago.planesIter, if_neg hz, Erago.rlePlanes, if_neg hz,
          if_neg hc, if_neg hc]
        have ha0 : a2 = 0 := by omega
        subst ha0
        have hfuel : fuel + ((0 : Nat) + Erago.rowsIter zero p 0 + 1 +
            Erago.planesIter zero ps 0) =
            (((fuel + Erago.planesIter zero ps 0) + 1) +
              Erago.rowsIter zero p 0) := by
          omega
        rw [hfuel]
        simp only [List.nil_append, List.append_assoc, List.singleton_append]
        have hx0 : ((x : Nat) : Int) = ((x + 0 : Nat) : Int) := by norm_num
        have h0 : ((0 : Nat) : Int) = (0 : Int) := rfl
        rw [hx0, ← h0]
        exact hcommon
/-- toRows only reads the first m * d1 elements of its source. -/
theorem toRows_take {α : Type} (m d1 : Nat) (g : List α) :
    Erago.toRows m d1 (g.take (m * d1)) = Erago.toRows m d1 g := by
  unfold Erago.toRows
  apply List.map_congr_left
  intro x hx
  rw [List.mem_range] at hx
  rw [List.drop_take]
  rw [List.take_take]
  congr 1
  have hmul : (x + 1) * d1 ≤ m * d1 := Nat.mul_le_mul_right d1 (by omega)
  rw [Nat.succ_mul] at hmul
  omega

/-- toPlanes unfolds one plane at a time. -/
theorem toPlanes_succ {α : Type} (m d1 d2 : Nat) (g : List α) :
    Erago.toPlanes (m + 1) d1 d2 g =
      Erago.toRows d1 d2 g :: Erago.toPlanes m d1 d2 (g.drop (d1 * d2)) := by
  simp only [Erago.toPlanes, List.range_succ_eq_map, List.map_cons, List.map_map]
  congr 1
  · simp
  · apply List.map_congr_left
    intro i _
    simp only [Function.comp_apply, List.drop_drop]
    congr 2
    rw [Nat.succ_mul i d1, Nat.add_mul, Nat.add_comm]

/-- toPlanes produces planes of at most the declared row count. -/
theorem toPlanes_plane_length {α : Type} (m d1 d2 : Nat) (g : List α) :
    ∀ p ∈ Erago.toPlanes m d1 d2 g, p.length ≤ d1 := by
  intro p hp
  simp only [Erago.toPlanes, List.mem_map] at hp
  obtain ⟨x, _, rfl⟩ := hp
  rw [toRows_length]

/-- toPlanes produces the declared number of planes. -/
theorem toPlanes_length {α : Type} (m d1 d2 : Nat) (g : List α) :
    (Erago.toPlanes m d1 d2 g).length = m := by
  simp [Erago.toPlanes]

/-- updPlanes over the planes of a dense payload splices the payload into
an all-zero segment. -/
theorem updPlanes_seg {α : Type} [DecidableEq α] (zero : α) (d1 d2 : Nat) :
    ∀ (m : Nat) (g : List α) (x : Nat) (arr : List α),
      g.length = m * (d1 * d2) →
      x * (d1 * d2) + m * (d1 * d2) ≤ arr.length →
      (∀ j, x * (d1 * d2) ≤ j → j < x * (d1 * d2) + m * (d1 * d2) →
        ∀ hj : j < arr.length, arr.get ⟨j, hj⟩ = zero) →
      Erago.updPlanes zero d1 d2 arr x (Erago.toPlanes m d1 d2 g) =
        arr.take (x * (d1 * d2)) ++ g ++
          arr.drop (x * (d1 * d2) + m * (d1 * d2)) := by
  intro m
  induction m with
  | zero =>
    intro g x arr hg hlen _
    have hg0 : g = [] := List.length_eq_zero.mp (by simpa using hg)
    subst hg0
    have h1 : Erago.toPlanes 0 d1 d2 ([] : List α) = [] := rfl
    rw [h1, Erago.updPlanes]
    simp only [Nat.zero_mul, Nat.add_zero, List.append_nil]
    exact (List.take_append_drop _ arr).symm
  | succ m ih =>
    intro g x arr hg hlen hz
    have hsm : (m + 1) * (d1 * d2) = m * (d1 * d2) + d1 * d2 :=
      Nat.succ_mul m (d1 * d2)
    rw [hsm] at hg hlen
    rw [hsm]
    have htake : (g.take (d1 * d2)).length = d1 * d2 := by simp [hg]
    rw [toPlanes_succ, Erago.updPlanes]
    have hbase : x * d1 * d2 = x * (d1 * d2) := Nat.mul_assoc x d1 d2
    have hrows : Erago.updRows zero d2 arr (x * d1) (Erago.toRows d1 d2 g) =
        arr.take (x * (d1 * d2)) ++ g.take (d1 * d2) ++
          arr.drop (x * (d1 * d2) + d1 * d2) := by
      rw [← toRows_take d1 d2 g]
      have hseg := updRows_seg zero d2 d1 (g.take (d1 * d2)) (x * d1) arr
        (by rw [htake])
        (by rw [hbase]; omega)
        (by
          intro j hj1 hj2 hj
          rw [hbase] at hj1 hj2
          exact hz j hj1 (by omega) hj)
      rw [hbase] at hseg
      exact hseg
    rw [hrows]
    have hlft : (arr.take (x * (d1 * d2)) ++ g.take (d1 * d2)).length =
        x * (d1 * d2) + d1 * d2 := by
      simp [htake]
      omega
    have harr2len : (arr.take (x * (d1 * d2)) ++ g.take (d1 * d2) ++
        arr.drop (x * (d1 * d2) + d1 * d2)).length = arr.length := by
      simp [htake]
      omega
    have hdrop : (arr.take (x * (d1 * d2)) ++ g.take (d1 * d2) ++
        arr.drop (x * (d1 * d2) + d1 * d2)).drop (x * (d1 * d2) + d1 * d2) =
        arr.drop (x * (d1 * d2) + d1 * d2) := by
      rw [← hlft, List.drop_left]
    have hih := ih (g.drop (d1 * d2)) (x + 1)
      (arr.take (x * (d1 * d2)) ++ g.take (d1 * d2) ++
        arr.drop (x * (d1 * d2) + d1 * d2))
      (by simp [hg])
      (by
        rw [harr2len, Nat.succ_mul]
        omega)
      (by
        intro j hj1 hj2 hj
        rw [Nat.succ_mul] at hj1 hj2
        obtain ⟨i, rfl⟩ : ∃ i, j = (x * (d1 * d2) + d1 * d2) + i :=
          ⟨j - (x * (d1 * d2) + d1 * d2), by omega⟩
        have hjarr : x * (d1 * d2) + d1 * d2 + i < arr.length := by
          rw [harr2len] at hj
          exact hj
        have hidrop : i < ((arr.take (x * (d1 * d2)) ++ g.take (d1 * d2) ++
            arr.drop (x * (d1 * d2) + d1 * d2)).drop
              (x * (d1 * d2) + d1 * d2)).length := by
          rw [List.length_drop, harr2len]
          omega
        have hb2 : i < (arr.drop (x * (d1 * d2) + d1 * d2)).length := by
          rw [List.length_drop]
          omega
        have hq : ((arr.take (x * (d1 * d2)) ++ g.take (d1 * d2) ++
            arr.drop (x * (d1 * d2) + d1 * d2)).drop
              (x * (d1 * d2) + d1 * d2))[i]? =
            (arr.drop (x * (d1 * d2) + d1 * d2))[i]? := by rw [hdrop]
        rw [List.getElem?_eq_getElem hidrop, List.getElem?_eq_getElem hb2] at hq
        have hstep : ((arr.take (x * (d1 * d2)) ++ g.take (d1 * d2) ++
            arr.drop (x * (d1 * d2) + d1 * d2)).drop
              (x * (d1 * d2) + d1 * d2)).get ⟨i, hidrop⟩ = zero := by
          simp only [List.get_eq_getElem]
          rw [Option.some.inj hq, List.getElem_drop]
          have := hz (x * (d1 * d2) + d1 * d2 + i) (by omega) (by omega) hjarr
          simpa using this
        simp only [List.get_eq_getElem] at hstep ⊢
        rw [List.getElem_drop] at hstep
        exact hstep)
    rw [hih]
    have htake2 : (arr.take (x * (d1 * d2)) ++ g.take (d1 * d2) ++
        arr.drop (x * (d1 * d2) + d1 * d2)).take ((x + 1) * (d1 * d2)) =
        arr.take (x * (d1 * d2)) ++ g.take (d1 * d2) := by
      have : (x + 1) * (d1 * d2) = x * (d1 * d2) + d1 * d2 := Nat.succ_mul x (d1 * d2)
      rw [this, ← hlft, List.take_left]
    have hdrop2 : (arr.take (x * (d1 * d2)) ++ g.take (d1 * d2) ++
        arr.drop (x * (d1 * d2) + d1 * d2)).drop
          ((x + 1) * (d1 * d2) + m * (d1 * d2)) =
        arr.drop (x * (d1 * d2) + (m * (d1 * d2) + d1 * d2)) := by
      have h1 : (x + 1) * (d1 * d2) + m * (d1 * d2) =
          (x * (d1 * d2) + d1 * d2) + m * (d1 * d2) := by
        rw [Nat.succ_mul]
      rw [h1, ← List.drop_drop, hdrop, List.drop_drop]
      congr 1
      omega
    rw [htake2, hdrop2]
    simp only [List.append_assoc]
    rw [← List.append_assoc (g.take (d1 * d2)) (g.drop (d1 * d2)),
      List.take_append_drop]
/-- The full 3D array body read into a zeroed array recovers the dense
payload exactly (additively in fuel). -/
theorem rleRead3_body {α : Type} [DecidableEq α] (zero : α) (enc : α → List Nat)
    (decEl : Nat → List Nat → Except String (α × List Nat)) (P : α → Prop)
    (d0 d1 d2 : Nat)
    (Hhead : ∀ v : α, v ≠ zero → ∃ b bs, enc v = b :: bs ∧ b < 0xE0)
    (Hdec : ∀ (v : α) (rest : List Nat) (b : Nat) (bs : List Nat),
      P v → v ≠ zero → enc v = b :: bs → decEl b (bs ++ rest) = .ok (v, rest))
    (h31d0 : d0 < 2 ^ 31) (h31d1 : d1 < 2 ^ 31) (h31 : d2 < 2 ^ 31)
    (flat : List α) (rest : List Nat) (fuel : Nat)
    (hP : ∀ v ∈ flat, v ≠ zero → P v) (hflat : flat.length = d0 * d1 * d2) :
    Erago.rleRead3 decEl d0 d1 d2
      (fuel + (Erago.planesIter zero (Erago.toPlanes d0 d1 d2 flat) 0 + 1))
      (List.replicate (d0 * d1 * d2) zero) 0 0 0
      (Erago.rleBody3 zero enc (Erago.toPlanes d0 d1 d2 flat) ++ rest) =
      .ok (flat, rest) := by
  have hplanes := rleRead3_planes zero enc decEl P d0 d1 d2 Hhead Hdec
    h31d0 h31d1 h31 (Erago.toPlanes d0 d1 d2 flat) 0 0
    (List.replicate (d0 * d1 * d2) zero) (fuel + 1) (Erago.ebEoD :: rest)
    (by
      intro p hp
      refine ⟨toPlanes_plane_length d0 d1 d2 flat p hp, ?_⟩
      intro r hr
      constructor
      · intro v hv
        apply hP
        simp only [Erago.toPlanes, List.mem_map] at hp
        obtain ⟨px, _, rfl⟩ := hp
        simp only [Erago.toRows, List.mem_map] at hr
        obtain ⟨rx, _, rfl⟩ := hr
        have h1 := List.mem_of_mem_drop (List.mem_of_mem_take hv)
        exact List.mem_of_mem_drop h1
      · simp only [Erago.toPlanes, List.mem_map] at hp
        obtain ⟨px, _, rfl⟩ := hp
        exact toRows_row_length d1 d2 _ r hr)
    (by rw [toPlanes_length]; omega)
  obtain ⟨x2, y2, z2, hx⟩ := hplanes
  have hb : Erago.rleBody3 zero enc (Erago.toPlanes d0 d1 d2 flat) ++ rest =
      Erago.rlePlanes zero enc (Erago.toPlanes d0 d1 d2 flat) 0 ++
        (Erago.ebEoD :: rest) := by
    rw [Erago.rleBody3, List.append_assoc, List.singleton_append]
  have hfuel : fuel + (Erago.planesIter zero (Erago.toPlanes d0 d1 d2 flat) 0 + 1) =
      (fuel + 1) + Erago.planesIter zero (Erago.toPlanes d0 d1 d2 flat) 0 := by omega
  rw [hb, hfuel]
  have h0 : ((0 : Nat) : Int) = (0 : Int) := rfl
  nth_rewrite 1 [← h0]
  rw [hx, rleRead3_eod]
  have hupd : Erago.updPlanes zero d1 d2 (List.replicate (d0 * d1 * d2) zero) (0 + 0)
      (Erago.toPlanes d0 d1 d2 flat) = flat := by
    rw [Nat.add_zero, updPlanes_seg zero d1 d2 d0 flat 0
      (List.replicate (d0 * d1 * d2) zero)
      (by rw [hflat, Nat.mul_assoc])
      (by simp [Nat.mul_assoc])
      (by intro j _ _ hj; simp)]
    simp [hflat, Nat.mul_assoc]
  rw [hupd]

/-- readIntArray3D undoes writeWithKeyInt3D after the type byte and key. -/
theorem readIntArray3D_w (d0 d1 d2 : Nat) (flat : List Int) (rest : List Nat)
    (hP : ∀ v ∈ flat, -(2 ^ 63) ≤ v ∧ v ≤ 2 ^ 63 - 1)
    (h31d0 : d0 < 2 ^ 31) (h31d1 : d1 < 2 ^ 31) (h31 : d2 < 2 ^ 31)
    (hflat : flat.length = d0 * d1 * d2) :
    Erago.readIntArray3D (Erago.le32 (d0 : Int) ++ Erago.le32 (d1 : Int) ++
      Erago.le32 (d2 : Int) ++
      Erago.rleBody3 0 Erago.cenc (Erago.toPlanes d0 d1 d2 flat) ++ rest) =
      .ok (flat, [(d0 : Int), (d1 : Int), (d2 : Int)], rest) := by
  unfold Erago.readIntArray3D
  rw [List.append_assoc, List.append_assoc, List.append_assoc,
    rLE32_le32 (d0 : Int) _ (by
      constructor
      · have : (0 : Int) ≤ d0 := Int.natCast_nonneg _
        omega
      · have : (d0 : Int) < 2 ^ 31 := by exact_mod_cast h31d0
        omega)]
  simp only [bind, Except.bind]
  rw [rLE32_le32 (d1 : Int) _ (by
      constructor
      · have : (0 : Int) ≤ d1 := Int.natCast_nonneg _
        omega
      · have : (d1 : Int) < 2 ^ 31 := by exact_mod_cast h31d1
        omega)]
  simp only [bind, Except.bind]
  rw [rLE32_le32 (d2 : Int) _ (by
      constructor
      · have : (0 : Int) ≤ d2 := Int.natCast_nonneg _
        omega
      · have : (d2 : Int) < 2 ^ 31 := by exact_mod_cast h31
        omega)]
  have hcond : ¬((d0 : Int) < 0 ∨ (d1 : Int) < 0 ∨ (d2 : Int) < 0) := by
    push_neg
    exact ⟨Int.natCast_nonneg _, Int.natCast_nonneg _, Int.natCast_nonneg _⟩
  simp only [if_neg hcond]
  have hne : ∀ v : Int, v ≠ 0 → Erago.cenc v ≠ [] := by
    intro v _
    obtain ⟨b, bs, h1, _⟩ := cenc_head v
    simp [h1]
  have hri := planesIter_le (0 : Int) Erago.cenc hne (Erago.toPlanes d0 d1 d2 flat) 0
  have hlen : (Erago.rleBody3 0 Erago.cenc (Erago.toPlanes d0 d1 d2 flat) ++
      rest).length =
      (Erago.rlePlanes 0 Erago.cenc (Erago.toPlanes d0 d1 d2 flat) 0).length + 1 +
        rest.length := by
    simp [Erago.rleBody3]
    omega
  have hfuel : (Erago.rleBody3 0 Erago.cenc (Erago.toPlanes d0 d1 d2 flat) ++
      rest).length + 1 =
      ((Erago.rleBody3 0 Erago.cenc (Erago.toPlanes d0 d1 d2 flat) ++ rest).length -
        Erago.planesIter 0 (Erago.toPlanes d0 d1 d2 flat) 0) +
        (Erago.planesIter 0 (Erago.toPlanes d0 d1 d2 flat) 0 + 1) := by omega
  rw [hfuel]
  have hbody := rleRead3_body (0 : Int) Erago.cenc Erago.decElemInt
    (fun v => -(2 ^ 63) ≤ v ∧ v ≤ 2 ^ 63 - 1) d0 d1 d2
    (fun v _ => by
      obtain ⟨b, bs, h1, h2⟩ := cenc_head v
      exact ⟨b, bs, h1, by omega⟩)
    (fun v r b bs hPv _ henc => decElemInt_cenc v r b bs hPv henc)
    h31d0 h31d1 h31 flat rest
    ((Erago.rleBody3 0 Erago.cenc (Erago.toPlanes d0 d1 d2 flat) ++ rest).length -
      Erago.planesIter 0 (Erago.toPlanes d0 d1 d2 flat) 0)
    (fun v hv _ => hP v hv) hflat
  rw [Int.toNat_natCast, Int.toNat_natCast, Int.toNat_natCast, hbody]
  rfl

/-- readStrArray3D undoes writeWithKeyStr3D after the type byte and key. -/
theorem readStrArray3D_w (d0 d1 d2 : Nat) (flat : List String) (rest : List Nat)
    (hP : ∀ s ∈ flat, 2 * (Erago.utf16Units s).length < 2 ^ 35)
    (h31d0 : d0 < 2 ^ 31) (h31d1 : d1 < 2 ^ 31) (h31 : d2 < 2 ^ 31)
    (hflat : flat.length = d0 * d1 * d2) :
    Erago.readStrArray3D (Erago.le32 (d0 : Int) ++ Erago.le32 (d1 : Int) ++
      Erago.le32 (d2 : Int) ++
      Erago.rleBody3 "" Erago.encElemStr (Erago.toPlanes d0 d1 d2 flat) ++ rest) =
      .ok (flat, [(d0 : Int), (d1 : Int), (d2 : Int)], rest) := by
  unfold Erago.readStrArray3D
  rw [List.append_assoc, List.append_assoc, List.append_assoc,
    rLE32_le32 (d0 : Int) _ (by
      constructor
      · have : (0 : Int) ≤ d0 := Int.natCast_nonneg _
        omega
      · have : (d0 : Int) < 2 ^ 31 := by exact_mod_cast h31d0
        omega)]
  simp only [bind, Except.bind]
  rw [rLE32_le32 (d1 : Int) _ (by
      constructor
      · have : (0 : Int) ≤ d1 := Int.natCast_nonneg _
        omega
      · have : (d1 : Int) < 2 ^ 31 := by exact_mod_cast h31d1
        omega)]
  simp only [bind, Except.bind]
  rw [rLE32_le32 (d2 : Int) _ (by
      constructor
      · have : (0 : Int) ≤ d2 := Int.natCast_nonneg _
        omega
      · have : (d2 : Int) < 2 ^ 31 := by exact_mod_cast h31
        omega)]
  have hcond : ¬((d0 : Int) < 0 ∨ (d1 : Int) < 0 ∨ (d2 : Int) < 0) := by
    push_neg
    exact ⟨Int.natCast_nonneg _, Int.natCast_nonneg _, Int.natCast_nonneg _⟩
  simp only [if_neg hcond]
  have hne : ∀ s : String, s ≠ "" → Erago.encElemStr s ≠ [] := by
    intro s _
    simp [Erago.encElemStr]
  have hri := planesIter_le "" Erago.encElemStr hne
    (Erago.toPlanes d0 d1 d2 flat) 0
  have hlen : (Erago.rleBody3 "" Erago.encElemStr (Erago.toPlanes d0 d1 d2 flat) ++
      rest).length =
      (Erago.rlePlanes "" Erago.encElemStr (Erago.toPlanes d0 d1 d2 flat) 0).length +
        1 + rest.length := by
    simp [Erago.rleBody3]
    omega
  have hfuel : (Erago.rleBody3 "" Erago.encElemStr (Erago.toPlanes d0 d1 d2 flat) ++
      rest).length + 1 =
      ((Erago.rleBody3 "" Erago.encElemStr (Erago.toPlanes d0 d1 d2 flat) ++
        rest).length -
        Erago.planesIter "" (Erago.toPlanes d0 d1 d2 flat) 0) +
        (Erago.planesIter "" (Erago.toPlanes d0 d1 d2 flat) 0 + 1) := by omega
  rw [hfuel]
  have hbody := rleRead3_body "" Erago.encElemStr Erago.decElemStr
    (fun s => 2 * (Erago.utf16Units s).length < 2 ^ 35) d0 d1 d2
    (fun s _ => ⟨Erago.ebString, Erago.wDotNetStr s, rfl, by norm_num [Erago.ebString]⟩)
    (fun s r b bs hPs _ henc => decElemStr_enc s r b bs hPs henc)
    h31d0 h31d1 h31 flat rest
    ((Erago.rleBody3 "" Erago.encElemStr (Erago.toPlanes d0 d1 d2 flat) ++
      rest).length -
      Erago.planesIter "" (Erago.toPlanes d0 d1 d2 flat) 0)
    (fun s hs _ => hP s hs) hflat
  rw [Int.toNat_natCast, Int.toNat_natCast, Int.toNat_natCast, hbody]
  rfl
/-- One dense-flattening step keeps the flat array's length. -/
theorem denseSetStep_length {α : Type} (dims : List Int) (g : String × Erago.Value → α)
    (flat : List α) (p : String × Erago.Value) :
    (Erago.denseSetStep dims g flat p).length = flat.length := by
  unfold Erago.denseSetStep
  cases he : Erago.parseIndexKey p.1 with
  | none => simp [he]
  | some idx =>
    simp only [he]
    split_ifs <;> simp [List.length_set]

/-- One dense-flattening step only writes projected stored values. -/
theorem denseSetStep_mem {α : Type} (dims : List Int) (g : String × Erago.Value → α)
    (flat : List α) (p : String × Erago.Value) (v : α)
    (h : v ∈ Erago.denseSetStep dims g flat p) : v ∈ flat ∨ v = g p := by
  unfold Erago.denseSetStep at h
  cases he : Erago.parseIndexKey p.1 with
  | none =>
    simp only [he] at h
    exact Or.inl h
  | some idx =>
    simp only [he] at h
    split_ifs at h
    · exact Or.inl h
    · rcases List.mem_or_eq_of_mem_set h with h1 | h1
      · exact Or.inl h1
      · exact Or.inr h1
    · exact Or.inl h

/-- The dense-flattening foldl keeps the flat array's length. -/
theorem denseFoldl_length {α : Type} (dims : List Int) (g : String × Erago.Value → α) :
    ∀ (data : List (String × Erago.Value)) (flat : List α),
      (data.foldl (Erago.denseSetStep dims g) flat).length = flat.length := by
  intro data
  induction data with
  | nil => intro flat; rfl
  | cons p ps ih =>
    intro flat
    rw [List.foldl_cons, ih, denseSetStep_length]

/-- Every element of the dense flattening is an initial element or a
projected stored value. -/
theorem denseFoldl_mem {α : Type} (dims : List Int) (g : String × Erago.Value → α) :
    ∀ (data : List (String × Erago.Value)) (flat : List α) (v : α),
      v ∈ data.foldl (Erago.denseSetStep dims g) flat →
      v ∈ flat ∨ ∃ p ∈ data, v = g p := by
  intro data
  induction data with
  | nil => intro flat v hv; exact Or.inl hv
  | cons p ps ih =>
    intro flat v hv
    rw [List.foldl_cons] at hv
    rcases ih _ v hv with h | ⟨q, hq, rfl⟩
    · rcases denseSetStep_mem dims g flat p v h with h1 | h1
      · exact Or.inl h1
      · exact Or.inr ⟨p, by simp, h1⟩
    · exact Or.inr ⟨q, by simp [hq], rfl⟩

/-- totalDims computes the product of the clamped dims on success. -/
theorem totalDims_ok :
    ∀ (dims : List Int) (acc t : Nat),
      (∀ d ∈ dims, 0 ≤ d) →
      Erago.totalDims acc dims = .ok t →
      t = acc * (dims.map Int.toNat).prod := by
  intro dims
  induction dims with
  | nil =>
    intro acc t _ h
    rw [Erago.totalDims] at h
    injection h with h
    simp [← h]
  | cons d rest ih =>
    intro acc t hd h
    have hd0 : 0 ≤ d := hd d (by simp)
    rw [Erago.totalDims] at h
    simp only [if_neg (by omega : ¬d < 0)] at h
    by_cases hz : d.toNat = 0
    · rw [if_pos hz] at h
      injection h with h
      simp [← h, hz]
    · rw [if_neg hz] at h
      by_cases hbig : acc * d.toNat > 1000000
      · rw [if_pos hbig] at h
        exact absurd h (by simp)
      · rw [if_neg hbig] at h
        have := ih (acc * d.toNat) t (fun e he => hd e (by simp [he])) h
        rw [this, List.map_cons, List.prod_cons, Nat.mul_assoc]
/-- What a successful int dense conversion returns: the declared dims, a
flat array sized by totalDims, holding only zeros and stored int values. -/
theorem arrayToDenseInt_spec (arr : Erago.ArrayVar) (flat dims : List Int)
    (h : Erago.arrayToDenseInt arr = .ok (flat, dims)) :
    dims = (if arr.dims = [] then [(1 : Int)] else arr.dims) ∧
    (∃ total, Erago.totalDims 1 dims = .ok total ∧ flat.length = total) ∧
    (∀ v ∈ flat, v = 0 ∨ ∃ p ∈ arr.data, v = p.2.int64) := by
  unfold Erago.arrayToDenseInt at h
  simp only [bind, Except.bind] at h
  by_cases hlen : (if arr.dims = [] then [(1 : Int)] else arr.dims).length > 3
  · rw [if_pos hlen] at h
    exact absurd h (by simp)
  · rw [if_neg hlen] at h
    cases htd : Erago.totalDims 1 (if arr.dims = [] then [(1 : Int)] else arr.dims) with
    | error e =>
      rw [htd] at h
      exact absurd h (by simp)
    | ok total =>
      rw [htd] at h
      simp only [pure, Except.pure, Except.ok.injEq, Prod.mk.injEq] at h
      obtain ⟨h1, h2⟩ := h
      subst h2
      refine ⟨rfl, ⟨total, htd, ?_⟩, ?_⟩
      · rw [← h1]
        have hb : (arr.data.foldl
            (Erago.denseSetStep (if arr.dims = [] then [(1 : Int)] else arr.dims)
              (fun p => p.2.int64)) (List.replicate total 0)).length = total := by
          rw [denseFoldl_length]
          simp
        exact hb
      · intro v hv
        rw [← h1] at hv
        have hv2 : v ∈ arr.data.foldl
            (Erago.denseSetStep (if arr.dims = [] then [(1 : Int)] else arr.dims)
              (fun p => p.2.int64)) (List.replicate total 0) := hv
        rcases denseFoldl_mem _ _ arr.data _ v hv2 with h3 | ⟨p, hp, rfl⟩
        · exact Or.inl (List.eq_of_mem_replicate h3)
        · exact Or.inr ⟨p, hp, rfl⟩

/-- What a successful string dense conversion returns. -/
theorem arrayToDenseStr_spec (arr : Erago.ArrayVar) (flat : List String)
    (dims : List Int)
    (h : Erago.arrayToDenseStr arr = .ok (flat, dims)) :
    dims = (if arr.dims = [] then [(1 : Int)] else arr.dims) ∧
    (∃ total, Erago.totalDims 1 dims = .ok total ∧ flat.length = total) ∧
    (∀ v ∈ flat, v = "" ∨ ∃ p ∈ arr.data, v = p.2.str) := by
  unfold Erago.arrayToDenseStr at h
  simp only [bind, Except.bind] at h
  by_cases hlen : (if arr.dims = [] then [(1 : Int)] else arr.dims).length > 3
  · rw [if_pos hlen] at h
    exact absurd h (by simp)
  · rw [if_neg hlen] at h
    cases htd : Erago.totalDims 1 (if arr.dims = [] then [(1 : Int)] else arr.dims) with
    | error e =>
      rw [htd] at h
      exact absurd h (by simp)
    | ok total =>
      rw [htd] at h
      simp only [pure, Except.pure, Except.ok.injEq, Prod.mk.injEq] at h
      obtain ⟨h1, h2⟩ := h
      subst h2
      refine ⟨rfl, ⟨total, htd, ?_⟩, ?_⟩
      · rw [← h1]
        have hb : (arr.data.foldl
            (Erago.denseSetStep (if arr.dims = [] then [(1 : Int)] else arr.dims)
              (fun p => p.2.str)) (List.replicate total "")).length = total := by
          rw [denseFoldl_length]
          simp
        exact hb
      · intro v hv
        rw [← h1] at hv
        have hv2 : v ∈ arr.data.foldl
            (Erago.denseSetStep (if arr.dims = [] then [(1 : Int)] else arr.dims)
              (fun p => p.2.str)) (List.replicate total "") := hv
        rcases denseFoldl_mem _ _ arr.data _ v hv2 with h3 | ⟨p, hp, rfl⟩
        · exact Or.inl (List.eq_of_mem_replicate h3)
        · exact Or.inr ⟨p, hp, rfl⟩
/-- The entry loop stops at the EOF marker. -/
theorem readVarEntries_eof (fuel : Nat) (rest : List Nat)
    (globals : List (String × Erago.Value))
    (arrays : List (String × Erago.ArrayVar)) :
    Erago.readVarEntries (fuel + 1) (Erago.etEOF :: rest) globals arrays =
      .ok (globals, arrays) := by
  unfold Erago.readVarEntries
  simp [rByte_cons, bind, Except.bind, pure, Except.pure]

/-- The entry loop reads one globals entry and stores it under its key. -/
theorem readVarEntries_global_step (fuel : Nat) (p : String × Erago.Value)
    (rest : List Nat) (globals : List (String × Erago.Value))
    (arrays : List (String × Erago.ArrayVar))
    (hkey : 2 * (Erago.utf16Units p.1).length < 2 ^ 35)
    (hv : Erago.wfValue p.2) :
    Erago.readVarEntries (fuel + 1) (Erago.globalEntryBytes p ++ rest)
      globals arrays =
      Erago.readVarEntries fuel rest (Erago.updAssoc globals p.1 p.2) arrays := by
  obtain ⟨key, v⟩ := p
  rw [Erago.globalEntryBytes]
  unfold Erago.wfValue at hv
  by_cases hk : v.kind = Erago.ValueKind.string
  · rw [if_pos (by simpa using hk)]
    rw [if_pos hk] at hv
    obtain ⟨hi, hs⟩ := hv
    rw [Erago.writeWithKeyStr]
    conv_lhs => unfold Erago.readVarEntries
    rw [List.cons_append, rByte_cons]
    simp only [bind, Except.bind]
    rw [if_neg (by norm_num [Erago.etStr, Erago.etEOF]),
      if_neg (by norm_num [Erago.etStr, Erago.etSep, Erago.etEOC]),
      List.append_assoc]
    have hstr : Erago.Value.str v = v.s := by
      rw [Erago.Value.str, if_pos hk]
    rw [hstr]
    simp only [rDotNetStr_w key _ hkey, if_true]
    simp only at hs
    simp only [rDotNetStr_w v.s _ hs]
    have hvs : Erago.VStr v.s = v := by
      cases v with
      | mk kind i s =>
        simp only at hk hi
        rw [Erago.VStr, hk, hi]
    rw [hvs]
    rw [if_neg (by norm_num [Erago.etStr, Erago.etInt])]
  · rw [if_neg (by simpa using hk)]
    rw [if_neg hk] at hv
    obtain ⟨hs, hlo, hhi⟩ := hv
    rw [Erago.writeWithKeyInt]
    conv_lhs => unfold Erago.readVarEntries
    rw [List.cons_append, rByte_cons]
    simp only [bind, Except.bind]
    rw [if_neg (by norm_num [Erago.etInt, Erago.etEOF]),
      if_neg (by norm_num [Erago.etInt, Erago.etSep, Erago.etEOC]),
      List.append_assoc]
    simp only [rDotNetStr_w key _ hkey, if_true]
    simp only at hlo hhi hs
    have hki : v.kind = Erago.ValueKind.int := by
      cases hkk : v.kind
      · rfl
      · exact absurd hkk hk
    have hint : Erago.Value.int64 v = v.i := by
      rw [Erago.Value.int64, if_pos hki]
    rw [hint]
    simp only [cdec_cenc v.i rest ⟨hlo, hhi⟩]
    have hvi : Erago.VInt v.i = v := by
      cases v with
      | mk kind i s =>
        simp only at hki hs
        rw [Erago.VInt, hki, hs]
    rw [hvi]
/-- The entry loop dispatches a 1D int array entry to readIntArray1D. -/
theorem readVarEntries_intArr1 (fuel : Nat) (key : String) (payload : List Nat)
    (globals : List (String × Erago.Value))
    (arrays : List (String × Erago.ArrayVar))
    (hkey : 2 * (Erago.utf16Units key).length < 2 ^ 35) :
    Erago.readVarEntries (fuel + 1)
      (Erago.etIntArr1 :: (Erago.wDotNetStr key ++ payload)) globals arrays =
      match Erago.readIntArray1D payload with
      | .error e => .error e
      | .ok (flat, dims, r3) =>
        Erago.readVarEntries fuel r3 globals
          (Erago.updAssoc arrays key (Erago.denseIntToArray flat dims)) := by
  conv_lhs => unfold Erago.readVarEntries
  rw [rByte_cons]
  simp only [bind, Except.bind]
  rw [if_neg (by norm_num [Erago.etIntArr1, Erago.etEOF]),
    if_neg (by norm_num [Erago.etIntArr1, Erago.etSep, Erago.etEOC])]
  simp only [rDotNetStr_w key _ hkey]
  rw [if_neg (by norm_num [Erago.etIntArr1, Erago.etInt]),
    if_neg (by norm_num [Erago.etIntArr1, Erago.etStr])]
  simp only [if_true]
  rcases Erago.readIntArray1D payload with e | ⟨flat, dims, r3⟩ <;> rfl

/-- The entry loop dispatches a 2D int array entry to readIntArray2D. -/
theorem readVarEntries_intArr2 (fuel : Nat) (key : String) (payload : List Nat)
    (globals : List (String × Erago.Value))
    (arrays : List (String × Erago.ArrayVar))
    (hkey : 2 * (Erago.utf16Units key).length < 2 ^ 35) :
    Erago.readVarEntries (fuel + 1)
      (Erago.etIntArr2 :: (Erago.wDotNetStr key ++ payload)) globals arrays =
      match Erago.readIntArray2D payload with
      | .error e => .error e
      | .ok (flat, dims, r3) =>
        Erago.readVarEntries fuel r3 globals
          (Erago.updAssoc arrays key (Erago.denseIntToArray flat dims)) := by
  conv_lhs => unfold Erago.readVarEntries
  rw [rByte_cons]
  simp only [bind, Except.bind]
  rw [if_neg (by norm_num [Erago.etIntArr2, Erago.etEOF]),
    if_neg (by norm_num [Erago.etIntArr2, Erago.etSep, Erago.etEOC])]
  simp only [rDotNetStr_w key _ hkey]
  rw [if_neg (by norm_num [Erago.etIntArr2, Erago.etInt]),
    if_neg (by norm_num [Erago.etIntArr2, Erago.etStr]),
    if_neg (by norm_num [Erago.etIntArr2, Erago.etIntArr1])]
  simp only [if_true]
  rcases Erago.readIntArray2D payload with e | ⟨flat, dims, r3⟩ <;> rfl

/-- The entry loop dispatches a 3D int array entry to readIntArray3D. -/
theorem readVarEntries_intArr3 (fuel : Nat) (key : String) (payload : List Nat)
    (globals : List (String × Erago.Value))
    (arrays : List (String × Erago.ArrayVar))
    (hkey : 2 * (Erago.utf16Units key).length < 2 ^ 35) :
    Erago.readVarEntries (fuel + 1)
      (Erago.etIntArr3 :: (Erago.wDotNetStr key ++ payload)) globals arrays =
      match Erago.readIntArray3D payload with
      | .error e => .error e
      | .ok (flat, dims, r3) =>
        Erago.readVarEntries fuel r3 globals
          (Erago.updAssoc arrays key (Erago.denseIntToArray flat dims)) := by
  conv_lhs => unfold Erago.readVarEntries
  rw [rByte_cons]
  simp only [bind, Except.bind]
  rw [if_neg (by norm_num [Erago.etIntArr3, Erago.etEOF]),
    if_neg (by norm_num [Erago.etIntArr3, Erago.etSep, Erago.etEOC])]
  simp only [rDotNetStr_w key _ hkey]
  rw [if_neg (by norm_num [Erago.etIntArr3, Erago.etInt]),
    if_neg (by norm_num [Erago.etIntArr3, Erago.etStr]),
    if_neg (by norm_num [Erago.etIntArr3, Erago.etIntArr1]),
    if_neg (by norm_num [Erago.etIntArr3, Erago.etIntArr2])]
  simp only [if_true]
  rcases Erago.readIntArray3D payload with e | ⟨flat, dims, r3⟩ <;> rfl

/-- The entry loop dispatches a 1D string array entry to readStrArray1D. -/
theorem readVarEntries_strArr1 (fuel : Nat) (key : String) (payload : List Nat)
    (globals : List (String × Erago.Value))
    (arrays : List (String × Erago.ArrayVar))
    (hkey : 2 * (Erago.utf16Units key).length < 2 ^ 35) :
    Erago.readVarEntries (fuel + 1)
      (Erago.etStrArr1 :: (Erago.wDotNetStr key ++ payload)) globals arrays =
      match Erago.readStrArray1D payload with
      | .error e => .error e
      | .ok (flat, dims, r3) =>
        Erago.readVarEntries fuel r3 globals
          (Erago.updAssoc arrays key (Erago.denseStrToArray flat dims)) := by
  conv_lhs => unfold Erago.readVarEntries
  rw [rByte_cons]
  simp only [bind, Except.bind]
  rw [if_neg (by norm_num [Erago.etStrArr1, Erago.etEOF]),
    if_neg (by norm_num [Erago.etStrArr1, Erago.etSep, Erago.etEOC])]
  simp only [rDotNetStr_w key _ hkey]
  rw [if_neg (by norm_num [Erago.etStrArr1, Erago.etInt]),
    if_neg (by norm_num [Erago.etStrArr1, Erago.etStr]),
    if_neg (by norm_num [Erago.etStrArr1, Erago.etIntArr1]),
    if_neg (by norm_num [Erago.etStrArr1, Erago.etIntArr2]),
    if_neg (by norm_num [Erago.etStrArr1, Erago.etIntArr3])]
  simp only [if_true]
  rcases Erago.readStrArray1D payload with e | ⟨flat, dims, r3⟩ <;> rfl

/-- The entry loop dispatches a 2D string array entry to readStrArray2D. -/
theorem readVarEntries_strArr2 (fuel : Nat) (key : String) (payload : List Nat)
    (globals : List (String × Erago.Value))
    (arrays : List (String × Erago.ArrayVar))
    (hkey : 2 * (Erago.utf16Units key).length < 2 ^ 35) :
    Erago.readVarEntries (fuel + 1)
      (Erago.etStrArr2 :: (Erago.wDotNetStr key ++ payload)) globals arrays =
      match Erago.readStrArray2D payload with
      | .error e => .error e
      | .ok (flat, dims, r3) =>
        Erago.readVarEntries fuel r3 globals
          (Erago.updAssoc arrays key (Erago.denseStrToArray flat dims)) := by
  conv_lhs => unfold Erago.readVarEntries
  rw [rByte_cons]
  simp only [bind, Except.bind]
  rw [if_neg (by norm_num [Erago.etStrArr2, Erago.etEOF]),
    if_neg (by norm_num [Erago.etStrArr2, Erago.etSep, Erago.etEOC])]
  simp only [rDotNetStr_w key _ hkey]
  rw [if_neg (by norm_num [Erago.etStrArr2, Erago.etInt]),
    if_neg (by norm_num [Erago.etStrArr2, Erago.etStr]),
    if_neg (by norm_num [Erago.etStrArr2, Erago.etIntArr1]),
    if_neg (by norm_num [Erago.etStrArr2, Erago.etIntArr2]),
    if_neg (by norm_num [Erago.etStrArr2, Erago.etIntArr3]),
    if_neg (by norm_num [Erago.etStrArr2, Erago.etStrArr1])]
  simp only [if_true]
  rcases Erago.readStrArray2D payload with e | ⟨flat, dims, r3⟩ <;> rfl

/-- The entry loop dispatches a 3D string array entry to readStrArray3D. -/
theorem readVarEntries_strArr3 (fuel : Nat) (key : String) (payload : List Nat)
    (globals : List (String × Erago.Value))
    (arrays : List (String × Erago.ArrayVar))
    (hkey : 2 * (Erago.utf16Units key).length < 2 ^ 35) :
    Erago.readVarEntries (fuel + 1)
      (Erago.etStrArr3 :: (Erago.wDotNetStr key ++ payload)) globals arrays =
      match Erago.readStrArray3D payload with
      | .error e => .error e
      | .ok (flat, dims, r3) =>
        Erago.readVarEntries fuel r3 globals
          (Erago.updAssoc arrays key (Erago.denseStrToArray flat dims)) := by
  conv_lhs => unfold Erago.readVarEntries
  rw [rByte_cons]
  simp only [bind, Except.bind]
  rw [if_neg (by norm_num [Erago.etStrArr3, Erago.etEOF]),
    if_neg (by norm_num [Erago.etStrArr3, Erago.etSep, Erago.etEOC])]
  simp only [rDotNetStr_w key _ hkey]
  rw [if_neg (by norm_num [Erago.etStrArr3, Erago.etInt]),
    if_neg (by norm_num [Erago.etStrArr3, Erago.etStr]),
    if_neg (by norm_num [Erago.etStrArr3, Erago.etIntArr1]),
    if_neg (by norm_num [Erago.etStrArr3, Erago.etIntArr2]),
    if_neg (by norm_num [Erago.etStrArr3, Erago.etIntArr3]),
    if_neg (by norm_num [Erago.etStrArr3, Erago.etStrArr1]),
    if_neg (by norm_num [Erago.etStrArr3, Erago.etStrArr2])]
  simp only [if_true]
  rcases Erago.readStrArray3D payload with e | ⟨flat, dims, r3⟩ <;> rfl
/-- totalDims stays within the 1e6 guard. -/
theorem totalDims_le :
    ∀ (dims : List Int) (acc t : Nat), Erago.totalDims acc dims = .ok t →
      acc ≤ 1000000 → t ≤ 1000000 := by
  intro dims
  induction dims with
  | nil =>
    intro acc t h hacc
    rw [Erago.totalDims] at h
    injection h with h
    omega
  | cons d rest ih =>
    intro acc t h hacc
    rw [Erago.totalDims] at h
    by_cases hz : (if d < 0 then 0 else d.toNat) = 0
    · rw [if_pos hz] at h
      injection h with h
      omega
    · rw [if_neg hz] at h
      by_cases hbig : acc * (if d < 0 then 0 else d.toNat) > 1000000
      · rw [if_pos hbig] at h
        exact absurd h (by simp)
      · rw [if_neg hbig] at h
        exact ih _ t h (by omega)
/-- The entry loop reads one array entry and stores its dense
re-materialisation under its key. -/
theorem readVarEntries_array_step (fuel : Nat) (key : String)
    (arr : Erago.ArrayVar) (bs rest : List Nat)
    (globals : List (String × Erago.Value))
    (arrays : List (String × Erago.ArrayVar))
    (hkey : 2 * (Erago.utf16Units key).length < 2 ^ 35)
    (hwf : Erago.wfArray arr)
    (hw : Erago.writeArrayEntry key arr = .ok bs) :
    Erago.readVarEntries (fuel + 1) (bs ++ rest) globals arrays =
      Erago.readVarEntries fuel rest globals
        (Erago.updAssoc arrays key (Erago.redecodeArray arr)) := by
  obtain ⟨hdims, hdata⟩ := hwf
  unfold Erago.writeArrayEntry at hw
  simp only [bind, Except.bind] at hw
  by_cases hstr : arr.isString = true
  · rw [if_pos hstr] at hw
    cases hda : Erago.arrayToDenseStr arr with
    | error e =>
      simp [hda] at hw
    | ok fd =>
      obtain ⟨flat, dims0⟩ := fd
      simp only [hda] at hw
      obtain ⟨hdeq, ⟨total, htd, hlen⟩, hmem⟩ := arrayToDenseStr_spec arr flat dims0 hda
      have hdb : ∀ d ∈ dims0, 0 ≤ d ∧ d < 2 ^ 31 := by
        rw [hdeq]
        by_cases he : arr.dims = []
        · rw [if_pos he]
          intro d hd
          simp at hd
          subst hd
          norm_num
        · rw [if_neg he]
          exact hdims
      have hprod : total = (dims0.map Int.toNat).prod := by
        have := totalDims_ok dims0 1 total (fun d hd => (hdb d hd).1) htd
        simpa using this
      have htle : total ≤ 1000000 := totalDims_le dims0 1 total htd (by norm_num)
      have h31 : flat.length < 2 ^ 31 := by rw [hlen]; omega
      have hP : ∀ s ∈ flat, 2 * (Erago.utf16Units s).length < 2 ^ 35 := by
        intro s hs
        rcases hmem s hs with rfl | ⟨p, hp, rfl⟩
        · simp [Erago.utf16Units]
        · have := hdata p hp
          rw [if_pos hstr] at this
          exact this
      have hre : Erago.redecodeArray arr = Erago.denseStrToArray flat dims0 := by
        rw [Erago.redecodeArray, if_pos hstr, hda]
      rcases dims0 with _ | ⟨d0, _ | ⟨d1, _ | ⟨d2, _ | ⟨d3, ds⟩⟩⟩⟩
      · simp at hw
      · simp only [pure, Except.pure, Except.ok.injEq] at hw
        subst hw
        rw [Erago.writeWithKeyStr1D]
        simp only [List.cons_append, List.append_assoc]
        rw [readVarEntries_strArr1 fuel key _ globals arrays hkey]
        have hentry := readStrArray1D_w flat rest hP h31
        rw [List.append_assoc] at hentry
        simp only [hentry]
        rw [hre]
        have hd0 : ((flat.length : Nat) : Int) = d0 := by
          rw [hlen, hprod]
          simp [Int.toNat_of_nonneg (hdb d0 (by simp)).1]
        rw [hd0]
      · simp only [pure, Except.pure, Except.ok.injEq] at hw
        subst hw
        rw [Erago.writeWithKeyStr2D]
        simp only [List.cons_append, List.append_assoc]
        rw [readVarEntries_strArr2 fuel key _ globals arrays hkey]
        have hb0 := hdb d0 (by simp)
        have hb1 := hdb d1 (by simp)
        have hc0 : ((d0.toNat : Nat) : Int) = d0 := Int.toNat_of_nonneg hb0.1
        have hc1 : ((d1.toNat : Nat) : Int) = d1 := Int.toNat_of_nonneg hb1.1
        have hflat2 : flat.length = d0.toNat * d1.toNat := by
          rw [hlen, hprod]
          simp
        have hentry := readStrArray2D_w d0.toNat d1.toNat flat rest hP
          (by omega) (by omega) hflat2
        rw [hc0, hc1] at hentry
        simp only [List.append_assoc] at hentry
        simp only [hentry]
        rw [hre]
      · simp only [pure, Except.pure, Except.ok.injEq] at hw
        subst hw
        rw [Erago.writeWithKeyStr3D]
        simp only [List.cons_append, List.append_assoc]
        rw [readVarEntries_strArr3 fuel key _ globals arrays hkey]
        have hb0 := hdb d0 (by simp)
        have hb1 := hdb d1 (by simp)
        have hb2 := hdb d2 (by simp)
        have hc0 : ((d0.toNat : Nat) : Int) = d0 := Int.toNat_of_nonneg hb0.1
        have hc1 : ((d1.toNat : Nat) : Int) = d1 := Int.toNat_of_nonneg hb1.1
        have hc2 : ((d2.toNat : Nat) : Int) = d2 := Int.toNat_of_nonneg hb2.1
        have hflat3 : flat.length = d0.toNat * d1.toNat * d2.toNat := by
          rw [hlen, hprod]
          simp [Nat.mul_assoc]
        have hentry := readStrArray3D_w d0.toNat d1.toNat d2.toNat flat rest hP
          (by omega) (by omega) (by omega) hflat3
        rw [hc0, hc1, hc2] at hentry
        simp only [List.append_assoc] at hentry
        simp only [hentry]
        rw [hre]
      · simp at hw
  · rw [if_neg hstr] at hw
    cases hda : Erago.arrayToDenseInt arr with
    | error e =>
      simp [hda] at hw
    | ok fd =>
      obtain ⟨flat, dims0⟩ := fd
      simp only [hda] at hw
      obtain ⟨hdeq, ⟨total, htd, hlen⟩, hmem⟩ := arrayToDenseInt_spec arr flat dims0 hda
      have hdb : ∀ d ∈ dims0, 0 ≤ d ∧ d < 2 ^ 31 := by
        rw [hdeq]
        by_cases he : arr.dims = []
        · rw [if_pos he]
          intro d hd
          simp at hd
          subst hd
          norm_num
        · rw [if_neg he]
          exact hdims
      have hprod : total = (dims0.map Int.toNat).prod := by
        have := totalDims_ok dims0 1 total (fun d hd => (hdb d hd).1) htd
        simpa using this
      have htle : total ≤ 1000000 := totalDims_le dims0 1 total htd (by norm_num)
      have h31 : flat.length < 2 ^ 31 := by rw [hlen]; omega
      have hP : ∀ v ∈ flat, -(2 ^ 63) ≤ v ∧ v ≤ 2 ^ 63 - 1 := by
        intro v hv
        rcases hmem v hv with rfl | ⟨p, hp, rfl⟩
        · norm_num
        · have := hdata p hp
          rw [if_neg hstr] at this
          exact this
      have hre : Erago.redecodeArray arr = Erago.denseIntToArray flat dims0 := by
        rw [Erago.redecodeArray, if_neg hstr, hda]
      rcases dims0 with _ | ⟨d0, _ | ⟨d1, _ | ⟨d2, _ | ⟨d3, ds⟩⟩⟩⟩
      · simp at hw
      · simp only [pure, Except.pure, Except.ok.injEq] at hw
        subst hw
        rw [Erago.writeWithKeyInt1D]
        simp only [List.cons_append, List.append_assoc]
        rw [readVarEntries_intArr1 fuel key _ globals arrays hkey]
        have hentry := readIntArray1D_w flat rest hP h31
        rw [List.append_assoc] at hentry
        simp only [hentry]
        rw [hre]
        have hd0 : ((flat.length : Nat) : Int) = d0 := by
          rw [hlen, hprod]
          simp [Int.toNat_of_nonneg (hdb d0 (by simp)).1]
        rw [hd0]
      · simp only [pure, Except.pure, Except.ok.injEq] at hw
        subst hw
        rw [Erago.writeWithKeyInt2D]
        simp only [List.cons_append, List.append_assoc]
        rw [readVarEntries_intArr2 fuel key _ globals arrays hkey]
        have hb0 := hdb d0 (by simp)
        have hb1 := hdb d1 (by simp)
        have hc0 : ((d0.toNat : Nat) : Int) = d0 := Int.toNat_of_nonneg hb0.1
        have hc1 : ((d1.toNat : Nat) : Int) = d1 := Int.toNat_of_nonneg hb1.1
        have hflat2 : flat.length = d0.toNat * d1.toNat := by
          rw [hlen, hprod]
          simp
        have hentry := readIntArray2D_w d0.toNat d1.toNat flat rest hP
          (by omega) (by omega) hflat2
        rw [hc0, hc1] at hentry
        simp only [List.append_assoc] at hentry
        simp only [hentry]
        rw [hre]
      · simp only [pure, Except.pure, Except.ok.injEq] at hw
        subst hw
        rw [Erago.writeWithKeyInt3D]
        simp only [List.cons_append, List.append_assoc]
        rw [readVarEntries_intArr3 fuel key _ globals arrays hkey]
        have hb0 := hdb d0 (by simp)
        have hb1 := hdb d1 (by simp)
        have hb2 := hdb d2 (by simp)
        have hc0 : ((d0.toNat : Nat) : Int) = d0 := Int.toNat_of_nonneg hb0.1
        have hc1 : ((d1.toNat : Nat) : Int) = d1 := Int.toNat_of_nonneg hb1.1
        have hc2 : ((d2.toNat : Nat) : Int) = d2 := Int.toNat_of_nonneg hb2.1
        have hflat3 : flat.length = d0.toNat * d1.toNat * d2.toNat := by
          rw [hlen, hprod]
          simp [Nat.mul_assoc]
        have hentry := readIntArray3D_w d0.toNat d1.toNat d2.toNat flat rest hP
          (by omega) (by omega) (by omega) hflat3
        rw [hc0, hc1, hc2] at hentry
        simp only [List.append_assoc] at hentry
        simp only [hentry]
        rw [hre]
      · simp at hw
/-- updAssoc on a fresh key appends. -/
theorem updAssoc_fresh {α : Type} (m : List (String × α)) (k : String) (v : α)
    (h : ∀ q ∈ m, q.1 ≠ k) :
    Erago.updAssoc m k v = m ++ [(k, v)] := by
  have hcon : ¬(m.any (fun p => p.1 = k) = true) := by
    simp only [List.any_eq_true, decide_eq_true_eq]
    push_neg
    exact h
  rw [Erago.updAssoc, if_neg hcon]

/-- The entry loop over a run of globals entries appends them in order. -/
theorem readVarEntries_globals_loop :
    ∀ (gs : List (String × Erago.Value)) (fuel : Nat) (rest : List Nat)
      (globals : List (String × Erago.Value))
      (arrays : List (String × Erago.ArrayVar)),
      (∀ p ∈ gs, 2 * (Erago.utf16Units p.1).length < 2 ^ 35 ∧ Erago.wfValue p.2) →
      (∀ p ∈ gs, ∀ q ∈ globals, q.1 ≠ p.1) →
      (gs.map Prod.fst).Nodup →
      Erago.readVarEntries (fuel + gs.length)
        (gs.flatMap Erago.globalEntryBytes ++ rest) globals arrays =
      Erago.readVarEntries fuel rest (globals ++ gs) arrays := by
  intro gs
  induction gs with
  | nil =>
    intro fuel rest globals arrays _ _ _
    simp
  | cons p ps ih =>
    intro fuel rest globals arrays hwf hfresh hnd
    rw [List.flatMap_cons, List.append_assoc]
    have hfa : fuel + (p :: ps).length = (fuel + ps.length) + 1 := by
      simp only [List.length_cons]
      omega
    rw [hfa, readVarEntries_global_step (fuel + ps.length) p _ globals arrays
      (hwf p (by simp)).1 (hwf p (by simp)).2]
    rw [updAssoc_fresh globals p.1 p.2 (fun q hq => hfresh p (by simp) q hq)]
    simp only [List.map_cons, List.nodup_cons] at hnd
    rw [ih fuel rest (globals ++ [(p.1, p.2)]) arrays
      (fun q hq => hwf q (by simp [hq]))
      (by
        intro q hq r hr
        rcases List.mem_append.mp hr with h1 | h1
        · exact hfresh q (by simp [hq]) r h1
        · have : r = (p.1, p.2) := by simpa using h1
          subst this
          intro hcon
          exact hnd.1 (by
            rw [hcon]
            exact List.mem_map.mpr ⟨q, hq, rfl⟩))
      hnd.2]
    rw [List.append_assoc]
    rfl

/-- The array-entry foldl of writeVarBinaryFile concatenates the entry
bytes when every entry writes successfully. -/
theorem writeVarArrays_ok :
    ∀ (as : List (String × Erago.ArrayVar)) (acc : List Nat),
      (∀ p ∈ as, ∃ b, Erago.writeArrayEntry p.1 p.2 = .ok b) →
      (as.foldlM (fun acc p => do
        let bs ← Erago.writeArrayEntry p.1 p.2
        pure (acc ++ bs)) acc) =
        .ok (acc ++ as.flatMap (fun p => Erago.writeArrayEntryD p.1 p.2)) := by
  intro as
  induction as with
  | nil =>
    intro acc _
    simp only [List.foldlM_nil, List.flatMap_nil, List.append_nil]
    rfl
  | cons p ps ih =>
    intro acc hok
    obtain ⟨b, hb⟩ := hok p (by simp)
    have hd : Erago.writeArrayEntryD p.1 p.2 = b := by
      rw [Erago.writeArrayEntryD, hb]
    have hstep : ((p :: ps).foldlM (fun acc p => do
        let bs ← Erago.writeArrayEntry p.1 p.2
        pure (acc ++ bs)) acc) =
        (ps.foldlM (fun acc p => do
          let bs ← Erago.writeArrayEntry p.1 p.2
          pure (acc ++ bs)) (acc ++ b)) := by
      have h1 : ((p :: ps).foldlM (fun acc p => do
          let bs ← Erago.writeArrayEntry p.1 p.2
          pure (acc ++ bs)) acc) =
          ((do
            let bs ← Erago.writeArrayEntry p.1 p.2
            pure (acc ++ bs) : Except String (List Nat)) >>= fun a2 =>
            ps.foldlM (fun acc p => do
              let bs ← Erago.writeArrayEntry p.1 p.2
              pure (acc ++ bs)) a2) := rfl
      rw [h1, hb]
      simp [bind, Except.bind, pure, Except.pure]
    rw [hstep, ih (acc ++ b) (fun q hq => hok q (by simp [hq]))]
    rw [List.flatMap_cons, hd, List.append_assoc]

/-- The entry loop over a run of array entries appends their dense
re-materialisations in order. -/
theorem readVarEntries_arrays_loop :
    ∀ (as : List (String × Erago.ArrayVar)) (fuel : Nat) (rest : List Nat)
      (globals : List (String × Erago.Value))
      (arrays : List (String × Erago.ArrayVar)),
      (∀ p ∈ as, 2 * (Erago.utf16Units p.1).length < 2 ^ 35 ∧ Erago.wfArray p.2 ∧
        ∃ b, Erago.writeArrayEntry p.1 p.2 = .ok b) →
      (∀ p ∈ as, ∀ q ∈ arrays, q.1 ≠ p.1) →
      (as.map Prod.fst).Nodup →
      Erago.readVarEntries (fuel + as.length)
        (as.flatMap (fun p => Erago.writeArrayEntryD p.1 p.2) ++ rest)
        globals arrays =
      Erago.readVarEntries fuel rest globals
        (arrays ++ as.map (fun p => (p.1, Erago.redecodeArray p.2))) := by
  intro as
  induction as with
  | nil =>
    intro fuel rest globals arrays _ _ _
    simp
  | cons p ps ih =>
    intro fuel rest globals arrays hwf hfresh hnd
    rw [List.flatMap_cons, List.append_assoc]
    have hfa : fuel + (p :: ps).length = (fuel + ps.length) + 1 := by
      simp only [List.length_cons]
      omega
    obtain ⟨b, hb⟩ := (hwf p (by simp)).2.2
    have hd : Erago.writeArrayEntryD p.1 p.2 = b := by
      rw [Erago.writeArrayEntryD, hb]
    rw [hfa, hd, readVarEntries_array_step (fuel + ps.length) p.1 p.2 b _
      globals arrays (hwf p (by simp)).1 (hwf p (by simp)).2.1 hb]
    rw [updAssoc_fresh arrays p.1 _ (fun q hq => hfresh p (by simp) q hq)]
    simp only [List.map_cons, List.nodup_cons] at hnd
    rw [ih fuel rest globals (arrays ++ [(p.1, Erago.redecodeArray p.2)])
      (fun q hq => hwf q (by simp [hq]))
      (by
        intro q hq r hr
        rcases List.mem_append.mp hr with h1 | h1
        · exact hfresh q (by simp [hq]) r h1
        · have : r = (p.1, Erago.redecodeArray p.2) := by simpa using h1
          subst this
          intro hcon
          exact hnd.1 (by
            rw [hcon]
            exact List.mem_map.mpr ⟨q, hq, rfl⟩))
      hnd.2]
    rw [List.append_assoc]
    rfl
/-- Every globals entry occupies at least one byte. -/
theorem globalEntryBytes_pos (p : String × Erago.Value) :
    1 ≤ (Erago.globalEntryBytes p).length := by
  rw [Erago.globalEntryBytes]
  split_ifs <;> simp [Erago.writeWithKeyStr, Erago.writeWithKeyInt]

/-- Every successfully written array entry occupies at least one byte. -/
theorem writeArrayEntry_pos (key : String) (arr : Erago.ArrayVar)
    (b : List Nat) (hb : Erago.writeArrayEntry key arr = .ok b) :
    1 ≤ b.length := by
  unfold Erago.writeArrayEntry at hb
  simp only [bind, Except.bind] at hb
  by_cases hstr : arr.isString = true
  · rw [if_pos hstr] at hb
    cases hda : Erago.arrayToDenseStr arr with
    | error e => simp [hda] at hb
    | ok fd =>
      obtain ⟨flat, dims0⟩ := fd
      simp only [hda] at hb
      rcases dims0 with _ | ⟨d0, _ | ⟨d1, _ | ⟨d2, _ | ⟨d3, ds⟩⟩⟩⟩ <;>
        simp only [pure, Except.pure, Except.ok.injEq] at hb <;>
        first
        | (subst hb
           simp [Erago.writeWithKeyStr1D, Erago.writeWithKeyStr2D,
             Erago.writeWithKeyStr3D])
        | simp at hb
  · rw [if_neg hstr] at hb
    cases hda : Erago.arrayToDenseInt arr with
    | error e => simp [hda] at hb
    | ok fd =>
      obtain ⟨flat, dims0⟩ := fd
      simp only [hda] at hb
      rcases dims0 with _ | ⟨d0, _ | ⟨d1, _ | ⟨d2, _ | ⟨d3, ds⟩⟩⟩⟩ <;>
        simp only [pure, Except.pure, Except.ok.injEq] at hb <;>
        first
        | (subst hb
           simp [Erago.writeWithKeyInt1D, Erago.writeWithKeyInt2D,
             Erago.writeWithKeyInt3D])
        | simp at hb

/-- A flatMap of nonempty chunks is at least as long as its index list. -/
theorem flatMap_length_ge {α : Type} (f : α → List Nat) :
    ∀ (l : List α), (∀ x ∈ l, 1 ≤ (f x).length) →
      l.length ≤ (l.flatMap f).length := by
  intro l
  induction l with
  | nil => intro _; simp
  | cons x xs ih =>
    intro h
    rw [List.flatMap_cons]
    simp only [List.length_cons, List.length_append]
    have h1 := h x (by simp)
    have h2 := ih (fun y hy => h y (by simp [hy]))
    omega
/-- Decoding the bytes produced by writeVarBinaryFile recovers the save
identity, message and globals exactly, and every array as the dynamic
re-materialisation of its dense flattening. -/
theorem readVarBinaryData_writeVarData
    (unique version : Int) (saveMes : String)
    (globals : List (String × Erago.Value))
    (arrays : List (String × Erago.ArrayVar)) (bytes : List Nat)
    (hu : -(2 ^ 63) ≤ unique ∧ unique ≤ 2 ^ 63 - 1)
    (hver : -(2 ^ 63) ≤ version ∧ version ≤ 2 ^ 63 - 1)
    (hmes : 2 * (Erago.utf16Units saveMes).length < 2 ^ 35)
    (hg : ∀ p ∈ globals, 2 * (Erago.utf16Units p.1).length < 2 ^ 35 ∧
      Erago.wfValue p.2)
    (ha : ∀ p ∈ arrays, 2 * (Erago.utf16Units p.1).length < 2 ^ 35 ∧
      Erago.wfArray p.2 ∧ ∃ b, Erago.writeArrayEntry p.1 p.2 = .ok b)
    (hgnd : (globals.map Prod.fst).Nodup)
    (hand : (arrays.map Prod.fst).Nodup)
    (hw : Erago.writeVarData unique version saveMes globals arrays = .ok bytes) :
    Erago.readVarBinaryData bytes =
      .ok ⟨unique, version, saveMes, globals,
        arrays.map (fun p => (p.1, Erago.redecodeArray p.2))⟩ := by
  unfold Erago.writeVarData at hw
  rw [writeVarArrays_ok arrays [] (fun p hp => (ha p hp).2.2)] at hw
  simp only [bind, Except.bind, List.nil_append, pure, Except.pure,
    Except.ok.injEq] at hw
  subst hw
  have hGdef : globals.flatMap (fun p =>
      if p.2.kind = .string then Erago.writeWithKeyStr p.1 p.2.str
      else Erago.writeWithKeyInt p.1 p.2.int64) =
      globals.flatMap Erago.globalEntryBytes := rfl
  rw [hGdef]
  have h1808 : (1808 : Int) = ((1808 : Nat) : Int) := by norm_num
  have h0 : (0 : Int) = ((0 : Nat) : Int) := by norm_num
  rw [h1808, h0]
  simp only [List.append_assoc, List.cons_append, List.nil_append]
  set TG := globals.flatMap Erago.globalEntryBytes with hTG
  set TA := arrays.flatMap (fun p => Erago.writeArrayEntryD p.1 p.2) with hTA
  set T6 := TG ++ (TA ++ [Erago.etEOF]) with hT6
  set T5 := Erago.wDotNetStr saveMes ++ T6 with hT5
  set T4 := Erago.le64 version ++ T5 with hT4
  set T3 := Erago.le64 unique ++ T4 with hT3
  set T2 := (2 : Nat) :: T3 with hT2
  set T1 := Erago.le32 ((0 : Nat) : Int) ++ T2 with hT1
  set T0 := Erago.le32 ((1808 : Nat) : Int) ++ T1 with hT0
  have s1 : Erago.rLE64u (Erago.le64 (Erago.eraBDHeader : Int) ++ T0) =
      .ok (Erago.eraBDHeader, T0) :=
    rLE64u_le64 _ _ (by norm_num [Erago.eraBDHeader])
  have s2 : Erago.rLE32u (Erago.le32 ((1808 : Nat) : Int) ++ T1) =
      .ok (1808, T1) := rLE32u_le32 _ _ (by norm_num)
  have s3 : Erago.rLE32u (Erago.le32 ((0 : Nat) : Int) ++ T2) =
      .ok (0, T2) := rLE32u_le32 _ _ (by norm_num)
  have s4 : Erago.rBytes (4 * 0) T2 = .ok ([], T2) := by
    rw [Erago.rBytes]
    norm_num
  have s6 : Erago.rByte T2 = .ok (2, T3) := by
    rw [hT2, rByte_cons]
  have s8 : Erago.rLE64 (Erago.le64 unique ++ T4) = .ok (unique, T4) :=
    rLE64_le64 unique T4 hu
  have s9 : Erago.rLE64 (Erago.le64 version ++ T5) = .ok (version, T5) :=
    rLE64_le64 version T5 hver
  have s10 : Erago.rDotNetStr (Erago.wDotNetStr saveMes ++ T6) =
      .ok (saveMes, T6) := rDotNetStr_w saveMes T6 hmes
  have hbok : ∀ {β γ : Type} (x : β) (f : β → Except String γ),
      (Except.ok x : Except String β) >>= f = f x := fun x f => rfl
  unfold Erago.readVarBinaryData
  simp only [s1, hbok]
  rw [if_neg (show ¬(Erago.eraBDHeader ≠ Erago.eraBDHeader) by simp)]
  simp only [s2, hbok]
  simp only [s3, hbok]
  simp only [s4, hbok]
  rw [if_neg (show ¬((1808 : Nat) ≠ 1808) by simp)]
  simp only [s6, hbok]
  rw [if_neg (show ¬((2 : Nat) > 3) by norm_num),
    if_neg (show ¬((2 : Nat) ≠ 2) by simp)]
  simp only [s8, hbok]
  simp only [s9, hbok]
  simp only [s10, hbok]
  have hGlen : globals.length ≤ TG.length := by
    rw [hTG]
    exact flatMap_length_ge _ globals (fun p _ => globalEntryBytes_pos p)
  have hAlen : arrays.length ≤ TA.length := by
    rw [hTA]
    apply flatMap_length_ge
    intro p hp
    obtain ⟨b, hb⟩ := (ha p hp).2.2
    have hpos := writeArrayEntry_pos p.1 p.2 b hb
    have hd : Erago.writeArrayEntryD p.1 p.2 = b := by
      rw [Erago.writeArrayEntryD, hb]
    rw [hd]
    exact hpos
  have hlenr8 : T6.length + 1 =
      ((((TG.length - globals.length) + (TA.length - arrays.length) + 2) +
        arrays.length) + globals.length) := by
    rw [hT6]
    simp only [List.length_append, List.length_cons, List.length_nil]
    omega
  rw [hlenr8]
  have hloopG := readVarEntries_globals_loop globals
    ((((TG.length - globals.length) + (TA.length - arrays.length) + 2) +
      arrays.length))
    (TA ++ [Erago.etEOF]) [] [] hg (by simp) hgnd
  rw [← hTG] at hloopG
  have hT6b : T6 = TG ++ (TA ++ [Erago.etEOF]) := hT6
  rw [hT6b, hloopG]
  have hloopA := readVarEntries_arrays_loop arrays
    (((TG.length - globals.length) + (TA.length - arrays.length) + 2))
    [Erago.etEOF] ([] ++ globals) [] ha (by simp) hand
  rw [← hTA] at hloopA
  rw [hloopA]
  have hfin : (TG.length - globals.length) + (TA.length - arrays.length) + 2 =
      ((TG.length - globals.length) + (TA.length - arrays.length) + 1) + 1 := by
    omega
  rw [hfin, readVarEntries_eof]
  simp only [List.nil_append]
  rfl
/-- saveValueToValue undoes valueToSaveValue on canonically-built
values. -/
theorem saveValue_roundtrip (v : Erago.Value) (hv : Erago.wfValue v) :
    Erago.saveValueToValue (Erago.valueToSaveValue v) = v := by
  unfold Erago.wfValue at hv
  rw [Erago.valueToSaveValue]
  by_cases hk : v.kind = Erago.ValueKind.string
  · rw [if_pos hk]
    rw [if_pos hk] at hv
    show (if Erago.eqFold "string" "string" = true then Erago.VStr v.str
      else Erago.VInt 0) = v
    rw [if_pos (by decide)]
    have hstr : Erago.Value.str v = v.s := by
      rw [Erago.Value.str, if_pos hk]
    rw [hstr]
    cases v with
    | mk kind i s =>
      simp only at hk hv
      rw [Erago.VStr, hk, hv.1]
  · rw [if_neg hk]
    rw [if_neg hk] at hv
    show (if Erago.eqFold "int" "string" = true then Erago.VStr ""
      else Erago.VInt v.int64) = v
    rw [if_neg (by decide)]
    have hki : v.kind = Erago.ValueKind.int := by
      cases hkk : v.kind
      · rfl
      · exact absurd hkk hk
    have hint : Erago.Value.int64 v = v.i := by
      rw [Erago.Value.int64, if_pos hki]
    rw [hint]
    cases v with
    | mk kind i s =>
      simp only at hki hv
      rw [Erago.VInt, hki, hv.1]

/-- Applying a freshly built JSON snapshot reproduces the globals and
arrays exactly. -/
theorem applyVarSnapshot_build (saveMes : String)
    (globals : List (String × Erago.Value))
    (arrays : List (String × Erago.ArrayVar))
    (hg : ∀ p ∈ globals, Erago.wfValue p.2 ∧ Erago.asciiUpper p.1 = p.1)
    (ha : ∀ p ∈ arrays, p.2.dims ≠ [] ∧ Erago.asciiUpper p.1 = p.1 ∧
      ∀ q ∈ p.2.data, Erago.wfValue q.2) :
    Erago.applyVarSnapshot
      (Erago.buildVarSnapshot saveMes globals arrays) = (globals, arrays) := by
  have hdata : ∀ (l : List (String × Erago.Value)),
      (∀ q ∈ l, Erago.wfValue q.2) →
      l.map ((fun q => (q.1, Erago.saveValueToValue q.2)) ∘
        (fun q => (q.1, Erago.valueToSaveValue q.2))) = l := by
    intro l
    induction l with
    | nil => intro _; rfl
    | cons q qs ih =>
      intro hwf
      rw [List.map_cons]
      have h4 := saveValue_roundtrip q.2 (hwf q (by simp))
      simp only [Function.comp_apply]
      rw [h4, ih (fun r hr => hwf r (by simp [hr]))]
  have hmapG : ∀ (l : List (String × Erago.Value)),
      (∀ p ∈ l, Erago.wfValue p.2 ∧ Erago.asciiUpper p.1 = p.1) →
      l.map ((fun p => (Erago.asciiUpper p.1, Erago.saveValueToValue p.2)) ∘
        (fun p => (p.1, Erago.valueToSaveValue p.2))) = l := by
    intro l
    induction l with
    | nil => intro _; rfl
    | cons p ps ih =>
      intro hwf
      rw [List.map_cons]
      have h1 := (hwf p (by simp)).2
      have h2 := saveValue_roundtrip p.2 (hwf p (by simp)).1
      simp only [Function.comp_apply]
      rw [h1, h2, ih (fun q hq => hwf q (by simp [hq]))]
  have hmapA : ∀ (l : List (String × Erago.ArrayVar)),
      (∀ p ∈ l, p.2.dims ≠ [] ∧ Erago.asciiUpper p.1 = p.1 ∧
        ∀ q ∈ p.2.data, Erago.wfValue q.2) →
      l.map ((fun p => (Erago.asciiUpper p.1, Erago.applySnapshotArray p.2)) ∘
        (fun p => (p.1, (⟨p.2.isString, p.2.isDynamic, p.2.dims,
          p.2.data.map (fun q => (q.1, Erago.valueToSaveValue q.2))⟩ :
            Erago.SaveArraySnapshot)))) = l := by
    intro l
    induction l with
    | nil => intro _; rfl
    | cons p ps ih =>
      intro hwf
      rw [List.map_cons]
      have h1 := (hwf p (by simp)).2.1
      have h2 : Erago.applySnapshotArray
          ⟨p.2.isString, p.2.isDynamic, p.2.dims,
            p.2.data.map (fun q => (q.1, Erago.valueToSaveValue q.2))⟩ = p.2 := by
        rw [Erago.applySnapshotArray, Erago.newArrayVar]
        have hdne : p.2.dims.isEmpty = false := by
          have := (hwf p (by simp)).1
          cases hd : p.2.dims
          · exact absurd hd this
          · rfl
        simp only [hdne, Bool.false_eq_true, if_false, List.map_map]
        rw [hdata p.2.data (hwf p (by simp)).2.2]
      simp only [Function.comp_apply]
      rw [h1, h2, ih (fun q hq => hwf q (by simp [hq]))]
  rw [Erago.applyVarSnapshot, Erago.buildVarSnapshot]
  simp only [List.map_map]
  rw [hmapG globals hg, hmapA arrays ha]
/-- C2 counterexample: for the snapshot holding the single non-dynamic int
array A (dims [1], no stored values), decoding the binary encoding does
NOT yield the same arrays: the decoded A comes back with isDynamic set
(denseIntToArray always builds a dynamic array), so strict binary
round-trip equality fails even though every field except the dynamic flag
is preserved. -/
theorem C2_counterexample :
    (Erago.writeVarData 1 2 "" []
        [("A", ⟨false, false, [1], []⟩)] >>= Erago.readVarBinaryData ≠
      .ok ⟨1, 2, "", [], [("A", ⟨false, false, [1], []⟩)]⟩) ∧
    (Erago.writeVarData 1 2 "" []
        [("A", ⟨false, false, [1], []⟩)] >>= Erago.readVarBinaryData =
      .ok ⟨1, 2, "", [], [("A", ⟨false, true, [1], []⟩)]⟩) := by
  constructor
  · decide
  · decide
/-- C2 (amended): both wire formats round-trip up to the stated
normalisations. The JSON format is exact: applying the built snapshot
reproduces the globals and arrays. The binary format preserves the save
identity, message and globals exactly, and recovers each array as the
dynamic re-materialisation of its dense row-major flattening
(denseIntToArray/denseStrToArray of arrayToDenseInt/Str), not necessarily
the identical ArrayVar value. -/
theorem C2_amended
    (unique version : Int) (saveMes : String)
    (globals : List (String × Erago.Value))
    (arrays : List (String × Erago.ArrayVar)) (bytes : List Nat)
    (hu : -(2 ^ 63) ≤ unique ∧ unique ≤ 2 ^ 63 - 1)
    (hver : -(2 ^ 63) ≤ version ∧ version ≤ 2 ^ 63 - 1)
    (hmes : 2 * (Erago.utf16Units saveMes).length < 2 ^ 35)
    (hg : ∀ p ∈ globals, 2 * (Erago.utf16Units p.1).length < 2 ^ 35 ∧
      Erago.wfValue p.2 ∧ Erago.asciiUpper p.1 = p.1)
    (ha : ∀ p ∈ arrays, 2 * (Erago.utf16Units p.1).length < 2 ^ 35 ∧
      Erago.wfArray p.2 ∧ p.2.dims ≠ [] ∧ Erago.asciiUpper p.1 = p.1 ∧
      (∀ q ∈ p.2.data, Erago.wfValue q.2) ∧
      (∃ b, Erago.writeArrayEntry p.1 p.2 = .ok b))
    (hgnd : (globals.map Prod.fst).Nodup)
    (hand : (arrays.map Prod.fst).Nodup)
    (hw : Erago.writeVarData unique version saveMes globals arrays = .ok bytes) :
    Erago.applyVarSnapshot (Erago.buildVarSnapshot saveMes globals arrays) =
      (globals, arrays) ∧
    Erago.readVarBinaryData bytes =
      .ok ⟨unique, version, saveMes, globals,
        arrays.map (fun p => (p.1, Erago.redecodeArray p.2))⟩ :=
  ⟨applyVarSnapshot_build saveMes globals arrays
      (fun p hp => ⟨(hg p hp).2.1, (hg p hp).2.2⟩)
      (fun p hp => ⟨(ha p hp).2.2.1, (ha p hp).2.2.2.1, (ha p hp).2.2.2.2.1⟩),
    readVarBinaryData_writeVarData unique version saveMes globals arrays bytes
      hu hver hmes
      (fun p hp => ⟨(hg p hp).1, (hg p hp).2.1⟩)
      (fun p hp => ⟨(ha p hp).1, (ha p hp).2.1, (ha p hp).2.2.2.2.2⟩)
      hgnd hand hw⟩

/-- Witness for C2 at a concrete snapshot: one int global G = 5 and one
dynamic 1D int array B of size 2 holding 7 at index 0. -/
theorem C2_amended_witness :
    Erago.applyVarSnapshot (Erago.buildVarSnapshot ""
        [("G", Erago.VInt 5)]
        [("B", ⟨false, true, [2], [("0", Erago.VInt 7)]⟩)]) =
      ([("G", Erago.VInt 5)],
        [("B", ⟨false, true, [2], [("0", Erago.VInt 7)]⟩)]) ∧
    Erago.readVarBinaryData
      (match Erago.writeVarData 1 2 "" [("G", Erago.VInt 5)]
          [("B", ⟨false, true, [2], [("0", Erago.VInt 7)]⟩)] with
        | .ok b => b
        | .error _ => []) =
      .ok ⟨1, 2, "", [("G", Erago.VInt 5)],
        [("B", Erago.redecodeArray ⟨false, true, [2], [("0", Erago.VInt 7)]⟩)]⟩ :=
  C2_amended 1 2 "" [("G", Erago.VInt 5)]
    [("B", ⟨false, true, [2], [("0", Erago.VInt 7)]⟩)]
    (match Erago.writeVarData 1 2 "" [("G", Erago.VInt 5)]
        [("B", ⟨false, true, [2], [("0", Erago.VInt 7)]⟩)] with
      | .ok b => b
      | .error _ => [])
    (by decide) (by decide) (by decide)
    (by
      intro p hp
      simp only [List.mem_singleton] at hp
      subst hp
      refine ⟨by decide, by norm_num [Erago.wfValue, Erago.VInt]; decide, by decide⟩)
    (by
      intro p hp
      simp only [List.mem_singleton] at hp
      subst hp
      refine ⟨by decide,
        by norm_num [Erago.wfArray, Erago.VInt, Erago.Value.int64],
        by decide, by decide, by norm_num [Erago.wfValue, Erago.VInt]; decide,
        ⟨(match Erago.writeArrayEntry "B"
            (⟨false, true, [2], [("0", Erago.VInt 7)]⟩ : Erago.ArrayVar) with
          | .ok b => b
          | .error _ => []), by decide⟩⟩)
    (by decide) (by decide) (by decide)
/-- C8: when the binary save payload decodes but its unique code or
version differs from the VM's save identity, LOADVAR's dat branch returns
the incompatibility error itself (which run propagates to the host); it
does not set RESULT = 0. -/
theorem C8_loadvar_identity_mismatch
    (fb : List Nat → Except String Erago.LoadVM) (vm : Erago.LoadVM)
    (data : List Nat) (payload : Erago.VarPayload)
    (hdec : Erago.readVarBinaryData data = .ok payload)
    (hmm : payload.unique ≠ vm.saveUniqueCode ∨
      payload.version ≠ vm.saveVersion) :
    Erago.execLoadVarDat fb vm data =
      .error (if payload.unique ≠ vm.saveUniqueCode
        then "SAVEVAR incompatible unique code"
        else "SAVEVAR incompatible version") := by
  unfold Erago.execLoadVarDat Erago.loadFromData
  simp only [hdec]
  by_cases h1 : payload.unique ≠ vm.saveUniqueCode
  · simp [h1]
  · have h2 : payload.version ≠ vm.saveVersion := by tauto
    simp [h1, h2]

/-- Witness for C8: a payload written with unique code 11 loaded into a VM
whose save identity is (10, 20). -/
theorem C8_loadvar_identity_mismatch_witness :
    Erago.execLoadVarDat (fun _ => .error "json fallback")
      ⟨10, 20, [], []⟩
      (match Erago.writeVarData 11 20 "" [] [] with
        | .ok b => b
        | .error _ => []) =
      .error (if (11 : Int) ≠ 10
        then "SAVEVAR incompatible unique code"
        else "SAVEVAR incompatible version") :=
  C8_loadvar_identity_mismatch (fun _ => .error "json fallback")
    ⟨10, 20, [], []⟩
    (match Erago.writeVarData 11 20 "" [] [] with
      | .ok b => b
      | .error _ => [])
    ⟨11, 20, "", [], []⟩ (by decide) (by decide)
